import Mathlib

/-!
# uCNC motion control (motion_control.c): a shallow embedding

The foreground motion-control layer of uCNC is embedded as state-passing
functions over a `World`: the private statics of `motion_control.c`, the global
settings, the state of the collaborating modules (planner, kinematics, io, cnc)
and a chronological trace of the calls made to them.

* Arrays (`float[AXIS_COUNT]`, `uint32_t[STEPPER_COUNT]`) are lists.
* `uint32_t` and `uint8_t` values are naturals, reduced modulo `2^32` / `2^8`
  wherever the C arithmetic can wrap.
* `float` is an abstract carrier `F` with the operations the code uses
  (`FloatOps`); nothing is assumed about them.
* Modules whose code is not part of this development are a record of functions
  (`Collab`) over an abstract environment `E`.
* The waits `while (planner_buffer_is_full()) ...` take a fuel argument, the
  number of times the loop condition may be evaluated; `none` means the wait
  was still spinning when the fuel ran out.
-/

namespace uCNC

/-! ## Constants, flags and small helpers -/

/-- Modelled from the spec: STATUS_OK of grbl_interface.h (not among the sources),
the one status whose value the interface fixes: zero. -/
def STATUS_OK : Nat := 0

/-- INT32_MAX of stdint.h. -/
def INT32_MAX : Nat := 2147483647

/-- Modelled from the spec: the macro CHECKFLAG(x, y) of utils.h (not among the
sources), the bit test `x & y` read as a truth value. -/
def CHECKFLAG (x y : Nat) : Bool := (x &&& y) != 0

/-- Modelled from the spec: the macro SETFLAG(x, y) of utils.h (not among the
sources), `x |= y` on an 8 bit field. -/
def SETFLAG (x y : Nat) : Nat := (x ||| y) % 256

/-- Modelled from the spec: the macro CLEARFLAG(x, y) of utils.h (not among the
sources), `x &= ~y` on an 8 bit field. -/
def CLEARFLAG (x y : Nat) : Nat := (x &&& (255 ^^^ (y % 256))) % 256

/-- The call `memcpy(dst, src, n * sizeof(elem))`: the first `n` cells of `dst`
are replaced by the first `n` cells of `src`. -/
def memcpy {α : Type} (n : Nat) (dst src : List α) : List α :=
  src.take n ++ dst.drop n

/-- Compile-time configuration: the constants and feature switches that
`motion_control.c` takes from headers that are not among the sources (config.h,
grbl_interface.h, cnc.h, motion_control.h), as parameters. -/
structure Config where
  AXIS_COUNT : Nat
  STEPPER_COUNT : Nat
  ENABLE_BACKLASH_COMPENSATION : Bool
  ENABLE_LINACT_PLANNER : Bool
  N_ARC_CORRECTION : Nat
  STATUS_TRAVEL_EXCEEDED : Nat
  STATUS_CRITICAL_FAIL : Nat
  EXEC_JOG : Nat
  EXEC_HOMING : Nat
  EXEC_ALARM_SOFT_LIMIT : Nat
  MOTIONCONTROL_MODE_NOMOTION : Nat
  MOTIONCONTROL_MODE_INVERSEFEED : Nat
  MOTIONCONTROL_MODE_BACKLASH_COMPENSATION : Nat

/-- The `float` operations used by motion control, over an abstract carrier. -/
structure FloatOps (F : Type) where
  zero : F
  one : F
  M_PI : F
  M_COS_TAYLOR_1 : F
  FLT_MAX : F
  add : F → F → F
  sub : F → F → F
  mul : F → F → F
  div : F → F → F
  neg : F → F
  le : F → F → Bool
  of_uint : Nat → F
  to_uint : F → Nat
  fast_flt_pow2 : F → F
  fast_flt_invsqrt : F → F
  fast_flt_div2 : F → F
  fast_flt_mul2 : F → F
  fast_flt_div4 : F → F
  atan2 : F → F → F
  floor : F → F
  fabs : F → F
  sqrt : F → F
  cos : F → F

/-! ## Data model -/

/-- Modelled from the spec: the motion block `motion_data_t` (motion_control.h
is not part of the sources). Fields as in the data model of the specification;
`steps`, `full_steps` and `total_steps` are 32 bit unsigned, `dirbits`,
`step_indexer` and `motion_mode` 8 bit unsigned. -/
structure motion_data_t (F : Type) where
  dir_vect : List F
  steps : List Nat
  dirbits : Nat
  full_steps : Nat
  total_steps : Nat
  step_indexer : Nat
  feed : F
  spindle : Int
  dwell : Nat
  motion_mode : Nat
deriving DecidableEq, Repr

/-- Modelled from the spec: the fields of `g_settings` (settings.h is not among the
sources) that motion control reads or writes, as the settings collaborator of
the specification lists them. -/
structure settings_t (F : Type) where
  backlash_steps : List Nat
  arc_tolerance : F
  max_distance : List F
  homing_fast_feed_rate : F
  homing_slow_feed_rate : F
  homing_offset : F
  homing_dir_invert_mask : Nat
  limits_invert_mask : Nat
deriving DecidableEq, Repr

/-- One entry of the ghost trace: a call made by motion control, with its
arguments or its result. -/
inductive Event (F : Type) where
  | mc_line_call (target : List F) (block : motion_data_t F)
  | mc_line_return (status : Nat)
  | cnc_alarm (code : Nat)
  | planner_buffer_is_full (result : Bool)
  | cnc_doevents (result : Bool)
  | planner_add_line (steps : Option (List Nat)) (block : motion_data_t F)
deriving DecidableEq, Repr

/-- The collaborating modules, as functions over their own state `E`. -/
structure Collab (E F : Type) where
  cnc_get_exec_state : E → Nat → Nat
  cnc_alarm : E → Nat → E
  cnc_doevents : E → Bool × E
  kinematics_apply_transform : E → List F → List F
  kinematics_apply_inverse : E → List F → List Nat
  io_check_boundaries : E → List F → Bool
  planner_buffer_is_full : E → Bool
  planner_get_position : E → List Nat
  planner_add_line : E → Option (List Nat) → motion_data_t F → E
  indeterminate_steps : E → List Nat

/-- The state motion control runs in: its statics, `g_settings`, the
collaborators and the trace (oldest event first). -/
structure World (E F : Type) where
  mc_checkmode : Bool
  mc_last_target : List F
  mc_prev_transformed_target : List F
  mc_last_dirbits : Nat
  g_settings : settings_t F
  env : E
  trace : List (Event F)

/-- Append one event to the trace. -/
def World.log {E F : Type} (w : World E F) (ev : Event F) : World E F :=
  { w with trace := w.trace ++ [ev] }

/-- What a call of `mc_line` leaves behind: the returned status, the world, and
the caller's two arrays/structs it was handed by pointer. -/
structure LineResult (E F : Type) where
  status : Nat
  world : World E F
  target : List F
  block : motion_data_t F

/-- What lines 116-160 of `mc_line` compute: the locals `inv_dist` and
`step_new_pos`, the world (with `mc_prev_transformed_target` updated) and the block. -/
structure MotionResult (E F : Type) where
  inv_dist : F
  step_new_pos : List Nat
  world : World E F
  block : motion_data_t F

/-! ## motion_control.c -/

section Code

variable {E F : Type}

/-- The function `mc_get_checkmode`. -/
def mc_get_checkmode (w : World E F) : Bool := w.mc_checkmode

/-- The function `mc_toogle_checkmode`. -/
def mc_toogle_checkmode (w : World E F) : Bool × World E F :=
  (!w.mc_checkmode, { w with mc_checkmode := !w.mc_checkmode })

/-- The function `mc_get_position`: copies `mc_last_target` into the caller's array. -/
def mc_get_position (cfg : Config) (w : World E F) (target : List F) : List F :=
  memcpy cfg.AXIS_COUNT target w.mc_last_target

/-- The wait `while (planner_buffer_is_full()) { if (!cnc_doevents()) return
STATUS_CRITICAL_FAIL; }`. The result is `true` when the loop was left because
the planner has room and `false` when the event pump asked to bail out. -/
def wait_planner_space (c : Collab E F) : Nat → World E F → Option (Bool × World E F)
  | 0, _ => none
  | fuel + 1, w =>
    let full := c.planner_buffer_is_full w.env
    let w := w.log (Event.planner_buffer_is_full full)
    if full then
      let r := c.cnc_doevents w.env
      let w := { w with env := r.2, trace := w.trace ++ [Event.cnc_doevents r.1] }
      if r.1 then wait_planner_space c fuel w else some (false, w)
    else some (true, w)

/-- Lines 122-128 of `mc_line`: the Cartesian delta, its squared length, and the
update of `mc_prev_transformed_target`; `i` runs from `AXIS_COUNT - 1` down to 0.
The state is (`dir_vect`, `inv_dist`, `mc_prev_transformed_target`). -/
def mc_line_dir_vect (ops : FloatOps F) (target : List F) :
    Nat → List F × F × List F → List F × F × List F
  | 0, s => s
  | i + 1, (dir_vect, inv_dist, prev) =>
    let d := ops.sub (target.getD i ops.zero) (prev.getD i ops.zero)
    mc_line_dir_vect ops target i
      (dir_vect.set i d, ops.add inv_dist (ops.fast_flt_pow2 d), prev.set i (target.getD i ops.zero))

/-- Lines 134-138 of `mc_line`: `dir_vect[i] *= inv_dist`. -/
def mc_line_normalize (ops : FloatOps F) (inv_dist : F) : Nat → List F → List F
  | 0, v => v
  | i + 1, v => mc_line_normalize ops inv_dist i (v.set i (ops.mul (v.getD i ops.zero) inv_dist))

/-- One turn of the loop of lines 143-160 of `mc_line`, for actuator `i`. -/
def mc_line_step (step_new_pos : List Nat) (i : Nat) (b : motion_data_t F) : motion_data_t F :=
  let d := (step_new_pos.getD i 0 % 2 ^ 32 + 2 ^ 32 - b.steps.getD i 0 % 2 ^ 32) % 2 ^ 32
  let b := { b with steps := b.steps.set i d }
  let b :=
    if d > INT32_MAX then
      { b with dirbits := (b.dirbits ||| (1 <<< i)) % 256, steps := b.steps.set i ((2 ^ 32 - d) % 2 ^ 32) }
    else b
  let b := { b with full_steps := (b.full_steps + b.steps.getD i 0) % 2 ^ 32 }
  if b.total_steps < b.steps.getD i 0 then
    { b with total_steps := b.steps.getD i 0, step_indexer := i }
  else b

/-- Lines 143-160 of `mc_line`: `i` runs from `STEPPER_COUNT - 1` down to 0. -/
def mc_line_steps (step_new_pos : List Nat) : Nat → motion_data_t F → motion_data_t F
  | 0, b => b
  | i + 1, b => mc_line_steps step_new_pos i (mc_line_step step_new_pos i b)

/-- Lines 175-188 of `mc_line`: the steps of the backlash block. -/
def mc_line_backlash_steps (backlash_steps : List Nat) (inverted_steps : Nat) :
    Nat → motion_data_t F → motion_data_t F
  | 0, b => b
  | i + 1, b =>
    let b :=
      if inverted_steps &&& (1 <<< i) != 0 then
        let b := { b with steps := b.steps.set i (backlash_steps.getD i 0) }
        let b := { b with full_steps := (b.full_steps + b.steps.getD i 0) % 2 ^ 32 }
        if b.total_steps < b.steps.getD i 0 then
          { b with total_steps := b.steps.getD i 0, step_indexer := i }
        else b
      else b
    mc_line_backlash_steps backlash_steps inverted_steps i b

/-- Lines 167-188 of `mc_line`: the synthesized backlash block. -/
def mc_line_backlash_block (cfg : Config) (ops : FloatOps F) (backlash_steps : List Nat)
    (inverted_steps : Nat) (block_data : motion_data_t F) : motion_data_t F :=
  let b := block_data
  let b := { b with steps := List.replicate cfg.STEPPER_COUNT 0 }
  let b := { b with total_steps := 0 }
  let b := { b with feed := ops.FLT_MAX }
  let b := { b with motion_mode := SETFLAG b.motion_mode cfg.MOTIONCONTROL_MODE_BACKLASH_COMPENSATION }
  mc_line_backlash_steps backlash_steps inverted_steps cfg.STEPPER_COUNT b

/-- The ghost bookkeeping of a `return status;` of `mc_line`. -/
def mc_line_ret (status : Nat) (w : World E F) (target : List F) (block_data : motion_data_t F) :
    Option (LineResult E F) :=
  some { status := status, world := w.log (Event.mc_line_return status),
         target := target, block := block_data }

/-- The call `planner_add_line(steps, block)`. -/
def call_planner_add_line (c : Collab E F) (w : World E F) (steps : Option (List Nat))
    (b : motion_data_t F) : World E F :=
  { w with env := c.planner_add_line w.env steps b,
           trace := w.trace ++ [Event.planner_add_line steps b] }

/-- Lines 203-205 of `mc_line`: the feed of the planned block, in steps/min.
`motion` is `inv_dist` for a motion block and `none` for a block flagged
MOTIONCONTROL_MODE_NOMOTION, whose feed is left as it is. -/
def mc_line_feed (cfg : Config) (ops : FloatOps F) (motion : Option F)
    (block_data : motion_data_t F) : F :=
  match motion with
  | some inv_dist =>
    let inv_delta :=
      if !CHECKFLAG block_data.motion_mode cfg.MOTIONCONTROL_MODE_INVERSEFEED then
        ops.mul block_data.feed inv_dist
      else ops.div ops.one block_data.feed
    ops.mul (ops.of_uint block_data.total_steps) inv_delta
  | none => block_data.feed

/-- Lines 203-211 of `mc_line`: the feed conversion, the call of
`planner_add_line` for the real block, and the restore of the caller's feed. -/
def mc_line_finish (cfg : Config) (ops : FloatOps F) (c : Collab E F) (feed : F)
    (motion : Option F) (step_new_pos : List Nat) (w : World E F) (target : List F)
    (block_data : motion_data_t F) : Option (LineResult E F) :=
  let block_data := { block_data with feed := mc_line_feed cfg ops motion block_data }
  let w := call_planner_add_line c w (some step_new_pos) block_data
  let block_data := { block_data with feed := feed }
  mc_line_ret STATUS_OK w target block_data

/-- Lines 116-160 of `mc_line`: inverse kinematics, direction vector and step counts. -/
def mc_line_motion (cfg : Config) (ops : FloatOps F) (c : Collab E F)
    (w : World E F) (target : List F) (block_data : motion_data_t F) : MotionResult E F :=
  let step_new_pos := c.kinematics_apply_inverse w.env target
  let s := mc_line_dir_vect ops target cfg.AXIS_COUNT
    (block_data.dir_vect, ops.zero, w.mc_prev_transformed_target)
  let block_data := { block_data with dir_vect := s.1 }
  let w := { w with mc_prev_transformed_target := s.2.2 }
  let inv_dist := ops.fast_flt_invsqrt s.2.1
  let block_data :=
    if cfg.ENABLE_LINACT_PLANNER then block_data
    else { block_data with
           dir_vect := mc_line_normalize ops inv_dist cfg.AXIS_COUNT block_data.dir_vect }
  let block_data :=
    { block_data with
      steps := memcpy cfg.STEPPER_COUNT block_data.steps (c.planner_get_position w.env) }
  let block_data := mc_line_steps step_new_pos cfg.STEPPER_COUNT block_data
  { inv_dist := inv_dist, step_new_pos := step_new_pos, world := w, block := block_data }

/-- Lines 162-202 of `mc_line` (compiled in under ENABLE_BACKLASH_COMPENSATION):
on a change of direction the backlash block is built and handed to the planner,
then the planner is waited for again. The result is `false` when that wait ends
in `return STATUS_CRITICAL_FAIL`. -/
def mc_line_backlash (cfg : Config) (ops : FloatOps F) (c : Collab E F) (fuel : Nat)
    (w : World E F) (block_data : motion_data_t F) : Option (Bool × World E F) :=
  if cfg.ENABLE_BACKLASH_COMPENSATION then
    let inverted_steps := (w.mc_last_dirbits ^^^ block_data.dirbits) % 256
    if inverted_steps != 0 then
      let backlash_block_data :=
        mc_line_backlash_block cfg ops w.g_settings.backlash_steps inverted_steps block_data
      let w := call_planner_add_line c w none backlash_block_data
      match wait_planner_space c fuel w with
      | none => none
      | some (false, w) => some (false, w)
      | some (true, w) => some (true, { w with mc_last_dirbits := block_data.dirbits })
    else some (true, w)
  else some (true, w)

/-- Lines 114-211 of `mc_line`: what happens once the planner has room. -/
def mc_line_plan (cfg : Config) (ops : FloatOps F) (c : Collab E F) (fuel : Nat) (feed : F)
    (w : World E F) (target : List F) (block_data : motion_data_t F) :
    Option (LineResult E F) :=
  if !CHECKFLAG block_data.motion_mode cfg.MOTIONCONTROL_MODE_NOMOTION then
    let m := mc_line_motion cfg ops c w target block_data
    match mc_line_backlash cfg ops c fuel m.world m.block with
    | none => none
    | some (false, w) => mc_line_ret cfg.STATUS_CRITICAL_FAIL w target m.block
    | some (true, w) =>
      mc_line_finish cfg ops c feed (some m.inv_dist) m.step_new_pos w target m.block
  else
    mc_line_finish cfg ops c feed none (c.indeterminate_steps w.env) w target block_data

/-- Lines 85-88 of `mc_line`: the kinematic transform, applied in place to the
caller's array unless the machine is jogging or homing. -/
def mc_line_transform (cfg : Config) (c : Collab E F) (w : World E F) (target : List F) :
    List F :=
  if c.cnc_get_exec_state w.env (cfg.EXEC_JOG ||| cfg.EXEC_HOMING) = 0 then
    c.kinematics_apply_transform w.env target
  else target

/-- The function `mc_line(target, block_data)`. -/
def mc_line (cfg : Config) (ops : FloatOps F) (c : Collab E F) (fuel : Nat)
    (w : World E F) (target : List F) (block_data : motion_data_t F) :
    Option (LineResult E F) :=
  let w := w.log (Event.mc_line_call target block_data)
  let feed := block_data.feed
  let block_data := { block_data with dirbits := 0 }
  let w := { w with mc_last_target := memcpy cfg.AXIS_COUNT w.mc_last_target target }
  let target := mc_line_transform cfg c w target
  if !c.io_check_boundaries w.env target then
    if c.cnc_get_exec_state w.env cfg.EXEC_JOG ≠ 0 then
      mc_line_ret cfg.STATUS_TRAVEL_EXCEEDED w target block_data
    else
      let w := { w with env := c.cnc_alarm w.env cfg.EXEC_ALARM_SOFT_LIMIT,
                        trace := w.trace ++ [Event.cnc_alarm cfg.EXEC_ALARM_SOFT_LIMIT] }
      mc_line_ret STATUS_OK w target block_data
  else if w.mc_checkmode then
    mc_line_ret STATUS_OK w target block_data
  else
    match wait_planner_space c fuel w with
    | none => none
    | some (false, w) => mc_line_ret cfg.STATUS_CRITICAL_FAIL w target block_data
    | some (true, w) => mc_line_plan cfg ops c fuel feed w target block_data

/-- The function `mc_dwell(block_data)`; the caller's block is returned with the status. -/
def mc_dwell (cfg : Config) (c : Collab E F) (fuel : Nat) (w : World E F)
    (block_data : motion_data_t F) : Option (Nat × World E F × motion_data_t F) :=
  if w.mc_checkmode then some (STATUS_OK, w, block_data)
  else
    match wait_planner_space c fuel w with
    | none => none
    | some (false, w) => some (cfg.STATUS_CRITICAL_FAIL, w, block_data)
    | some (true, w) =>
      let block_data :=
        { block_data with motion_mode := SETFLAG block_data.motion_mode cfg.MOTIONCONTROL_MODE_NOMOTION }
      let w := call_planner_add_line c w none block_data
      let block_data :=
        { block_data with motion_mode := CLEARFLAG block_data.motion_mode cfg.MOTIONCONTROL_MODE_NOMOTION }
      some (STATUS_OK, w, block_data)

/-- The function `mc_update_tools(block_data)`; the caller's block is returned with the status. -/
def mc_update_tools (cfg : Config) (c : Collab E F) (fuel : Nat) (w : World E F)
    (block_data : motion_data_t F) : Option (Nat × World E F × motion_data_t F) :=
  if w.mc_checkmode then some (STATUS_OK, w, block_data)
  else
    match wait_planner_space c fuel w with
    | none => none
    | some (false, w) => some (cfg.STATUS_CRITICAL_FAIL, w, block_data)
    | some (true, w) =>
      let block_data :=
        { block_data with motion_mode := SETFLAG block_data.motion_mode cfg.MOTIONCONTROL_MODE_NOMOTION }
      let w := call_planner_add_line c w none block_data
      some (STATUS_OK, w, block_data)

/-- Modelled from the spec: the macro ABS(x) of utils.h (not among the sources),
the absolute value of a float. -/
def ABS (ops : FloatOps F) (x : F) : F := ops.fabs x

/-- Lines 220-249 of `mc_arc`: the swept angle, from the position motion control
is at, the target, the centre offsets and the direction of rotation. -/
def mc_arc_angle (cfg : Config) (ops : FloatOps F) (w : World E F) (target : List F)
    (center_offset_a center_offset_b : F) (axis_0 axis_1 : Nat) (isclockwise : Bool) : F :=
  let mc_position := mc_get_position cfg w (List.replicate cfg.AXIS_COUNT ops.zero)
  let ptcenter_a := ops.add (mc_position.getD axis_0 ops.zero) center_offset_a
  let ptcenter_b := ops.add (mc_position.getD axis_1 ops.zero) center_offset_b
  let pt0_a := ops.neg center_offset_a
  let pt0_b := ops.neg center_offset_b
  let pt1_a := ops.sub (target.getD axis_0 ops.zero) ptcenter_a
  let pt1_b := ops.sub (target.getD axis_1 ops.zero) ptcenter_b
  let dotprod := ops.add (ops.mul pt0_a pt1_a) (ops.mul pt0_b pt1_b)
  let det := ops.sub (ops.mul pt0_a pt1_b) (ops.mul pt0_b pt1_a)
  let arc_angle := ops.atan2 det dotprod
  if isclockwise then
    if ops.le ops.zero arc_angle then ops.sub arc_angle (ops.mul (ops.of_uint 2) ops.M_PI)
    else arc_angle
  else
    if ops.le arc_angle ops.zero then ops.add arc_angle (ops.mul (ops.of_uint 2) ops.M_PI)
    else arc_angle

/-- Lines 252-255 of `mc_arc`: `uint16_t segment_count = floor(fabs(radiusangle) /
sqrt(arc_tolerance * (diameter - arc_tolerance)))`, the value kept in the 16 bit
variable. -/
def mc_arc_segment_count (ops : FloatOps F) (arc_tolerance radius arc_angle : F) : Nat :=
  let radiusangle := ops.mul radius arc_angle
  let radiusangle := ops.fast_flt_div2 radiusangle
  let diameter := ops.fast_flt_mul2 radius
  ops.to_uint (ops.floor (ops.div (ops.fabs radiusangle)
    (ops.sqrt (ops.mul arc_tolerance (ops.sub diameter arc_tolerance))))) % 65536

/-- Lines 262-269 of `mc_arc`, the loop: `increment[i] = (target[i] - mc_position[i]) /
segment_count`. -/
def mc_arc_increment (ops : FloatOps F) (target mc_position : List F) (segment_count : Nat) :
    Nat → List F → List F
  | 0, inc => inc
  | i + 1, inc =>
    mc_arc_increment ops target mc_position segment_count i
      (inc.set i (ops.div (ops.sub (target.getD i ops.zero) (mc_position.getD i ops.zero))
        (ops.of_uint segment_count)))

/-- The locals of `mc_arc` that stay fixed while the segments are emitted. -/
structure ArcConsts (F : Type) where
  center_offset_a : F
  center_offset_b : F
  axis_0 : Nat
  axis_1 : Nat
  ptcenter_a : F
  ptcenter_b : F
  arc_per_sgm : F
  sin_per_sgm : F
  cos_per_sgm : F
  increment : List F

/-- The locals of `mc_arc` that change from segment to segment, with the
caller's block and the world. -/
structure ArcState (E F : Type) where
  pt0_a : F
  pt0_b : F
  count : Nat
  mc_position : List F
  block : motion_data_t F
  world : World E F

/-- Lines 290-322 of `mc_arc`: the radius vector of segment `i`, by the small
angle rotation or, every N_ARC_CORRECTION segments, recomputed from the start.
Returns `pt0_a`, `pt0_b` and `count`. -/
def mc_arc_rotate (cfg : Config) (ops : FloatOps F) (k : ArcConsts F) (i : Nat)
    (pt0_a pt0_b : F) (count : Nat) : F × F × Nat :=
  if count < cfg.N_ARC_CORRECTION then
    let new_pt := ops.add (ops.mul pt0_a k.sin_per_sgm) (ops.mul pt0_b k.cos_per_sgm)
    let pt0_a := ops.sub (ops.mul pt0_a k.cos_per_sgm) (ops.mul pt0_b k.sin_per_sgm)
    (pt0_a, new_pt, (count + 1) % 256)
  else
    let angle := ops.mul (ops.of_uint i) k.arc_per_sgm
    let precise_cos := ops.cos angle
    let precise_sin := ops.sqrt (ops.sub ops.one (ops.mul precise_cos precise_cos))
    let precise_sin :=
      if ops.le ops.zero angle then
        (if ops.le (ABS ops angle) ops.M_PI then precise_sin else ops.neg precise_sin)
      else
        (if ops.le (ABS ops angle) ops.M_PI then ops.neg precise_sin else precise_sin)
    (ops.add (ops.mul (ops.neg k.center_offset_a) precise_cos)
        (ops.mul k.center_offset_b precise_sin),
      ops.sub (ops.mul (ops.neg k.center_offset_a) precise_sin)
        (ops.mul k.center_offset_b precise_cos),
      0)

/-- Lines 327-334 of `mc_arc`: the axes outside the arc plane advance by their increment. -/
def mc_arc_advance (ops : FloatOps F) (k : ArcConsts F) : Nat → List F → List F
  | 0, pos => pos
  | i + 1, pos =>
    mc_arc_advance ops k i
      (if i ≠ k.axis_0 ∧ i ≠ k.axis_1 then
        pos.set i (ops.add (pos.getD i ops.zero) (k.increment.getD i ops.zero))
      else pos)

/-- One turn of the loop of lines 288-341 of `mc_arc`: segment `i` is computed in
`mc_position` and emitted through `mc_line`, which works on that array in
place. The status of the `mc_line` call is returned with the new state. -/
def mc_arc_segment (cfg : Config) (ops : FloatOps F) (c : Collab E F) (fuel : Nat)
    (k : ArcConsts F) (i : Nat) (s : ArcState E F) : Option (Nat × ArcState E F) :=
  let rot := mc_arc_rotate cfg ops k i s.pt0_a s.pt0_b s.count
  let mc_position := s.mc_position.set k.axis_0 (ops.add k.ptcenter_a rot.1)
  let mc_position := mc_position.set k.axis_1 (ops.add k.ptcenter_b rot.2.1)
  let mc_position := mc_arc_advance ops k cfg.AXIS_COUNT mc_position
  match mc_line cfg ops c fuel s.world mc_position s.block with
  | none => none
  | some r =>
    some (r.status, { pt0_a := rot.1, pt0_b := rot.2.1, count := rot.2.2,
                      mc_position := r.target, block := r.block, world := r.world })

/-- The loop of lines 288-341 of `mc_arc`, `n` turns starting at segment `i`. The
status is that of the `mc_line` call that made the loop `return error`, or
STATUS_OK when the loop ran to its end. -/
def mc_arc_segments (cfg : Config) (ops : FloatOps F) (c : Collab E F) (fuel : Nat)
    (k : ArcConsts F) : Nat → Nat → ArcState E F → Option (Nat × ArcState E F)
  | 0, _, s => some (STATUS_OK, s)
  | n + 1, i, s =>
    match mc_arc_segment cfg ops c fuel k i s with
    | none => none
    | some (error, s1) =>
      if error ≠ 0 then some (error, s1)
      else mc_arc_segments cfg ops c fuel k n (i + 1) s1

/-- Lines 217-286 of `mc_arc`: the constants of the tessellation. -/
def mc_arc_consts (cfg : Config) (ops : FloatOps F) (w : World E F) (target : List F)
    (center_offset_a center_offset_b radius : F) (axis_0 axis_1 : Nat) (isclockwise : Bool) :
    ArcConsts F :=
  let mc_position := mc_get_position cfg w (List.replicate cfg.AXIS_COUNT ops.zero)
  let ptcenter_a := ops.add (mc_position.getD axis_0 ops.zero) center_offset_a
  let ptcenter_b := ops.add (mc_position.getD axis_1 ops.zero) center_offset_b
  let arc_angle :=
    mc_arc_angle cfg ops w target center_offset_a center_offset_b axis_0 axis_1 isclockwise
  let segment_count := mc_arc_segment_count ops w.g_settings.arc_tolerance radius arc_angle
  let arc_per_sgm :=
    if segment_count ≠ 0 then ops.div arc_angle (ops.of_uint segment_count) else arc_angle
  let increment := mc_arc_increment ops target mc_position segment_count cfg.AXIS_COUNT
    (List.replicate cfg.AXIS_COUNT ops.zero)
  let increment := increment.set axis_0 ops.zero
  let increment := increment.set axis_1 ops.zero
  let arc_per_sgm_sqr := ops.mul arc_per_sgm arc_per_sgm
  let cos_per_sgm := ops.sub ops.one (ops.mul ops.M_COS_TAYLOR_1 arc_per_sgm_sqr)
  let sin_per_sgm := ops.mul arc_per_sgm cos_per_sgm
  let cos_per_sgm := ops.mul arc_per_sgm_sqr (ops.add cos_per_sgm ops.one)
  let cos_per_sgm := ops.sub ops.one (ops.fast_flt_div4 cos_per_sgm)
  { center_offset_a := center_offset_a, center_offset_b := center_offset_b,
    axis_0 := axis_0, axis_1 := axis_1, ptcenter_a := ptcenter_a, ptcenter_b := ptcenter_b,
    arc_per_sgm := arc_per_sgm, sin_per_sgm := sin_per_sgm, cos_per_sgm := cos_per_sgm,
    increment := increment }

/-- The function `mc_arc(target, center_offset_a, center_offset_b, radius, axis_0,
axis_1, isclockwise, block_data)`. The result holds the caller's target array and
block as the call leaves them. -/
def mc_arc (cfg : Config) (ops : FloatOps F) (c : Collab E F) (fuel : Nat) (w : World E F)
    (target : List F) (center_offset_a center_offset_b radius : F) (axis_0 axis_1 : Nat)
    (isclockwise : Bool) (block_data : motion_data_t F) : Option (LineResult E F) :=
  let mc_position := mc_get_position cfg w (List.replicate cfg.AXIS_COUNT ops.zero)
  let arc_angle :=
    mc_arc_angle cfg ops w target center_offset_a center_offset_b axis_0 axis_1 isclockwise
  let segment_count := mc_arc_segment_count ops w.g_settings.arc_tolerance radius arc_angle
  let k := mc_arc_consts cfg ops w target center_offset_a center_offset_b radius axis_0 axis_1
    isclockwise
  let block_data :=
    if CHECKFLAG block_data.motion_mode cfg.MOTIONCONTROL_MODE_INVERSEFEED then
      { block_data with feed := ops.div block_data.feed (ops.of_uint segment_count) }
    else block_data
  let s : ArcState E F :=
    { pt0_a := ops.neg center_offset_a, pt0_b := ops.neg center_offset_b, count := 0,
      mc_position := mc_position, block := block_data, world := w }
  match mc_arc_segments cfg ops c fuel k (segment_count - 1) 1 s with
  | none => none
  | some (error, s) =>
    if error ≠ 0 then
      some { status := error, world := s.world, target := target, block := s.block }
    else mc_line cfg ops c fuel s.world target s.block

/-- A run of `mc_line` calls, each with its own target and block; the results
are listed in call order. -/
def mc_line_seq (cfg : Config) (ops : FloatOps F) (c : Collab E F) (fuel : Nat) :
    World E F → List (List F × motion_data_t F) → Option (List (LineResult E F))
  | _, [] => some []
  | w, call :: rest =>
    match mc_line cfg ops c fuel w call.1 call.2 with
    | none => none
    | some r =>
      match mc_line_seq cfg ops c fuel r.world rest with
      | none => none
      | some rs => some (r :: rs)

/-- A run of `mc_line` calls that share one block, as the segments of an arc do:
each call receives the block the previous call left behind. -/
def mc_line_shared (cfg : Config) (ops : FloatOps F) (c : Collab E F) (fuel : Nat) :
    World E F → motion_data_t F → List (List F) → Option (List (LineResult E F))
  | _, _, [] => some []
  | w, b, t :: ts =>
    match mc_line cfg ops c fuel w t b with
    | none => none
    | some r =>
      match mc_line_shared cfg ops c fuel r.world r.block ts with
      | none => none
      | some rs => some (r :: rs)

end Code

/-! ## A concrete machine

A small instance of the parameters, used to run the model on literal inputs:
three axes at 200 steps/mm, coordinates in whole millimetres with integer
arithmetic standing in for `float`, a planner queue of bounded capacity, a tool
offset on the third axis as kinematic transform, and an event pump that replays
a script of answers. -/

section Sim

/-- Integer arithmetic on whole millimetres. -/
def sim_ops : FloatOps Int where
  zero := 0
  one := 1
  M_PI := 3
  M_COS_TAYLOR_1 := 0
  FLT_MAX := 340282346638528859811704183484516925440
  add := fun a b => a + b
  sub := fun a b => a - b
  mul := fun a b => a * b
  div := fun a b => a / b
  neg := fun a => -a
  le := fun a b => decide (a ≤ b)
  of_uint := fun n => (n : Int)
  to_uint := fun a => a.toNat
  fast_flt_pow2 := fun a => a * a
  fast_flt_invsqrt := fun a => if a = 1 then 1 else 0
  fast_flt_div2 := fun a => a / 2
  fast_flt_mul2 := fun a => a * 2
  fast_flt_div4 := fun a => a / 4
  atan2 := fun y x => if y = 0 then (if x < 0 then 3 else 0) else (if y < 0 then -1 else 1)
  floor := fun a => a
  fabs := fun a => (a.natAbs : Int)
  sqrt := fun a => if a ≤ 0 then 0 else if a < 4 then 1 else if a < 9 then 2 else 3
  cos := fun a => if a = 0 then 1 else 0

/-- The state of the simulated collaborators. -/
structure SimEnv where
  exec_state : Nat
  position : List Nat
  queue : List (motion_data_t Int)
  capacity : Nat
  pump : List Bool
  alarm : Option Nat
  travel : Nat
  tool_offset : Int
deriving DecidableEq, Repr

/-- The constants of the simulated build: three axes, backlash compensation on. -/
def sim_cfg : Config where
  AXIS_COUNT := 3
  STEPPER_COUNT := 3
  ENABLE_BACKLASH_COMPENSATION := true
  ENABLE_LINACT_PLANNER := false
  N_ARC_CORRECTION := 16
  STATUS_TRAVEL_EXCEEDED := 15
  STATUS_CRITICAL_FAIL := 255
  EXEC_JOG := 4
  EXEC_HOMING := 8
  EXEC_ALARM_SOFT_LIMIT := 2
  MOTIONCONTROL_MODE_NOMOTION := 4
  MOTIONCONTROL_MODE_INVERSEFEED := 2
  MOTIONCONTROL_MODE_BACKLASH_COMPENSATION := 8

/-- The simulated collaborators. The planner appends the block to its queue and
adopts the new step position of a motion block; the event pump answers from
its script and then keeps answering `true`. -/
def sim_collab : Collab SimEnv Int where
  cnc_get_exec_state := fun e m => e.exec_state &&& m
  cnc_alarm := fun e code => { e with alarm := some code }
  cnc_doevents := fun e =>
    match e.pump with
    | [] => (true, e)
    | b :: rest => (b, { e with pump := rest })
  kinematics_apply_transform := fun e t => t.set 2 (t.getD 2 0 + e.tool_offset)
  kinematics_apply_inverse := fun _ t => t.map (fun x => ((x * 200) % 4294967296).toNat)
  io_check_boundaries := fun e t => t.all (fun x => decide (x.natAbs ≤ e.travel))
  planner_buffer_is_full := fun e => decide (e.capacity ≤ e.queue.length)
  planner_get_position := fun e => e.position
  planner_add_line := fun e steps b =>
    { e with queue := e.queue ++ [b],
             position := match steps with
               | some s => if CHECKFLAG b.motion_mode 4 then e.position else s
               | none => e.position }
  indeterminate_steps := fun _ => [0, 0, 0]

/-- A zeroed feed block at 600 mm/min. -/
def sim_block : motion_data_t Int where
  dir_vect := [0, 0, 0]
  steps := [0, 0, 0]
  dirbits := 0
  full_steps := 0
  total_steps := 0
  step_indexer := 0
  feed := 600
  spindle := 0
  dwell := 0
  motion_mode := 0

/-- Idle machine at the origin: empty planner of capacity 4, travel of 1000 mm. -/
def sim_env : SimEnv where
  exec_state := 0
  position := [0, 0, 0]
  queue := []
  capacity := 4
  pump := []
  alarm := none
  travel := 1000
  tool_offset := 0

/-- Settings of the simulated machine: 8 steps of backlash on the first actuator. -/
def sim_settings : settings_t Int where
  backlash_steps := [8, 0, 0]
  arc_tolerance := 1
  max_distance := [200, 200, 200]
  homing_fast_feed_rate := 500
  homing_slow_feed_rate := 100
  homing_offset := 1
  homing_dir_invert_mask := 0
  limits_invert_mask := 0

/-- Motion control at the origin, check mode off. -/
def sim_world : World SimEnv Int where
  mc_checkmode := false
  mc_last_target := [0, 0, 0]
  mc_prev_transformed_target := [0, 0, 0]
  mc_last_dirbits := 0
  g_settings := sim_settings
  env := sim_env
  trace := []

/-- The simulated machine with a tool offset of 2 mm and a travel of 5 mm. -/
def sim_world_offset : World SimEnv Int :=
  { sim_world with env := { sim_env with tool_offset := 2, travel := 5 } }

/-- The simulated machine in check mode. -/
def sim_world_check : World SimEnv Int :=
  { sim_world with mc_checkmode := true }

/-- The simulated machine while jogging, with a travel of 5 mm. -/
def sim_world_jog : World SimEnv Int :=
  { sim_world with env := { sim_env with exec_state := 4, travel := 5 } }

/-- The simulated machine resting at x = 1 mm after a move in the positive direction. -/
def sim_world_at_one : World SimEnv Int :=
  { sim_world with
    mc_last_target := [1, 0, 0]
    mc_prev_transformed_target := [1, 0, 0]
    env := { sim_env with position := [200, 0, 0] } }

/-- The simulated machine resting at y = 1 mm after a move in the positive direction. -/
def sim_world_at_y_one : World SimEnv Int :=
  { sim_world with
    mc_last_target := [0, 1, 0]
    mc_prev_transformed_target := [0, 1, 0]
    env := { sim_env with position := [0, 200, 0] } }

/-- The fields of a planned block that the step invariants talk about:
`steps`, `total_steps`, `full_steps`, `step_indexer`, `motion_mode`. -/
def block_summary {F : Type} (b : motion_data_t F) : List Nat × Nat × Nat × Nat × Nat :=
  (b.steps, b.total_steps, b.full_steps, b.step_indexer, b.motion_mode)

end Sim

/-! ## Reading the trace -/

section Trace

variable {F : Type}

/-- The arguments of the `planner_add_line` calls of a trace, oldest first. -/
def planner_adds : List (Event F) → List (Option (List Nat) × motion_data_t F)
  | [] => []
  | Event.planner_add_line s b :: tr => (s, b) :: planner_adds tr
  | _ :: tr => planner_adds tr

/-- The codes of the `cnc_alarm` calls of a trace, oldest first. -/
def alarms : List (Event F) → List Nat
  | [] => []
  | Event.cnc_alarm code :: tr => code :: alarms tr
  | _ :: tr => alarms tr

/-- The targets of the `mc_line` calls of a trace, oldest first. -/
def line_calls : List (Event F) → List (List F)
  | [] => []
  | Event.mc_line_call t _ :: tr => t :: line_calls tr
  | _ :: tr => line_calls tr

/-- The statuses returned by the `mc_line` calls of a trace, oldest first. -/
def line_returns : List (Event F) → List Nat
  | [] => []
  | Event.mc_line_return s :: tr => s :: line_returns tr
  | _ :: tr => line_returns tr

end Trace

/-! ## mcu_avr.c

The AVR port. `float` values are rationals with exact arithmetic here: the
quantities involved (clock rates divided by powers of two, step frequencies)
only enter through comparisons and one floor. Hardware registers are naturals. -/

section Mcu

/-- F_CPU, the default of line 55 of mcu_avr.c. -/
def F_CPU : ℚ := 16000000

/-- Lines 638-641 of `mcu_freq_to_clocks`: the requested frequency clamped to
`[F_STEP_MIN, F_STEP_MAX]` (constants of config.h, not among the sources, taken
as parameters). -/
def mcu_clamp_frequency (F_STEP_MIN F_STEP_MAX frequency : ℚ) : ℚ :=
  let frequency := if frequency < F_STEP_MIN then F_STEP_MIN else frequency
  let frequency := if frequency > F_STEP_MAX then F_STEP_MAX else frequency
  frequency

/-- Lines 643-670 of `mcu_freq_to_clocks`: the prescaler code and the divided
clock `clockcounter` for an (already clamped) frequency. -/
def mcu_prescaller (frequency : ℚ) : Nat × ℚ :=
  let clockcounter := F_CPU
  if frequency ≥ 245 then (9, clockcounter)
  else if frequency ≥ 31 then (10, clockcounter * 0.125)
  else if frequency ≥ 4 then (11, clockcounter * 0.015625)
  else if frequency ≥ 1 then (12, clockcounter * 0.00390625)
  else (13, clockcounter * 0.0009765625)

/-- The function `mcu_freq_to_clocks(frequency, &ticks, &prescaller)`; returns
`(*ticks, *prescaller)`. `fl` is the rounding of a float operation: the float
that the exact result is rounded to. It is applied to the division and to the
subtraction of line 672; the comparisons are exact, and so are the products of
lines 652-669, F_CPU times a power of two. The store into the `uint16_t` keeps
the low 16 bits. -/
def mcu_freq_to_clocks (fl : ℚ → ℚ) (F_STEP_MIN F_STEP_MAX frequency : ℚ) : Nat × Nat :=
  let frequency := mcu_clamp_frequency F_STEP_MIN F_STEP_MAX frequency
  let p := mcu_prescaller frequency
  let quotient := fl (p.2 / frequency)
  ((⌊fl ((⌊quotient⌋ : ℚ) - 1)⌋ % 65536).toNat, p.1)

/-- Rounding to the nearest multiple of `2 ^ -8`: what single precision does to
a value between 32768 and 65536, where its floats are `2 ^ -8` apart. -/
def round_q8 (x : ℚ) : ℚ := (⌊x * 256 + 1 / 2⌋ : ℚ) / 256

/-- EERE of avr/io.h: EEPROM read enable, bit 0 of EECR. -/
def EERE : Nat := 0

/-- EEPE of avr/io.h: EEPROM program enable, bit 1 of EECR. -/
def EEPE : Nat := 1

/-- EEMPE of avr/io.h: EEPROM master program enable, bit 2 of EECR. -/
def EEMPE : Nat := 2

/-- EEPM0 (line 745): EEPROM programming mode bit 0. -/
def EEPM0 : Nat := 4

/-- EEPM1 (line 744): EEPROM programming mode bit 1. -/
def EEPM1 : Nat := 5

/-- The EEPROM registers the function writes. -/
structure EepromRegs where
  EEAR : Nat
  EEDR : Nat
  EECR : Nat
deriving DecidableEq, Repr

/-- The function `mcu_eeprom_putc(address, value)` from the point where the two
busy-waits of lines 763-764 have ended (they poll hardware flags and write
nothing). `old` is the byte the read of lines 766-768 finds in the cell; the
result is the content of the registers when the function ends. -/
def mcu_eeprom_putc (old : Nat) (address value : Nat) : EepromRegs :=
  let regs : EepromRegs := { EEAR := address, EEDR := old % 256, EECR := 1 <<< EERE }
  let old_value := regs.EEDR
  let diff_mask := (old_value ^^^ value) % 256
  if diff_mask &&& value ≠ 0 then
    if value ≠ 0xff then
      let regs := { regs with EEDR := value }
      let regs := { regs with EECR := (1 <<< EEMPE) ||| (0 <<< EEPM1) ||| (0 <<< EEPM0) }
      { regs with EECR := regs.EECR ||| (1 <<< EEPE) }
    else
      let regs := { regs with EECR := (1 <<< EEMPE) ||| (1 <<< EEPM0) }
      { regs with EECR := regs.EECR ||| (1 <<< EEPE) }
  else
    if diff_mask ≠ 0 then
      let regs := { regs with EEDR := value }
      let regs := { regs with EECR := (1 <<< EEMPE) ||| (1 <<< EEPM1) }
      { regs with EECR := regs.EECR ||| (1 <<< EEPE) }
    else regs

/-- The programming operations of the EEPROM. -/
inductive EepromOp where
  | erase_write
  | erase_only
  | write_only
deriving DecidableEq, Repr

/-- Modelled from the spec: the operation the EEPROM starts for a value of EECR
(the hardware is not part of the sources): none unless EEPE is set, otherwise
the one selected by EEPM1:EEPM0, 00 erase and write, 01 erase only, 10 write
only, as the comments of lines 780-800 name them. -/
def eeprom_started (eecr : Nat) : Option EepromOp :=
  if eecr.testBit EEPE then
    if eecr.testBit EEPM1 then
      (if eecr.testBit EEPM0 then none else some EepromOp.write_only)
    else
      (if eecr.testBit EEPM0 then some EepromOp.erase_only else some EepromOp.erase_write)
  else none

/-- Modelled from the spec: the EEPROM cell after an operation (the hardware is
not part of the sources): erase sets the cell to 0xFF, write-only yields cell
AND data, erase and write yields the data; without an operation the cell keeps
its content. -/
def eeprom_cell_after (op : Option EepromOp) (cell data : Nat) : Nat :=
  match op with
  | none => cell
  | some EepromOp.erase_write => data
  | some EepromOp.erase_only => 0xff
  | some EepromOp.write_only => cell &&& data

/-- A call the pin-change handlers make into trigger control. -/
inductive IsrCall where
  | tc_limits_isr (limits : Nat)
  | tc_controls_isr (controls : Nat)
deriving DecidableEq, Repr

/-- The port assignment of mcumap.h (not among the sources), as parameters: which
pin-change vector serves the limits and which the controls, and the pin masks. -/
structure PcintConfig where
  LIMITS_ISR_ID : Nat
  CONTROLS_ISR_ID : Nat
  LIMITS_MASK : Nat
  CONTROLS_MASK : Nat

/-- The statics of the pin-change handlers, with the calls made so far (oldest first). -/
structure PcintState where
  prev_limits : Nat
  prev_controls : Nat
  calls : List IsrCall
deriving DecidableEq, Repr

/-- The state at reset: both `static uint8_t prev_... = 0`, no call made. -/
def pcint_reset : PcintState := { prev_limits := 0, prev_controls := 0, calls := [] }

/-- The function `mcu_get_limits`: `LIMITS_INREG & LIMITS_MASK`, 8 bits. -/
def mcu_get_limits (pc : PcintConfig) (LIMITS_INREG : Nat) : Nat :=
  (LIMITS_INREG &&& pc.LIMITS_MASK) % 256

/-- The function `mcu_get_controls`: `CONTROLS_INREG & CONTROLS_MASK`, 8 bits. -/
def mcu_get_controls (pc : PcintConfig) (CONTROLS_INREG : Nat) : Nat :=
  (CONTROLS_INREG &&& pc.CONTROLS_MASK) % 256

/-- One pin-change interrupt: the vector number and what the two input
registers hold while the handler runs. -/
structure PinChange where
  vect : Nat
  LIMITS_INREG : Nat
  CONTROLS_INREG : Nat
deriving DecidableEq, Repr

/-- The handler `ISR(PCINTk_vect)` for `k = irq.vect` (lines 171-261), run from
entry to exit without being preempted. The limits part is compiled into the
vector LIMITS_ISR_ID, the controls part into the vector CONTROLS_ISR_ID. -/
def pcint_isr (pc : PcintConfig) (st : PcintState) (irq : PinChange) : PcintState :=
  let st :=
    if irq.vect = pc.LIMITS_ISR_ID then
      let limits := mcu_get_limits pc irq.LIMITS_INREG
      if st.prev_limits ≠ limits then
        { st with calls := st.calls ++ [IsrCall.tc_limits_isr limits], prev_limits := limits }
      else st
    else st
  if irq.vect = pc.CONTROLS_ISR_ID then
    let controls := mcu_get_controls pc irq.CONTROLS_INREG
    if st.prev_controls ≠ controls then
      { st with calls := st.calls ++ [IsrCall.tc_controls_isr controls], prev_controls := controls }
    else st
  else st

/-- A sequence of pin-change interrupts in which no handler is preempted: each
handler runs to its end before the next one starts. The handlers being
ISR_NOBLOCK, this is one of the possible runs; `isr_run` has them all. -/
def pcint_run (pc : PcintConfig) : PcintState → List PinChange → PcintState
  | st, [] => st
  | st, irq :: rest => pcint_run pc (pcint_isr pc st irq) rest

/-- The masks passed to `tc_limits_isr`, oldest first. -/
def limits_calls : List IsrCall → List Nat
  | [] => []
  | IsrCall.tc_limits_isr m :: cs => m :: limits_calls cs
  | _ :: cs => limits_calls cs

/-- The masks passed to `tc_controls_isr`, oldest first. -/
def controls_calls : List IsrCall → List Nat
  | [] => []
  | IsrCall.tc_controls_isr m :: cs => m :: controls_calls cs
  | _ :: cs => controls_calls cs

/-- The specification's dispatch rule, on the readings alone: a reading is
reported when it differs from the previously recorded one, and whatever was read
is then the recorded one. -/
def reported_changes : Nat → List Nat → List Nat
  | _, [] => []
  | recorded, reading :: rest =>
    if reading ≠ recorded then reading :: reported_changes reading rest
    else reported_changes reading rest

/-- A port assignment for running the handlers: limits on vector 0 (three
pins), controls on vector 1 (four pins). -/
def sim_pcint : PcintConfig where
  LIMITS_ISR_ID := 0
  CONTROLS_ISR_ID := 1
  LIMITS_MASK := 7
  CONTROLS_MASK := 15

/-- The four statements of each half of a pin-change handler, as the points at
which a handler can stand: before `limits = mcu_get_limits()`, before the test
`prev_limits != limits`, before the call `tc_limits_isr(limits)`, before the
store `prev_limits = limits`; and the same for the controls. -/
inductive IsrPoint where
  | limits_read
  | limits_test
  | limits_call
  | limits_store
  | controls_read
  | controls_test
  | controls_call
  | controls_store
deriving DecidableEq, Repr

/-- A handler that has been entered and has not returned: its vector, where it
stands, and its locals `limits` and `controls`. -/
structure IsrFrame where
  vect : Nat
  point : IsrPoint
  limits : Nat
  controls : Nat
deriving DecidableEq, Repr

/-- The input registers, the statics of the handlers with the calls made so
far, and the handlers in flight, innermost first. The handlers are declared
ISR_NOBLOCK: interrupts are enabled while they run, so a pin change can enter a
handler while another one (of the same vector too) is in flight. -/
structure IsrMachine where
  LIMITS_INREG : Nat
  CONTROLS_INREG : Nat
  statics : PcintState
  stack : List IsrFrame
deriving DecidableEq, Repr

/-- What happens next: the inputs change and the handler of the vector is
entered, or the innermost handler in flight executes its next statement. -/
inductive IsrAction where
  | pin_change (irq : PinChange)
  | step
deriving DecidableEq, Repr

/-- The machine at reset: inputs low, statics 0, no handler in flight. -/
def isr_reset : IsrMachine :=
  { LIMITS_INREG := 0, CONTROLS_INREG := 0, statics := pcint_reset, stack := [] }

/-- The innermost handler executes one statement (lines 171-261): the limits
half is compiled into the vector LIMITS_ISR_ID, the controls half into the
vector CONTROLS_ISR_ID; after its last statement the handler returns. -/
def isr_step (pc : PcintConfig) (m : IsrMachine) : IsrMachine :=
  match m.stack with
  | [] => m
  | f :: rest =>
    match f.point with
    | IsrPoint.limits_read =>
      if f.vect = pc.LIMITS_ISR_ID then
        { m with stack := { f with limits := mcu_get_limits pc m.LIMITS_INREG,
                                   point := IsrPoint.limits_test } :: rest }
      else { m with stack := { f with point := IsrPoint.controls_read } :: rest }
    | IsrPoint.limits_test =>
      if m.statics.prev_limits ≠ f.limits then
        { m with stack := { f with point := IsrPoint.limits_call } :: rest }
      else { m with stack := { f with point := IsrPoint.controls_read } :: rest }
    | IsrPoint.limits_call =>
      { m with statics :=
                 { m.statics with calls := m.statics.calls ++ [IsrCall.tc_limits_isr f.limits] },
               stack := { f with point := IsrPoint.limits_store } :: rest }
    | IsrPoint.limits_store =>
      { m with statics := { m.statics with prev_limits := f.limits },
               stack := { f with point := IsrPoint.controls_read } :: rest }
    | IsrPoint.controls_read =>
      if f.vect = pc.CONTROLS_ISR_ID then
        { m with stack := { f with controls := mcu_get_controls pc m.CONTROLS_INREG,
                                   point := IsrPoint.controls_test } :: rest }
      else { m with stack := rest }
    | IsrPoint.controls_test =>
      if m.statics.prev_controls ≠ f.controls then
        { m with stack := { f with point := IsrPoint.controls_call } :: rest }
      else { m with stack := rest }
    | IsrPoint.controls_call =>
      { m with statics :=
                 { m.statics with
                   calls := m.statics.calls ++ [IsrCall.tc_controls_isr f.controls] },
               stack := { f with point := IsrPoint.controls_store } :: rest }
    | IsrPoint.controls_store =>
      { m with statics := { m.statics with prev_controls := f.controls }, stack := rest }

/-- One action of the machine. -/
def isr_act (pc : PcintConfig) (m : IsrMachine) : IsrAction → IsrMachine
  | IsrAction.pin_change irq =>
    { m with LIMITS_INREG := irq.LIMITS_INREG, CONTROLS_INREG := irq.CONTROLS_INREG,
             stack := { vect := irq.vect, point := IsrPoint.limits_read, limits := 0,
                        controls := 0 } :: m.stack }
  | IsrAction.step => isr_step pc m

/-- A run of the machine. -/
def isr_run (pc : PcintConfig) : IsrMachine → List IsrAction → IsrMachine
  | m, [] => m
  | m, a :: rest => isr_run pc (isr_act pc m a) rest

/-- The schedule in which no handler is preempted: each pin change is followed
by the eight statements of its handler. -/
def unpreempted : List PinChange → List IsrAction
  | [] => []
  | irq :: rest => IsrAction.pin_change irq :: (List.replicate 8 IsrAction.step ++ unpreempted rest)

/-- A schedule with a preempted handler. The first limit switch closes (limits
port 0b00001): the handler of vector 0 reads 1, finds it changed and calls
`tc_limits_isr(1)`. Before it stores `prev_limits`, an unrelated pin of the
port changes (0b01001): the handler is entered again and runs to its end. Then
the first handler finishes. -/
def preempted_limits : List IsrAction :=
  [IsrAction.pin_change { vect := 0, LIMITS_INREG := 1, CONTROLS_INREG := 0 },
   IsrAction.step, IsrAction.step, IsrAction.step,
   IsrAction.pin_change { vect := 0, LIMITS_INREG := 9, CONTROLS_INREG := 0 },
   IsrAction.step, IsrAction.step, IsrAction.step, IsrAction.step, IsrAction.step,
   IsrAction.step, IsrAction.step]

/-- The same for the controls (vector 1, mask 0b01111): the second control input
goes high (0b010010, with an unrelated pin high), and a further unrelated pin
changes (0b110010) while `tc_controls_isr(2)` is not yet followed by the store. -/
def preempted_controls : List IsrAction :=
  [IsrAction.pin_change { vect := 1, LIMITS_INREG := 0, CONTROLS_INREG := 18 },
   IsrAction.step, IsrAction.step, IsrAction.step, IsrAction.step,
   IsrAction.pin_change { vect := 1, LIMITS_INREG := 0, CONTROLS_INREG := 50 },
   IsrAction.step, IsrAction.step, IsrAction.step, IsrAction.step, IsrAction.step,
   IsrAction.step]

end Mcu

/-! ## The signed reading of the step loop

The design notes of the specification ask for the step loop of `mc_line` to be
written with a signed difference, an explicit sign test and an absolute value.
That version is written out here, next to the one taken from the source. -/

section Signed

variable {F : Type}

/-- A 32 bit word read as a signed (two's complement) integer. -/
def to_int32 (x : Nat) : Int :=
  if x % 2 ^ 32 > INT32_MAX then ((x % 2 ^ 32 : Nat) : Int) - 2 ^ 32 else ((x % 2 ^ 32 : Nat) : Int)

/-- The step delta of an actuator: `q - p` modulo 2^32, read as a signed 32 bit
integer, for planner step position `p` and new step position `q`. -/
def step_delta (p q : Nat) : Int :=
  to_int32 ((q % 2 ^ 32 + 2 ^ 32 - p % 2 ^ 32) % 2 ^ 32)

/-- One turn of the step loop as the specification would have it: signed delta,
sign test for the direction bit, absolute value for the step count. The totals
are kept as in the source. -/
def mc_line_step_signed (step_new_pos : List Nat) (i : Nat) (b : motion_data_t F) :
    motion_data_t F :=
  let d := step_delta (b.steps.getD i 0) (step_new_pos.getD i 0)
  let b := if d < 0 then { b with dirbits := (b.dirbits ||| (1 <<< i)) % 256 } else b
  let b := { b with steps := b.steps.set i d.natAbs }
  let b := { b with full_steps := (b.full_steps + b.steps.getD i 0) % 2 ^ 32 }
  if b.total_steps < b.steps.getD i 0 then
    { b with total_steps := b.steps.getD i 0, step_indexer := i }
  else b

/-- The step loop as the specification would have it. -/
def mc_line_steps_signed (step_new_pos : List Nat) : Nat → motion_data_t F → motion_data_t F
  | 0, b => b
  | i + 1, b => mc_line_steps_signed step_new_pos i (mc_line_step_signed step_new_pos i b)

end Signed

/-! ## Guarded insertions

Two readings of "motion control never enqueues into a full planner": on the
trace (each `planner_add_line` follows a `planner_buffer_is_full` that answered
false, with neither another insertion nor a turn of the event pump in between),
and on the collaborators (a planner that remembers whether it was ever handed a
block while full). -/

section Guard

variable {E F : Type}

/-- One step of the scan of a trace. The state says whether the last thing
motion control learned about the planner is that it has room; an insertion is
allowed only in that state and uses it up. -/
def guard_step (armed : Bool) : Event F → Option Bool
  | Event.planner_buffer_is_full result => some (!result)
  | Event.planner_add_line _ _ => if armed then some false else none
  | Event.cnc_doevents _ => some false
  | _ => some armed

/-- The scan of a trace: `none` as soon as an insertion is met that does not
directly follow a `planner_buffer_is_full` that answered false. -/
def guard_scan : Bool → List (Event F) → Option Bool
  | armed, [] => some armed
  | armed, ev :: rest => (guard_step armed ev).bind (fun a => guard_scan a rest)

/-- Every insertion of the trace follows its own room check. -/
def adds_guarded (evs : List (Event F)) : Bool := (guard_scan false evs).isSome

/-- The collaborators with a planner that remembers, in the added flag, whether
`planner_add_line` was ever called while `planner_buffer_is_full` held. -/
def monitored (c : Collab E F) : Collab (E × Bool) F where
  cnc_get_exec_state e statemask := c.cnc_get_exec_state e.1 statemask
  cnc_alarm e code := (c.cnc_alarm e.1 code, e.2)
  cnc_doevents e := ((c.cnc_doevents e.1).1, ((c.cnc_doevents e.1).2, e.2))
  kinematics_apply_transform e := c.kinematics_apply_transform e.1
  kinematics_apply_inverse e := c.kinematics_apply_inverse e.1
  io_check_boundaries e := c.io_check_boundaries e.1
  planner_buffer_is_full e := c.planner_buffer_is_full e.1
  planner_get_position e := c.planner_get_position e.1
  planner_add_line e steps block :=
    (c.planner_add_line e.1 steps block, e.2 || c.planner_buffer_is_full e.1)
  indeterminate_steps e := c.indeterminate_steps e.1

/-- A world over the monitored collaborators, flag down. -/
def World.watch (w : World E F) : World (E × Bool) F :=
  { mc_checkmode := w.mc_checkmode, mc_last_target := w.mc_last_target,
    mc_prev_transformed_target := w.mc_prev_transformed_target,
    mc_last_dirbits := w.mc_last_dirbits, g_settings := w.g_settings,
    env := (w.env, false), trace := w.trace }

end Guard

/-! ## `mc_home_axis`

The homing sequencer, in the same style as `mc_line`: the collaborators it
calls beyond those of `mc_line` are further functions over the collaborator
state, the two `do ... while` waits take fuel, and the result names the line of
the `return` statement that was taken. Collaborators do not write `g_settings`. -/

section Homing

variable {E F : Type}

/-- The constants of the headers that `mc_home_axis` uses beyond those of
`mc_line`. `AXIS_DUAL0` / `AXIS_DUAL1` are present when ENABLE_DUAL_DRIVE_AXIS
and DUAL_DRIVE_AXIS0 / DUAL_DRIVE_AXIS1 are defined; `one_and_a_half` and `five`
are the float literals `1.5f` and `5.0f`. -/
structure HomingConfig (F : Type) extends Config where
  EXEC_RUN : Nat
  EXEC_HOLD : Nat
  EXEC_ALARM : Nat
  EXEC_ABORT : Nat
  LIMITS_MASK : Nat
  MOTIONCONTROL_MODE_FEED : Nat
  EXEC_ALARM_HOMING_FAIL_LIMIT_ACTIVE : Nat
  EXEC_ALARM_HOMING_FAIL_RESET : Nat
  EXEC_ALARM_HOMING_FAIL_APPROACH : Nat
  AXIS_DUAL0 : Option Nat
  AXIS_DUAL1 : Option Nat
  one_and_a_half : F
  five : F

/-- The collaborators of `mc_home_axis`. `io_get_limits` reads the switches
through `g_settings` (the invert mask); `indeterminate_block` stands for the
content of the local `block_data` before any field is assigned. -/
structure HomingCollab (E F : Type) extends Collab E F where
  cnc_unlock : E → E
  cnc_set_exec_state : E → Nat → E
  cnc_stop : E → E
  io_get_limits : E → settings_t F → Nat
  io_set_homing_limits_filter : E → Nat → E
  planner_resync_position : E → E
  planner_clear : E → E
  itp_stop : E → E
  itp_clear : E → E
  kinematics_apply_forward : E → List Nat → List F → List F
  kinematics_apply_reverse_transform : E → List F → List F
  indeterminate_block : E → motion_data_t F

/-- What a call of `mc_home_axis` leaves behind: the returned status, the world,
and (ghost) the line of motion_control.c holding the `return` that was taken. -/
structure HomeResult (E F : Type) where
  status : Nat
  world : World E F
  exit_line : Nat

/-- The function `mc_resync_position`. -/
def mc_resync_position (c : HomingCollab E F) (w : World E F) : World E F :=
  let pos := c.planner_get_position w.env
  let mc_last_target := c.kinematics_apply_forward w.env pos w.mc_last_target
  let mc_last_target := c.kinematics_apply_reverse_transform w.env mc_last_target
  { w with mc_last_target := mc_last_target }

/-- Lines 374-381 of `mc_home_axis`: the limit mask widened by the two extra
pins of a dual drive axis. -/
def home_axis_limit (hc : HomingConfig F) (axis axis_limit : Nat) : Nat :=
  let axis_limit :=
    match hc.AXIS_DUAL0 with
    | some a => (axis_limit ||| (if axis ≠ a then 0 else (64 ||| 128))) % 256
    | none => axis_limit
  match hc.AXIS_DUAL1 with
  | some a => (axis_limit ||| (if axis ≠ a then 0 else (64 ||| 128))) % 256
  | none => axis_limit

/-- The waits `do { if (!cnc_doevents()) return STATUS_CRITICAL_FAIL; } while
(cnc_get_exec_state(EXEC_RUN));` of lines 418-424 and 468-474. The result is
`false` when the event pump asked to bail out. -/
def home_wait (hc : HomingConfig F) (c : HomingCollab E F) :
    Nat → World E F → Option (Bool × World E F)
  | 0, _ => none
  | fuel + 1, w =>
    let r := c.cnc_doevents w.env
    let w := { w with env := r.2, trace := w.trace ++ [Event.cnc_doevents r.1] }
    if !r.1 then some (false, w)
    else if c.cnc_get_exec_state w.env hc.EXEC_RUN ≠ 0 then home_wait hc c fuel w
    else some (true, w)

/-- The sign flip `if (g_settings.homing_dir_invert_mask & axis_mask)
max_home_dist = -max_home_dist;` of lines 398-401 and 451-454. -/
def home_direction (ops : FloatOps F) (w : World E F) (axis : Nat) (max_home_dist : F) : F :=
  let axis_mask := (1 <<< axis) % 256
  if w.g_settings.homing_dir_invert_mask &&& axis_mask ≠ 0 then ops.neg max_home_dist
  else max_home_dist

/-- Lines 414-424 and 464-474 of `mc_home_axis`: unlock, the move (its status is
not looked at), the HOMING flag, and the wait for the motion to end. -/
def home_move (hc : HomingConfig F) (ops : FloatOps F) (c : HomingCollab E F) (fuel : Nat)
    (w : World E F) (target : List F) (block_data : motion_data_t F) :
    Option (Bool × World E F × List F × motion_data_t F) :=
  let w := { w with env := c.cnc_unlock w.env }
  match mc_line hc.toConfig ops c.toCollab fuel w target block_data with
  | none => none
  | some r =>
    let w := r.world
    let w := { w with env := c.cnc_set_exec_state w.env hc.EXEC_HOMING }
    match home_wait hc c fuel w with
    | none => none
    | some (ok, w) => some (ok, w, r.target, r.block)
/-- Lines 392-424 of `mc_home_axis`: the fast seek towards the switch, up to the
end of its wait. The result holds the locals `target` and `block_data`. -/
def home_fast_seek (hc : HomingConfig F) (ops : FloatOps F) (c : HomingCollab E F) (fuel : Nat)
    (w : World E F) (axis axis_limit : Nat) :
    Option (Bool × World E F × List F × motion_data_t F) :=
  let block_data := c.indeterminate_block w.env
  let w := { w with env := c.io_set_homing_limits_filter w.env axis_limit }
  let max_home_dist :=
    ops.mul (ops.neg (w.g_settings.max_distance.getD axis ops.zero)) hc.one_and_a_half
  let max_home_dist := home_direction ops w axis max_home_dist
  let w := { w with env := c.planner_resync_position w.env }
  let w := mc_resync_position c w
  let target := mc_get_position hc.toConfig w (List.replicate hc.AXIS_COUNT ops.zero)
  let target := target.set axis (ops.add (target.getD axis ops.zero) max_home_dist)
  let block_data :=
    { block_data with total_steps := ops.to_uint (ABS ops max_home_dist) % 2 ^ 32 }
  let block_data := { block_data with steps := List.replicate hc.STEPPER_COUNT 0 }
  let block_data :=
    { block_data with steps := block_data.steps.set axis (ops.to_uint max_home_dist % 2 ^ 32) }
  let block_data := { block_data with feed := w.g_settings.homing_fast_feed_rate }
  let block_data := { block_data with spindle := 0 }
  let block_data := { block_data with dwell := 0 }
  let block_data := { block_data with motion_mode := hc.MOTIONCONTROL_MODE_FEED }
  home_move hc ops c fuel w target block_data

/-- Lines 427-429 of `mc_home_axis`: the buffers are flushed after the fast seek. -/
def home_flush_fast (c : HomingCollab E F) (w : World E F) : World E F :=
  let w := { w with env := c.itp_stop w.env }
  let w := { w with env := c.itp_clear w.env }
  { w with env := c.planner_clear w.env }

/-- Lines 444-474 of `mc_home_axis`: the slow back-off from the switch, with the
limit mask inverted on `axis_limit`, up to the end of its wait. -/
def home_slow_backoff (hc : HomingConfig F) (ops : FloatOps F) (c : HomingCollab E F)
    (fuel : Nat) (w : World E F) (axis axis_limit : Nat) (target : List F)
    (block_data : motion_data_t F) : Option (Bool × World E F × List F × motion_data_t F) :=
  let max_home_dist := ops.mul w.g_settings.homing_offset hc.five
  let target := mc_get_position hc.toConfig w target
  let max_home_dist := home_direction ops w axis max_home_dist
  let target := target.set axis (ops.add (target.getD axis ops.zero) max_home_dist)
  let block_data := { block_data with feed := w.g_settings.homing_slow_feed_rate }
  let block_data :=
    { block_data with total_steps := ops.to_uint (ABS ops max_home_dist) % 2 ^ 32 }
  let block_data :=
    { block_data with steps := block_data.steps.set axis (ops.to_uint max_home_dist % 2 ^ 32) }
  let w :=
    { w with g_settings :=
      { w.g_settings with
        limits_invert_mask := (w.g_settings.limits_invert_mask ^^^ axis_limit) % 256 } }
  home_move hc ops c fuel w target block_data

/-- Lines 477-482 of `mc_home_axis`: the limit mask is inverted back and the
machine is stopped and flushed. -/
def home_flush_slow (c : HomingCollab E F) (w : World E F) (axis_limit : Nat) : World E F :=
  let w :=
    { w with g_settings :=
      { w.g_settings with
        limits_invert_mask := (w.g_settings.limits_invert_mask ^^^ axis_limit) % 256 } }
  let w := { w with env := c.cnc_stop w.env }
  let w := { w with env := c.itp_clear w.env }
  { w with env := c.planner_clear w.env }

/-- Line 384 of `mc_home_axis`: `cnc_unlock()`. -/
def home_entry (c : HomingCollab E F) (w : World E F) : World E F :=
  { w with env := c.cnc_unlock w.env }

/-- The condition of line 387, on the world after `cnc_unlock`. -/
def home_refused (hc : HomingConfig F) (c : HomingCollab E F) (w : World E F) : Bool :=
  c.cnc_get_exec_state w.env (hc.EXEC_HOLD ||| hc.EXEC_ALARM) != 0 ||
    CHECKFLAG (c.io_get_limits w.env w.g_settings) hc.LIMITS_MASK

/-- Lines 476-496 of `mc_home_axis`: what follows the wait of the slow back-off. -/
def home_finish (hc : HomingConfig F) (c : HomingCollab E F) (w : World E F)
    (axis_limit : Nat) : HomeResult E F :=
  let w := home_flush_slow c w axis_limit
  if c.cnc_get_exec_state w.env hc.EXEC_ABORT ≠ 0 then
    { status := hc.EXEC_ALARM_HOMING_FAIL_RESET, world := w, exit_line := 486 }
  else
    let limits_flags := c.io_get_limits w.env w.g_settings
    if CHECKFLAG limits_flags axis_limit then
      { status := hc.EXEC_ALARM_HOMING_FAIL_APPROACH, world := w, exit_line := 493 }
    else { status := STATUS_OK, world := w, exit_line := 496 }

/-- Lines 426-496 of `mc_home_axis`: what follows the wait of the fast seek. -/
def home_second_pass (hc : HomingConfig F) (ops : FloatOps F) (c : HomingCollab E F)
    (fuel : Nat) (w : World E F) (axis axis_limit : Nat) (target : List F)
    (block_data : motion_data_t F) : Option (HomeResult E F) :=
  let w := home_flush_fast c w
  if c.cnc_get_exec_state w.env hc.EXEC_ABORT ≠ 0 then
    some { status := hc.EXEC_ALARM_HOMING_FAIL_RESET, world := w, exit_line := 433 }
  else
    let limits_flags := c.io_get_limits w.env w.g_settings
    if !CHECKFLAG limits_flags axis_limit then
      some { status := hc.EXEC_ALARM_HOMING_FAIL_APPROACH, world := w, exit_line := 441 }
    else
      match home_slow_backoff hc ops c fuel w axis axis_limit target block_data with
      | none => none
      | some (false, w, _, _) =>
        some { status := hc.STATUS_CRITICAL_FAIL, world := w, exit_line := 472 }
      | some (true, w, _, _) => some (home_finish hc c w axis_limit)

/-- The function `mc_home_axis(axis, axis_limit)`. -/
def mc_home_axis (hc : HomingConfig F) (ops : FloatOps F) (c : HomingCollab E F) (fuel : Nat)
    (w : World E F) (axis axis_limit : Nat) : Option (HomeResult E F) :=
  let axis_limit := home_axis_limit hc axis axis_limit
  let w := home_entry c w
  if home_refused hc c w then
    some { status := hc.EXEC_ALARM_HOMING_FAIL_LIMIT_ACTIVE, world := w, exit_line := 389 }
  else
    match home_fast_seek hc ops c fuel w axis axis_limit with
    | none => none
    | some (false, w, _, _) =>
      some { status := hc.STATUS_CRITICAL_FAIL, world := w, exit_line := 422 }
    | some (true, w, target, block_data) =>
      home_second_pass hc ops c fuel w axis axis_limit target block_data

end Homing


/-! ## Rational arithmetic

A second concrete arithmetic, for the claims that name decimal quantities:
`float` as the rationals, with exact `+ - * /`, the constants of the source as
decimal fractions, and `sqrt`, `atan2`, `cos` as rational approximations. The
rounding of single-precision floats is not modelled. -/

section RatSim

/-- Bisection for the integer square root of `n`: the answer lies in `[lo, hi)`. -/
def isqrt_loop (n : Nat) : Nat → Nat → Nat → Nat
  | 0, lo, _ => lo
  | fuel + 1, lo, hi =>
    if hi ≤ lo + 1 then lo
    else
      let mid := (lo + hi) / 2
      if mid * mid ≤ n then isqrt_loop n fuel mid hi else isqrt_loop n fuel lo mid

/-- The integer square root, for `n` below `2 ^ 128`. -/
def isqrt (n : Nat) : Nat := isqrt_loop n 128 0 (n + 1)

/-- The square root, rounded down to six decimals. -/
def rat_sqrt (a : ℚ) : ℚ :=
  if a ≤ 0 then 0 else (isqrt (⌊a * 1000000000000⌋.toNat) : ℚ) / 1000000

/-- The constant M_PI of line 35, to twenty decimals. -/
def rat_pi : ℚ := 314159265358979323846 / 100000000000000000000

/-- The arc tangent of `z` for `|z| ≤ 1`, by `z / (1 + 0.28 z²)` (within 0.005 rad). -/
def rat_atan_unit (z : ℚ) : ℚ := z / (1 + 28 / 100 * z * z)

/-- The function `atan2`: exact multiples of `rat_pi / 2` on the axes, the
approximation `rat_atan_unit` folded into the right octant elsewhere. -/
def rat_atan2 (y x : ℚ) : ℚ :=
  if y = 0 then (if x < 0 then rat_pi else 0)
  else if x = 0 then (if 0 < y then rat_pi / 2 else -(rat_pi / 2))
  else if |y| ≤ |x| then
    (if 0 < x then rat_atan_unit (y / x)
     else if 0 < y then rat_atan_unit (y / x) + rat_pi else rat_atan_unit (y / x) - rat_pi)
  else
    (if 0 < y then rat_pi / 2 - rat_atan_unit (x / y) else -(rat_pi / 2) - rat_atan_unit (x / y))

/-- The cosine, by its Taylor polynomial of degree 8. -/
def rat_cos (a : ℚ) : ℚ :=
  1 - a ^ 2 / 2 + a ^ 4 / 24 - a ^ 6 / 720 + a ^ 8 / 40320

/-- Rational arithmetic for the float operations. -/
def rat_ops : FloatOps ℚ where
  zero := 0
  one := 1
  M_PI := rat_pi
  M_COS_TAYLOR_1 := 16666667163372039794921875 / 100000000000000000000000000
  FLT_MAX := 340282346638528859811704183484516925440
  add := fun a b => a + b
  sub := fun a b => a - b
  mul := fun a b => a * b
  div := fun a b => a / b
  neg := fun a => -a
  le := fun a b => decide (a ≤ b)
  of_uint := fun n => (n : ℚ)
  to_uint := fun a => ⌊a⌋.toNat
  fast_flt_pow2 := fun a => a * a
  fast_flt_invsqrt := fun a => 1 / rat_sqrt a
  fast_flt_div2 := fun a => a / 2
  fast_flt_mul2 := fun a => a * 2
  fast_flt_div4 := fun a => a / 4
  atan2 := rat_atan2
  floor := fun a => (⌊a⌋ : ℚ)
  fabs := fun a => |a|
  sqrt := rat_sqrt
  cos := rat_cos

end RatSim

/-! ## A machine to home

The collaborators of `mc_home_axis` over rational arithmetic, 200 steps/mm. The
X limit switch (bit 0 of the limits) is closed while actuator 0 stands at or
below `switch_at` steps; `io_get_limits` applies the invert mask of the settings.
The planner adopts the end position of a block as soon as it is handed over. -/

section HomingSim

/-- The state of the collaborators of the homing machine. -/
structure RatEnv where
  exec_state : Nat
  position : List Nat
  queue : List (motion_data_t ℚ)
  capacity : Nat
  pump : List Bool
  alarm : Option Nat
  travel : ℚ
  switch_at : Int
  homing_filter : Nat
deriving DecidableEq

/-- The constants of the homing machine: those of `sim_cfg`, EXEC_RUN = 1,
EXEC_HOLD = 2, EXEC_ALARM = 112, EXEC_ABORT = 128, three limit switches. -/
def rat_hc : HomingConfig ℚ where
  toConfig := sim_cfg
  EXEC_RUN := 1
  EXEC_HOLD := 2
  EXEC_ALARM := 112
  EXEC_ABORT := 128
  LIMITS_MASK := 7
  MOTIONCONTROL_MODE_FEED := 0
  EXEC_ALARM_HOMING_FAIL_LIMIT_ACTIVE := 7
  EXEC_ALARM_HOMING_FAIL_RESET := 6
  EXEC_ALARM_HOMING_FAIL_APPROACH := 9
  AXIS_DUAL0 := none
  AXIS_DUAL1 := none
  one_and_a_half := 3 / 2
  five := 5

/-- The collaborators of the homing machine. -/
def rat_collab : HomingCollab RatEnv ℚ where
  cnc_get_exec_state := fun e m => e.exec_state &&& m
  cnc_alarm := fun e code => { e with alarm := some code }
  cnc_doevents := fun e =>
    match e.pump with
    | [] => (true, e)
    | b :: rest => (b, { e with pump := rest })
  kinematics_apply_transform := fun _ t => t
  kinematics_apply_inverse := fun _ t => t.map (fun x => (⌊x * 200⌋ % 4294967296).toNat)
  io_check_boundaries := fun e t => t.all (fun x => decide (|x| ≤ e.travel))
  planner_buffer_is_full := fun e => decide (e.capacity ≤ e.queue.length)
  planner_get_position := fun e => e.position
  planner_add_line := fun e steps b =>
    { e with queue := e.queue ++ [b],
             position := match steps with
               | some s => if CHECKFLAG b.motion_mode 4 then e.position else s
               | none => e.position }
  indeterminate_steps := fun _ => [0, 0, 0]
  cnc_unlock := fun e => { e with exec_state := e.exec_state &&& 133, alarm := none }
  cnc_set_exec_state := fun e m => { e with exec_state := e.exec_state ||| m }
  cnc_stop := fun e => { e with exec_state := e.exec_state &&& 254 }
  io_get_limits := fun e s =>
    ((if to_int32 (e.position.getD 0 0) ≤ e.switch_at then 1 else 0) ^^^ s.limits_invert_mask) &&& 7
  io_set_homing_limits_filter := fun e m => { e with homing_filter := m }
  planner_resync_position := fun e => e
  planner_clear := fun e => { e with queue := [] }
  itp_stop := fun e => { e with exec_state := e.exec_state &&& 254 }
  itp_clear := fun e => e
  kinematics_apply_forward := fun _ pos _ => pos.map (fun p => (to_int32 p : ℚ) / 200)
  kinematics_apply_reverse_transform := fun _ t => t
  indeterminate_block := fun _ =>
    { dir_vect := [0, 0, 0], steps := [0, 0, 0], dirbits := 0, full_steps := 0, total_steps := 0,
      step_indexer := 0, feed := 0, spindle := 0, dwell := 0, motion_mode := 0 }

/-- The homing machine at rest at the origin: travel of 1000 mm, the X switch
300 mm (60000 steps) below the origin, an event pump answering from `pump`. -/
def rat_world (pump : List Bool) : World RatEnv ℚ where
  mc_checkmode := false
  mc_last_target := [0, 0, 0]
  mc_prev_transformed_target := [0, 0, 0]
  mc_last_dirbits := 0
  g_settings :=
    { backlash_steps := [8, 0, 0], arc_tolerance := 2 / 1000, max_distance := [200, 200, 200],
      homing_fast_feed_rate := 500, homing_slow_feed_rate := 100, homing_offset := 1,
      homing_dir_invert_mask := 0, limits_invert_mask := 0 }
  env :=
    { exec_state := 0, position := [0, 0, 0], queue := [], capacity := 4, pump := pump,
      alarm := none, travel := 1000, switch_at := -60000, homing_filter := 0 }
  trace := []

/-- A zeroed feed block at 600 mm/min, over the rationals. -/
def rat_block : motion_data_t ℚ where
  dir_vect := [0, 0, 0]
  steps := [0, 0, 0]
  dirbits := 0
  full_steps := 0
  total_steps := 0
  step_indexer := 0
  feed := 600
  spindle := 0
  dwell := 0
  motion_mode := 0

/-- The machine of `rat_world` (at the origin, arc_tolerance 0.002) with a
planner of 128 blocks. -/
def rat_world_arc : World RatEnv ℚ :=
  { rat_world [] with env := { (rat_world []).env with capacity := 128 } }

/-- The collaborators of `rat_collab` used by `mc_line`, with a kinematic
transform that adds a tool length offset of 2 mm to z, in place. -/
def rat_collab_tool : Collab RatEnv ℚ :=
  { rat_collab.toCollab with
    kinematics_apply_transform := fun _ t => t.set 2 (t.getD 2 0 + 2) }

/-- The machine of `rat_world_arc` with an arc_tolerance of 0.5 mm. -/
def rat_world_coarse : World RatEnv ℚ :=
  { rat_world_arc with g_settings := { rat_world_arc.g_settings with arc_tolerance := 1 / 2 } }

/-- What the claims about `mc_home_axis` look at in a result: the status, the
line of the `return`, `g_settings.limits_invert_mask` and the targets of the
`mc_line` calls. -/
def home_summary {E F : Type} (r : HomeResult E F) : Nat × Nat × Nat × List (List F) :=
  (r.status, r.exit_line, r.world.g_settings.limits_invert_mask, line_calls r.world.trace)

end HomingSim

/-! ## Frame lemmas for the pieces of `mc_line` -/

section Proofs

variable {E F : Type}

theorem planner_adds_append (a b : List (Event F)) :
    planner_adds (a ++ b) = planner_adds a ++ planner_adds b := by
  induction a with
  | nil => rfl
  | cons ev tr ih => cases ev <;> simp [planner_adds, ih]

theorem alarms_append (a b : List (Event F)) :
    alarms (a ++ b) = alarms a ++ alarms b := by
  induction a with
  | nil => rfl
  | cons ev tr ih => cases ev <;> simp [alarms, ih]

theorem line_calls_append (a b : List (Event F)) :
    line_calls (a ++ b) = line_calls a ++ line_calls b := by
  induction a with
  | nil => rfl
  | cons ev tr ih => cases ev <;> simp [line_calls, ih]

theorem line_returns_append (a b : List (Event F)) :
    line_returns (a ++ b) = line_returns a ++ line_returns b := by
  induction a with
  | nil => rfl
  | cons ev tr ih => cases ev <;> simp [line_returns, ih]

theorem memcpy_take {α : Type} (n : Nat) (dst src out : List α) (hs : src.length = n)
    (ho : out.length = n) : memcpy n out (memcpy n dst src) = src := by
  subst hs
  simp [memcpy, ← ho]

/-! ### Bit masks -/

theorem and_zero_testBit (m n : Nat) (h : m &&& n = 0) (i : Nat) :
    (m.testBit i && n.testBit i) = false := by
  rw [← Nat.testBit_and, h, Nat.zero_testBit]

/-- Setting a flag `B` does not set any bit of a disjoint flag `N`. -/
theorem setflag_and_disjoint (m B N : Nat) (hm : m &&& N = 0) (hB : B &&& N = 0) :
    ((m ||| B) % 256) &&& N = 0 := by
  apply Nat.eq_of_testBit_eq
  intro i
  have h1 := and_zero_testBit m N hm i
  have h2 := and_zero_testBit B N hB i
  rw [show (256 : Nat) = 2 ^ 8 from rfl, Nat.testBit_and, Nat.testBit_mod_two_pow,
    Nat.testBit_or, Nat.zero_testBit]
  cases hmi : m.testBit i <;> cases hbi : B.testBit i <;> cases hni : N.testBit i <;>
    simp_all

/-- After `SETFLAG(x, B)` on an 8 bit field, `CHECKFLAG(x, B)` holds. -/
theorem setflag_has_flag (m B : Nat) (h0 : B ≠ 0) (hB : B < 256) :
    ((m ||| B) % 256) &&& B ≠ 0 := by
  have hB2 : ((m ||| B) % 256) &&& B = B := by
    apply Nat.eq_of_testBit_eq
    intro i
    rw [show (256 : Nat) = 2 ^ 8 from rfl, Nat.testBit_and, Nat.testBit_mod_two_pow,
      Nat.testBit_or]
    cases hbi : B.testBit i
    · simp
    · have hi : i < 8 := by
        by_contra hge
        have hlt : B < 2 ^ i :=
          lt_of_lt_of_le hB (Nat.pow_le_pow_right (by norm_num) (not_lt.1 hge) : 2 ^ 8 ≤ 2 ^ i)
        have hf := Nat.testBit_lt_two_pow hlt
        simp [hf] at hbi
      simp [hi]
  rw [hB2]
  exact h0

/-- The test `x & (1 << i)` of the code reads bit `i` of `x`. -/
theorem and_one_shiftLeft (n i : Nat) : (n &&& (1 <<< i) != 0) = n.testBit i := by
  rw [Nat.one_shiftLeft]
  cases h : n.testBit i
  · have h0 : n &&& 2 ^ i = 0 := by
      apply Nat.eq_of_testBit_eq
      intro j
      rw [Nat.testBit_and, Nat.testBit_two_pow, Nat.zero_testBit]
      by_cases hij : i = j
      · subst hij
        simp [h]
      · simp [hij]
    simp [h0]
  · have h1 : (n &&& 2 ^ i).testBit i = true := by
      rw [Nat.testBit_and, Nat.testBit_two_pow, h]
      simp
    have hne : n &&& 2 ^ i ≠ 0 := by
      intro h0
      rw [h0, Nat.zero_testBit] at h1
      exact Bool.false_ne_true h1
    simpa using hne

/-- On 8 bit values, `a ^ b` is non-zero exactly when the values differ. -/
theorem xor_mod_ne_zero (a b : Nat) (ha : a < 256) (hb : b < 256) :
    (a ^^^ b) % 256 ≠ 0 ↔ b ≠ a := by
  have hlt : a ^^^ b < 256 := @Nat.xor_lt_two_pow a b 8 ha hb
  rw [Nat.mod_eq_of_lt hlt]
  constructor
  · intro h e
    subst e
    simp at h
  · intro h e
    exact h (Nat.xor_eq_zero.mp e).symm

/-! ### The loops of `mc_line` -/

theorem getD_set_nat (l : List Nat) (i j a : Nat) (hj : j < l.length) :
    (l.set i a).getD j 0 = if i = j then a else l.getD j 0 := by
  simp only [List.getD_eq_getElem?_getD, List.getElem?_set]
  by_cases hij : i = j
  · subst hij
    simp [hj]
  · simp [hij]

/-- The direction bits stay within 8 bits through the step loop. -/
theorem mc_line_steps_dirbits_lt (p : List Nat) (n : Nat) (b : motion_data_t F)
    (hb : b.dirbits < 256) : (mc_line_steps p n b).dirbits < 256 := by
  induction n generalizing b with
  | zero => simpa [mc_line_steps] using hb
  | succ n ih =>
    simp only [mc_line_steps]
    apply ih
    unfold mc_line_step
    simp only []
    split <;> split <;> first | exact hb | exact Nat.mod_lt _ (by norm_num)

/-- The backlash loop: the motion mode is kept, and actuator `j` gets its
backlash steps exactly when bit `j` of `inverted_steps` is set. -/
theorem mc_line_backlash_steps_spec (bs : List Nat) (inv : Nat) (n : Nat)
    (b : motion_data_t F) :
    (mc_line_backlash_steps bs inv n b).motion_mode = b.motion_mode ∧
    (mc_line_backlash_steps bs inv n b).dirbits = b.dirbits ∧
    (mc_line_backlash_steps bs inv n b).steps.length = b.steps.length ∧
    ∀ j, j < b.steps.length → (mc_line_backlash_steps bs inv n b).steps.getD j 0 =
      if j < n ∧ inv.testBit j = true then bs.getD j 0 else b.steps.getD j 0 := by
  induction n generalizing b with
  | zero => simp [mc_line_backlash_steps]
  | succ n ih =>
    simp only [mc_line_backlash_steps]
    rw [and_one_shiftLeft]
    cases hbit : inv.testBit n
    · simp only [Bool.false_eq_true, if_false]
      obtain ⟨h1, h2, h3, h4⟩ := ih b
      refine ⟨h1, h2, h3, fun j hj => ?_⟩
      rw [h4 j hj]
      by_cases hjn : j < n
      · simp [hjn, Nat.lt_succ_of_lt hjn]
      · by_cases hje : j = n
        · subst hje
          simp [hbit]
        · have : ¬ j < n + 1 := by omega
          simp [hjn, this]
    · simp only [if_true]
      split
      · obtain ⟨h1, h2, h3, h4⟩ := ih
          { b with steps := b.steps.set n (bs.getD n 0),
                   full_steps := (b.full_steps + (b.steps.set n (bs.getD n 0)).getD n 0) % 2 ^ 32,
                   total_steps := (b.steps.set n (bs.getD n 0)).getD n 0,
                   step_indexer := n }
        simp only [List.length_set] at h3 h4
        refine ⟨h1, h2, h3, fun j hj => ?_⟩
        rw [h4 j hj, getD_set_nat _ _ _ _ hj]
        by_cases hjn : j < n
        · have hne : n ≠ j := by omega
          simp [hjn, Nat.lt_succ_of_lt hjn, hne]
        · by_cases hje : j = n
          · subst hje
            simp [hbit]
          · have : ¬ j < n + 1 := by omega
            simp [hjn, this, Ne.symm hje]
      · obtain ⟨h1, h2, h3, h4⟩ := ih
          { b with steps := b.steps.set n (bs.getD n 0),
                   full_steps := (b.full_steps + (b.steps.set n (bs.getD n 0)).getD n 0) % 2 ^ 32 }
        simp only [List.length_set] at h3 h4
        refine ⟨h1, h2, h3, fun j hj => ?_⟩
        rw [h4 j hj, getD_set_nat _ _ _ _ hj]
        by_cases hjn : j < n
        · have hne : n ≠ j := by omega
          simp [hjn, Nat.lt_succ_of_lt hjn, hne]
        · by_cases hje : j = n
          · subst hje
            simp [hbit]
          · have : ¬ j < n + 1 := by omega
            simp [hjn, this, Ne.symm hje]

/-- The backlash block: the caller's motion mode with BACKLASH_COMPENSATION
set, the direction bits of the real block, `STEPPER_COUNT` step counts, and
actuator `j` gets its backlash steps exactly when bit `j` of `inverted_steps`
is set, zero otherwise. -/
theorem mc_line_backlash_block_spec (cfg : Config) (ops : FloatOps F) (bs : List Nat)
    (inv : Nat) (b : motion_data_t F) :
    (mc_line_backlash_block cfg ops bs inv b).motion_mode =
      SETFLAG b.motion_mode cfg.MOTIONCONTROL_MODE_BACKLASH_COMPENSATION ∧
    (mc_line_backlash_block cfg ops bs inv b).dirbits = b.dirbits ∧
    (mc_line_backlash_block cfg ops bs inv b).steps.length = cfg.STEPPER_COUNT ∧
    ∀ j, j < cfg.STEPPER_COUNT → (mc_line_backlash_block cfg ops bs inv b).steps.getD j 0 =
      if inv.testBit j = true then bs.getD j 0 else 0 := by
  unfold mc_line_backlash_block
  simp only []
  obtain ⟨h1, h2, h3, h4⟩ := mc_line_backlash_steps_spec bs inv cfg.STEPPER_COUNT
    { b with steps := List.replicate cfg.STEPPER_COUNT 0, total_steps := 0, feed := ops.FLT_MAX,
             motion_mode := SETFLAG b.motion_mode cfg.MOTIONCONTROL_MODE_BACKLASH_COMPENSATION }
  simp only [List.length_replicate] at h3 h4
  refine ⟨h1, h2, h3, fun j hj => ?_⟩
  rw [h4 j hj]
  simp [hj, List.getD_eq_getElem?_getD]

/-- The wait for planner space touches only the collaborators and the trace. -/
theorem wait_planner_space_frame (c : Collab E F) (fuel : Nat) (w w1 : World E F) (b : Bool)
    (h : wait_planner_space c fuel w = some (b, w1)) :
    w1.mc_checkmode = w.mc_checkmode ∧ w1.mc_last_target = w.mc_last_target ∧
    w1.mc_prev_transformed_target = w.mc_prev_transformed_target ∧
    w1.mc_last_dirbits = w.mc_last_dirbits ∧ w1.g_settings = w.g_settings := by
  induction fuel generalizing w with
  | zero => simp [wait_planner_space] at h
  | succ n ih =>
    simp only [wait_planner_space] at h
    split at h
    · split at h
      · have := ih _ h
        simpa [World.log] using this
      · simp at h
        obtain ⟨-, rfl⟩ := h
        simp [World.log]
    · simp at h
      obtain ⟨-, rfl⟩ := h
      simp [World.log]

/-- The wait for planner space calls neither `planner_add_line`, `cnc_alarm` nor `mc_line`. -/
theorem wait_planner_space_trace (c : Collab E F) (fuel : Nat) (w w1 : World E F) (b : Bool)
    (h : wait_planner_space c fuel w = some (b, w1)) :
    planner_adds w1.trace = planner_adds w.trace ∧ alarms w1.trace = alarms w.trace ∧
    line_calls w1.trace = line_calls w.trace ∧ line_returns w1.trace = line_returns w.trace := by
  induction fuel generalizing w with
  | zero => simp [wait_planner_space] at h
  | succ n ih =>
    simp only [wait_planner_space] at h
    split at h
    · split at h
      · have := ih _ h
        simpa [World.log, planner_adds_append, alarms_append, line_calls_append,
          line_returns_append, planner_adds, alarms, line_calls, line_returns] using this
      · simp at h
        obtain ⟨-, rfl⟩ := h
        simp [World.log, planner_adds_append, alarms_append, line_calls_append,
          line_returns_append, planner_adds, alarms, line_calls, line_returns]
    · simp at h
      obtain ⟨-, rfl⟩ := h
      simp [World.log, planner_adds_append, alarms_append, line_calls_append,
          line_returns_append, planner_adds, alarms, line_calls, line_returns]

theorem mc_line_step_frame (p : List Nat) (i : Nat) (b : motion_data_t F) :
    (mc_line_step p i b).feed = b.feed ∧ (mc_line_step p i b).motion_mode = b.motion_mode := by
  unfold mc_line_step
  simp only []
  split <;> split <;> simp

theorem mc_line_steps_frame (p : List Nat) (n : Nat) (b : motion_data_t F) :
    (mc_line_steps p n b).feed = b.feed ∧ (mc_line_steps p n b).motion_mode = b.motion_mode := by
  induction n generalizing b with
  | zero => simp [mc_line_steps]
  | succ n ih =>
    simp only [mc_line_steps]
    rw [(ih _).1, (ih _).2]
    exact mc_line_step_frame p n b

/-- Lines 116-160 leave the feed, the motion mode and, of the statics, everything
but `mc_prev_transformed_target` alone, and call no traced collaborator. -/
theorem mc_line_motion_frame (cfg : Config) (ops : FloatOps F) (c : Collab E F)
    (w : World E F) (target : List F) (b : motion_data_t F) :
    (mc_line_motion cfg ops c w target b).block.feed = b.feed ∧
    (mc_line_motion cfg ops c w target b).block.motion_mode = b.motion_mode ∧
    (mc_line_motion cfg ops c w target b).world.mc_checkmode = w.mc_checkmode ∧
    (mc_line_motion cfg ops c w target b).world.mc_last_target = w.mc_last_target ∧
    (mc_line_motion cfg ops c w target b).world.mc_last_dirbits = w.mc_last_dirbits ∧
    (mc_line_motion cfg ops c w target b).world.g_settings = w.g_settings ∧
    (mc_line_motion cfg ops c w target b).world.env = w.env ∧
    (mc_line_motion cfg ops c w target b).world.trace = w.trace := by
  unfold mc_line_motion
  simp only []
  rw [(mc_line_steps_frame _ _ _).1, (mc_line_steps_frame _ _ _).2]
  split <;> simp

/-- The backlash stage of `mc_line` touches `mc_last_dirbits`, the collaborators
and the trace only, raises no alarm and calls no `mc_line`. -/
theorem mc_line_backlash_frame (cfg : Config) (ops : FloatOps F) (c : Collab E F) (fuel : Nat)
    (w w1 : World E F) (b : motion_data_t F) (ok : Bool)
    (h : mc_line_backlash cfg ops c fuel w b = some (ok, w1)) :
    w1.mc_checkmode = w.mc_checkmode ∧ w1.mc_last_target = w.mc_last_target ∧
    w1.g_settings = w.g_settings ∧ alarms w1.trace = alarms w.trace ∧
    line_calls w1.trace = line_calls w.trace ∧ line_returns w1.trace = line_returns w.trace := by
  unfold mc_line_backlash at h
  simp only [] at h
  split at h
  · split at h
    · split at h
      · simp at h
      · rename_i w2 hw
        simp at h
        obtain ⟨-, rfl⟩ := h
        have h1 := wait_planner_space_frame c fuel _ _ _ hw
        have h2 := wait_planner_space_trace c fuel _ _ _ hw
        simp only [call_planner_add_line, alarms_append, line_calls_append,
          line_returns_append, alarms, line_calls, line_returns, List.append_nil] at h1 h2
        simp [h1, h2]
      · rename_i w2 hw
        simp at h
        obtain ⟨-, rfl⟩ := h
        have h1 := wait_planner_space_frame c fuel _ _ _ hw
        have h2 := wait_planner_space_trace c fuel _ _ _ hw
        simp only [call_planner_add_line, alarms_append, line_calls_append,
          line_returns_append, alarms, line_calls, line_returns, List.append_nil] at h1 h2
        simp [h1, h2]
    · simp at h
      obtain ⟨-, rfl⟩ := h
      simp
  · simp at h
    obtain ⟨-, rfl⟩ := h
    simp

/-- What `mc_line_finish` returns, spelled out. -/
theorem mc_line_finish_eq (cfg : Config) (ops : FloatOps F) (c : Collab E F) (feed : F)
    (motion : Option F) (p : List Nat) (w : World E F) (target : List F)
    (b : motion_data_t F) (r : LineResult E F)
    (h : mc_line_finish cfg ops c feed motion p w target b = some r) :
    r.status = STATUS_OK ∧ r.target = target ∧ r.block = { b with feed := feed } ∧
    r.world.mc_checkmode = w.mc_checkmode ∧ r.world.mc_last_target = w.mc_last_target ∧
    r.world.mc_last_dirbits = w.mc_last_dirbits ∧
    r.world.g_settings = w.g_settings ∧
    alarms r.world.trace = alarms w.trace ∧
    planner_adds r.world.trace = planner_adds w.trace ++
      [(some p, { b with feed := mc_line_feed cfg ops motion b })] := by
  unfold mc_line_finish mc_line_ret at h
  simp only [Option.some.injEq] at h
  subst h
  simp [call_planner_add_line, World.log, planner_adds_append, alarms_append, planner_adds,
      alarms]

/-- Lines 114-211 of `mc_line` keep the caller's feed and motion mode, the check
mode, `mc_last_target` and the settings, and raise no alarm. -/
theorem mc_line_plan_frame (cfg : Config) (ops : FloatOps F) (c : Collab E F) (fuel : Nat)
    (w : World E F) (target : List F) (b : motion_data_t F) (r : LineResult E F)
    (h : mc_line_plan cfg ops c fuel b.feed w target b = some r) :
    r.target = target ∧ r.block.feed = b.feed ∧ r.block.motion_mode = b.motion_mode ∧
    r.world.mc_checkmode = w.mc_checkmode ∧ r.world.mc_last_target = w.mc_last_target ∧
    r.world.g_settings = w.g_settings ∧ alarms r.world.trace = alarms w.trace := by
  unfold mc_line_plan at h
  have hm := mc_line_motion_frame cfg ops c w target b
  split at h
  · simp only [] at h
    split at h
    · simp at h
    · rename_i w2 hb
      have hf := mc_line_backlash_frame cfg ops c fuel _ _ _ _ hb
      simp only [mc_line_ret, Option.some.injEq] at h
      subst h
      simp [World.log, alarms_append, alarms, hm, hf]
    · rename_i w2 hb
      have hf := mc_line_backlash_frame cfg ops c fuel _ _ _ _ hb
      have he := mc_line_finish_eq cfg ops c _ _ _ _ _ _ _ h
      obtain ⟨-, h2, h3, h6, h7, -, h9, h10, -⟩ := he
      simp [h2, h3, h6, h7, h9, h10, hm, hf]
  · have he := mc_line_finish_eq cfg ops c _ _ _ _ _ _ _ h
    obtain ⟨-, h2, h3, h6, h7, -, h9, h10, -⟩ := he
    simp [h2, h3, h6, h7, h9, h10]

/-- Every returning call of `mc_line` has copied the target into `mc_last_target`
and left the check mode, the settings and the caller's feed and motion mode as
they were, and hands back the transformed target. -/
theorem mc_line_frame (cfg : Config) (ops : FloatOps F) (c : Collab E F) (fuel : Nat)
    (w : World E F) (target : List F) (b : motion_data_t F) (r : LineResult E F)
    (h : mc_line cfg ops c fuel w target b = some r) :
    r.world.mc_last_target = memcpy cfg.AXIS_COUNT w.mc_last_target target ∧
    r.world.mc_checkmode = w.mc_checkmode ∧ r.world.g_settings = w.g_settings ∧
    r.block.feed = b.feed ∧ r.block.motion_mode = b.motion_mode ∧
    r.target = mc_line_transform cfg c w target := by
  unfold mc_line at h
  simp only [] at h
  split at h
  · split at h
    · simp only [mc_line_ret, Option.some.injEq] at h
      subst h
      simp [World.log, mc_line_transform]
    · simp only [mc_line_ret, Option.some.injEq] at h
      subst h
      simp [World.log, mc_line_transform]
  · split at h
    · simp only [mc_line_ret, Option.some.injEq] at h
      subst h
      simp [World.log, mc_line_transform]
    · split at h
      · simp at h
      · rename_i w2 hw
        have h1 := wait_planner_space_frame c fuel _ _ _ hw
        simp only [mc_line_ret, Option.some.injEq] at h
        subst h
        simp [World.log, mc_line_transform, h1]
      · rename_i w2 hw
        have h1 := wait_planner_space_frame c fuel _ _ _ hw
        have h2 := mc_line_plan_frame cfg ops c fuel w2 _ { b with dirbits := 0 } r h
        simp [World.log] at h1
        simp [h2, h1, mc_line_transform, World.log]

/-- The two ways through the backlash stage: either backlash compensation is
compiled in and a direction bit changed, then exactly the backlash block is
handed to the planner (and on success `mc_last_dirbits` is updated); or nothing
happens at all. -/
theorem mc_line_backlash_adds (cfg : Config) (ops : FloatOps F) (c : Collab E F) (fuel : Nat)
    (w w1 : World E F) (b : motion_data_t F) (ok : Bool)
    (h : mc_line_backlash cfg ops c fuel w b = some (ok, w1)) :
    (cfg.ENABLE_BACKLASH_COMPENSATION = true ∧ (w.mc_last_dirbits ^^^ b.dirbits) % 256 ≠ 0 ∧
      planner_adds w1.trace = planner_adds w.trace ++
        [(none, mc_line_backlash_block cfg ops w.g_settings.backlash_steps
          ((w.mc_last_dirbits ^^^ b.dirbits) % 256) b)] ∧
      (ok = true → w1.mc_last_dirbits = b.dirbits)) ∨
    (ok = true ∧
      (cfg.ENABLE_BACKLASH_COMPENSATION = false ∨ (w.mc_last_dirbits ^^^ b.dirbits) % 256 = 0) ∧
      w1 = w) := by
  unfold mc_line_backlash at h
  simp only [] at h
  split at h
  · rename_i hen
    split at h
    · rename_i hinv
      left
      have hinv1 : (w.mc_last_dirbits ^^^ b.dirbits) % 256 ≠ 0 := by simpa using hinv
      split at h
      · simp at h
      · rename_i w2 hw
        simp at h
        obtain ⟨rfl, rfl⟩ := h
        have h2 := (wait_planner_space_trace c fuel _ _ _ hw).1
        simp only [call_planner_add_line, planner_adds_append, planner_adds] at h2
        exact ⟨hen, hinv1, h2, by simp⟩
      · rename_i w2 hw
        simp at h
        obtain ⟨rfl, rfl⟩ := h
        have h2 := (wait_planner_space_trace c fuel _ _ _ hw).1
        simp only [call_planner_add_line, planner_adds_append, planner_adds] at h2
        exact ⟨hen, hinv1, h2, by simp⟩
    · rename_i hinv
      right
      simp at h
      obtain ⟨rfl, rfl⟩ := h
      exact ⟨rfl, Or.inr (by simpa using hinv), rfl⟩
  · rename_i hen
    right
    simp at h
    obtain ⟨rfl, rfl⟩ := h
    exact ⟨rfl, Or.inl (by simpa using hen), rfl⟩

/-- The ways through `mc_line`, by what reached the planner. Either nothing was
handed to `planner_add_line` (soft limit, check mode, or the first wait bailed
out); or planning was reached: the soft-limit check passed, check mode was off,
the first wait ended with room in the planner, and `mc_line_plan` produced the
result. -/
theorem mc_line_paths (cfg : Config) (ops : FloatOps F) (c : Collab E F) (fuel : Nat)
    (w : World E F) (target : List F) (b : motion_data_t F) (r : LineResult E F)
    (h : mc_line cfg ops c fuel w target b = some r) :
    (planner_adds r.world.trace = planner_adds w.trace ∧
      (c.io_check_boundaries w.env (mc_line_transform cfg c w target) = false ∨
       w.mc_checkmode = true ∨ r.status = cfg.STATUS_CRITICAL_FAIL)) ∨
    (c.io_check_boundaries w.env (mc_line_transform cfg c w target) = true ∧
      w.mc_checkmode = false ∧
      ∃ w2 : World E F, planner_adds w2.trace = planner_adds w.trace ∧
        w2.mc_last_dirbits = w.mc_last_dirbits ∧ w2.g_settings = w.g_settings ∧
        mc_line_plan cfg ops c fuel b.feed w2 (mc_line_transform cfg c w target)
          { b with dirbits := 0 } = some r) := by
  unfold mc_line at h
  simp only [] at h
  split at h
  · rename_i hrej
    left
    have hrej1 : c.io_check_boundaries w.env (mc_line_transform cfg c w target) = false := by
      simpa [World.log, mc_line_transform] using hrej
    split at h
    · simp only [mc_line_ret, Option.some.injEq] at h
      subst h
      exact ⟨by simp [World.log, planner_adds_append, planner_adds], Or.inl hrej1⟩
    · simp only [mc_line_ret, Option.some.injEq] at h
      subst h
      exact ⟨by simp [World.log, planner_adds_append, planner_adds], Or.inl hrej1⟩
  · rename_i hpass
    have hpass1 : c.io_check_boundaries w.env (mc_line_transform cfg c w target) = true := by
      simpa [World.log, mc_line_transform] using hpass
    split at h
    · rename_i hcm
      left
      simp only [mc_line_ret, Option.some.injEq] at h
      subst h
      exact ⟨by simp [World.log, planner_adds_append, planner_adds],
        Or.inr (Or.inl (by simpa [World.log] using hcm))⟩
    · rename_i hcm
      have hcm1 : w.mc_checkmode = false := by simpa [World.log] using hcm
      split at h
      · simp at h
      · rename_i w2 hw
        left
        have h2 := (wait_planner_space_trace c fuel _ _ _ hw).1
        simp only [mc_line_ret, Option.some.injEq] at h
        subst h
        simp only [World.log, planner_adds_append, planner_adds, List.append_nil] at h2
        exact ⟨by simpa [World.log, planner_adds_append, planner_adds] using h2,
          Or.inr (Or.inr rfl)⟩
      · rename_i w2 hw
        right
        have h1 := wait_planner_space_frame c fuel _ _ _ hw
        have h2 := (wait_planner_space_trace c fuel _ _ _ hw).1
        simp only [World.log, planner_adds_append, planner_adds, List.append_nil] at h1 h2
        refine ⟨hpass1, hcm1, w2, h2, h1.2.2.2.1, h1.2.2.2.2, ?_⟩
        simpa [World.log, mc_line_transform] using h

/-- The ways through lines 114-211 of `mc_line`, by status, returned block and
what reached the planner: a NOMOTION block is passed on as it is; a motion
block is passed with the converted feed, preceded by the backlash block when
backlash compensation is compiled in and a direction bit changed; and when the
wait after the backlash block bails out, only the backlash block was passed. -/
theorem mc_line_plan_adds (cfg : Config) (ops : FloatOps F) (c : Collab E F) (fuel : Nat)
    (feed : F) (w : World E F) (t : List F) (b : motion_data_t F) (r : LineResult E F)
    (h : mc_line_plan cfg ops c fuel feed w t b = some r) :
    (CHECKFLAG b.motion_mode cfg.MOTIONCONTROL_MODE_NOMOTION = true ∧
      r.status = STATUS_OK ∧ r.block = { b with feed := feed } ∧
      r.world.mc_last_dirbits = w.mc_last_dirbits ∧
      planner_adds r.world.trace = planner_adds w.trace ++
        [(some (c.indeterminate_steps w.env), b)]) ∨
    (CHECKFLAG b.motion_mode cfg.MOTIONCONTROL_MODE_NOMOTION = false ∧
      cfg.ENABLE_BACKLASH_COMPENSATION = true ∧
      (w.mc_last_dirbits ^^^ (mc_line_motion cfg ops c w t b).block.dirbits) % 256 ≠ 0 ∧
      r.status = cfg.STATUS_CRITICAL_FAIL ∧ r.block = (mc_line_motion cfg ops c w t b).block ∧
      planner_adds r.world.trace = planner_adds w.trace ++
        [(none, mc_line_backlash_block cfg ops w.g_settings.backlash_steps
          ((w.mc_last_dirbits ^^^ (mc_line_motion cfg ops c w t b).block.dirbits) % 256)
          (mc_line_motion cfg ops c w t b).block)]) ∨
    (CHECKFLAG b.motion_mode cfg.MOTIONCONTROL_MODE_NOMOTION = false ∧
      cfg.ENABLE_BACKLASH_COMPENSATION = true ∧
      (w.mc_last_dirbits ^^^ (mc_line_motion cfg ops c w t b).block.dirbits) % 256 ≠ 0 ∧
      r.status = STATUS_OK ∧
      r.block = { (mc_line_motion cfg ops c w t b).block with feed := feed } ∧
      r.world.mc_last_dirbits = (mc_line_motion cfg ops c w t b).block.dirbits ∧
      planner_adds r.world.trace = planner_adds w.trace ++
        [(none, mc_line_backlash_block cfg ops w.g_settings.backlash_steps
          ((w.mc_last_dirbits ^^^ (mc_line_motion cfg ops c w t b).block.dirbits) % 256)
          (mc_line_motion cfg ops c w t b).block),
         (some (mc_line_motion cfg ops c w t b).step_new_pos,
          { (mc_line_motion cfg ops c w t b).block with
            feed := mc_line_feed cfg ops (some (mc_line_motion cfg ops c w t b).inv_dist)
              (mc_line_motion cfg ops c w t b).block })]) ∨
    (CHECKFLAG b.motion_mode cfg.MOTIONCONTROL_MODE_NOMOTION = false ∧
      (cfg.ENABLE_BACKLASH_COMPENSATION = false ∨
        (w.mc_last_dirbits ^^^ (mc_line_motion cfg ops c w t b).block.dirbits) % 256 = 0) ∧
      r.status = STATUS_OK ∧
      r.block = { (mc_line_motion cfg ops c w t b).block with feed := feed } ∧
      r.world.mc_last_dirbits = w.mc_last_dirbits ∧
      planner_adds r.world.trace = planner_adds w.trace ++
        [(some (mc_line_motion cfg ops c w t b).step_new_pos,
          { (mc_line_motion cfg ops c w t b).block with
            feed := mc_line_feed cfg ops (some (mc_line_motion cfg ops c w t b).inv_dist)
              (mc_line_motion cfg ops c w t b).block })]) := by
  unfold mc_line_plan at h
  have hm := mc_line_motion_frame cfg ops c w t b
  obtain ⟨-, -, -, -, hmd, hms, -, hmt⟩ := hm
  split at h
  · rename_i hmo
    have hmo1 : CHECKFLAG b.motion_mode cfg.MOTIONCONTROL_MODE_NOMOTION = false := by
      simpa using hmo
    right
    simp only [] at h
    split at h
    · simp at h
    · rename_i w2 hb
      left
      rcases mc_line_backlash_adds cfg ops c fuel _ _ _ _ hb with ⟨h1, h2, h3, -⟩ | ⟨h1, -⟩
      · simp only [mc_line_ret, Option.some.injEq] at h
        subst h
        rw [hmd, hms, hmt] at h3
        rw [hmd] at h2
        exact ⟨hmo1, h1, h2, rfl, rfl, by
          simpa [World.log, planner_adds_append, planner_adds] using h3⟩
      · simp at h1
    · rename_i w2 hb
      right
      have he := mc_line_finish_eq cfg ops c _ _ _ _ _ _ _ h
      obtain ⟨e1, -, e3, -, -, e6, -, -, e9⟩ := he
      rcases mc_line_backlash_adds cfg ops c fuel _ _ _ _ hb with
        ⟨h1, h2, h3, h4⟩ | ⟨-, h2, h3⟩
      · left
        rw [hmd, hms, hmt] at h3
        rw [hmd] at h2
        refine ⟨hmo1, h1, h2, e1, e3, ?_, ?_⟩
        · rw [e6]
          exact h4 rfl
        · rw [e9, h3]
          simp
      · right
        subst h3
        rw [hmd] at h2
        refine ⟨hmo1, h2, e1, e3, ?_, ?_⟩
        · rw [e6, hmd]
        · rw [e9, hmt]
  · rename_i hmo
    left
    have hmo1 : CHECKFLAG b.motion_mode cfg.MOTIONCONTROL_MODE_NOMOTION = true := by
      simpa using hmo
    have he := mc_line_finish_eq cfg ops c _ _ _ _ _ _ _ h
    obtain ⟨e1, -, e3, -, -, e6, -, -, e9⟩ := he
    exact ⟨hmo1, e1, e3, e6, e9⟩

/-! ## The claims about `mc_line`, `mc_dwell` and `mc_update_tools` -/

/-- C1. After every returning call of `mc_line`, whatever status it returns,
`mc_get_position` yields the coordinates the target held on entry (before the
kinematic transform rewrote the array); so along any run of `mc_line` calls the
positions read after the calls are, in order, the targets passed in. -/
theorem mc_line_position_is_target (cfg : Config) (ops : FloatOps F) (c : Collab E F)
    (fuel : Nat) (calls : List (List F × motion_data_t F)) (w : World E F)
    (rs : List (LineResult E F)) (out : List F)
    (hseq : mc_line_seq cfg ops c fuel w calls = some rs)
    (hlen : ∀ call ∈ calls, call.1.length = cfg.AXIS_COUNT)
    (hout : out.length = cfg.AXIS_COUNT) :
    rs.map (fun r => mc_get_position cfg r.world out) = calls.map (fun call => call.1) := by
  induction calls generalizing w rs with
  | nil =>
    simp only [mc_line_seq, Option.some.injEq] at hseq
    subst hseq
    rfl
  | cons call rest ih =>
    simp only [mc_line_seq] at hseq
    split at hseq
    · simp at hseq
    · rename_i r hr
      split at hseq
      · simp at hseq
      · rename_i rs1 hrs
        simp only [Option.some.injEq] at hseq
        subst hseq
        have hf := (mc_line_frame cfg ops c fuel w call.1 call.2 r hr).1
        have h1 := ih r.world rs1 hrs (fun x hx => hlen x (List.mem_cons_of_mem _ hx))
        simp only [List.map_cons]
        rw [h1]
        congr 1
        simp only [mc_get_position, hf]
        exact memcpy_take _ _ _ _ (hlen call (List.mem_cons_self _ _)) hout

/-- C1, on the simulated machine: a move that the 2 mm tool offset pushes over
the 5 mm travel (soft-limit alarm) followed by a move that is planned. -/
theorem mc_line_position_is_target_witness :
    ∃ rs, mc_line_seq sim_cfg sim_ops sim_collab 2 sim_world_offset
        [([0, 0, 4], sim_block), ([1, 0, 0], sim_block)] = some rs ∧
      rs.map (fun r => r.target) = [[0, 0, 6], [1, 0, 2]] ∧
      rs.map (fun r => mc_get_position sim_cfg r.world [9, 9, 9]) = [[0, 0, 4], [1, 0, 0]] :=
  ⟨(mc_line_seq sim_cfg sim_ops sim_collab 2 sim_world_offset
      [([0, 0, 4], sim_block), ([1, 0, 0], sim_block)]).getD [], by rfl, by decide,
    mc_line_position_is_target sim_cfg sim_ops sim_collab 2
      [([0, 0, 4], sim_block), ([1, 0, 0], sim_block)] sim_world_offset _ [9, 9, 9] (by rfl)
      (by decide) (by decide)⟩

/-- C4. While check mode is on, `mc_line`, `mc_dwell` and `mc_update_tools` return
without waiting (whatever the fuel) and without a call of `planner_add_line`;
`mc_dwell` and `mc_update_tools` return STATUS_OK and leave world and block
alone, `mc_line` returns STATUS_OK whenever the soft-limit check passes; and
check mode is still on afterwards. -/
theorem checkmode_plans_nothing (cfg : Config) (ops : FloatOps F) (c : Collab E F)
    (fuel : Nat) (w : World E F) (hcm : w.mc_checkmode = true) :
    (∀ (target : List F) (b : motion_data_t F), ∃ r,
      mc_line cfg ops c fuel w target b = some r ∧
      planner_adds r.world.trace = planner_adds w.trace ∧
      r.world.mc_checkmode = true ∧
      (c.io_check_boundaries w.env (mc_line_transform cfg c w target) = true →
        r.status = STATUS_OK)) ∧
    (∀ b : motion_data_t F, mc_dwell cfg c fuel w b = some (STATUS_OK, w, b)) ∧
    (∀ b : motion_data_t F, mc_update_tools cfg c fuel w b = some (STATUS_OK, w, b)) := by
  refine ⟨?_, ?_, ?_⟩
  · intro target b
    unfold mc_line
    simp only []
    split
    · split
      · exact ⟨_, rfl, by simp [World.log, planner_adds_append, planner_adds], by
          simpa [World.log] using hcm, by
          intro hpass
          rename_i hrej _
          simp [World.log, mc_line_transform] at hrej hpass
          simp [hpass] at hrej⟩
      · exact ⟨_, rfl, by simp [World.log, planner_adds_append, planner_adds], by
          simpa [World.log] using hcm, by intro _; rfl⟩
    · rw [if_pos (by simpa [World.log] using hcm)]
      exact ⟨_, rfl, by simp [World.log, planner_adds_append, planner_adds], by
          simpa [World.log] using hcm, by intro _; rfl⟩
  · intro b
    simp [mc_dwell, hcm]
  · intro b
    simp [mc_update_tools, hcm]

/-- C4, on the simulated machine in check mode, with no fuel at all. -/
theorem checkmode_plans_nothing_witness :
    (∃ r, mc_line sim_cfg sim_ops sim_collab 0 sim_world_check [1, 0, 0] sim_block = some r ∧
      planner_adds r.world.trace = [] ∧ r.status = STATUS_OK) ∧
    mc_dwell sim_cfg sim_collab 0 sim_world_check sim_block
      = some (STATUS_OK, sim_world_check, sim_block) ∧
    mc_update_tools sim_cfg sim_collab 0 sim_world_check sim_block
      = some (STATUS_OK, sim_world_check, sim_block) :=
  have h := checkmode_plans_nothing sim_cfg sim_ops sim_collab 0 sim_world_check rfl
  ⟨(h.1 [1, 0, 0] sim_block).elim fun r hr => ⟨r, hr.1, hr.2.1, hr.2.2.2 (by decide)⟩,
    h.2.1 sim_block, h.2.2 sim_block⟩

/-- C5. When `io_check_boundaries` rejects the (transformed) target, `mc_line`
returns at once (whatever the fuel): with STATUS_TRAVEL_EXCEEDED, no alarm and
untouched collaborators when EXEC_JOG is set, and otherwise with STATUS_OK after
exactly one call `cnc_alarm(EXEC_ALARM_SOFT_LIMIT)`. Either way no
`planner_add_line` call is made and `mc_last_target` holds the target. -/
theorem soft_limit_reject (cfg : Config) (ops : FloatOps F) (c : Collab E F) (fuel : Nat)
    (w : World E F) (target : List F) (b : motion_data_t F)
    (hrej : c.io_check_boundaries w.env (mc_line_transform cfg c w target) = false) :
    ∃ r, mc_line cfg ops c fuel w target b = some r ∧
      planner_adds r.world.trace = planner_adds w.trace ∧
      r.world.mc_last_target = memcpy cfg.AXIS_COUNT w.mc_last_target target ∧
      (∀ out : List F, target.length = cfg.AXIS_COUNT → out.length = cfg.AXIS_COUNT →
        mc_get_position cfg r.world out = target) ∧
      (c.cnc_get_exec_state w.env cfg.EXEC_JOG ≠ 0 →
        r.status = cfg.STATUS_TRAVEL_EXCEEDED ∧ alarms r.world.trace = alarms w.trace ∧
        r.world.env = w.env) ∧
      (c.cnc_get_exec_state w.env cfg.EXEC_JOG = 0 →
        r.status = STATUS_OK ∧
        alarms r.world.trace = alarms w.trace ++ [cfg.EXEC_ALARM_SOFT_LIMIT] ∧
        r.world.env = c.cnc_alarm w.env cfg.EXEC_ALARM_SOFT_LIMIT) := by
  have hrej1 : (!c.io_check_boundaries
      ({ w.log (Event.mc_line_call target b) with
          mc_last_target := memcpy cfg.AXIS_COUNT
            (w.log (Event.mc_line_call target b)).mc_last_target target }).env
      (mc_line_transform cfg c
        ({ w.log (Event.mc_line_call target b) with
          mc_last_target := memcpy cfg.AXIS_COUNT
            (w.log (Event.mc_line_call target b)).mc_last_target target }) target)) = true := by
    simpa [World.log, mc_line_transform] using hrej
  unfold mc_line
  simp only []
  rw [if_pos hrej1]
  split
  · rename_i hjog
    refine ⟨_, rfl, by simp [mc_line_ret, World.log, planner_adds_append, planner_adds], by
      simp [mc_line_ret, World.log], ?_, ?_, ?_⟩
    · intro out ht ho
      simp only [mc_get_position, mc_line_ret, World.log]
      exact memcpy_take _ _ _ _ ht ho
    · intro _
      simp [mc_line_ret, World.log, alarms_append, alarms]
    · intro h0
      simp [World.log] at hjog
      exact absurd h0 hjog
  · rename_i hjog
    refine ⟨_, rfl, by simp [mc_line_ret, World.log, planner_adds_append, planner_adds], by
      simp [mc_line_ret, World.log], ?_, ?_, ?_⟩
    · intro out ht ho
      simp only [mc_get_position, mc_line_ret, World.log]
      exact memcpy_take _ _ _ _ ht ho
    · intro h0
      simp [World.log] at hjog
      exact absurd hjog h0
    · intro _
      simp [mc_line_ret, World.log, alarms_append, alarms]

/-- C5, on the simulated machine with 5 mm of travel and a target at 7 mm:
while jogging (status 15, no alarm) and while not (status 0, alarm 2). -/
theorem soft_limit_reject_witness :
    (∃ r, mc_line sim_cfg sim_ops sim_collab 0 sim_world_jog [7, 0, 0] sim_block = some r ∧
      planner_adds r.world.trace = [] ∧ r.status = 15 ∧ alarms r.world.trace = [] ∧
      mc_get_position sim_cfg r.world [9, 9, 9] = [7, 0, 0]) ∧
    (∃ r, mc_line sim_cfg sim_ops sim_collab 0 sim_world_offset [7, 0, 0] sim_block = some r ∧
      planner_adds r.world.trace = [] ∧ r.status = 0 ∧ alarms r.world.trace = [2] ∧
      mc_get_position sim_cfg r.world [9, 9, 9] = [7, 0, 0]) :=
  ⟨(soft_limit_reject sim_cfg sim_ops sim_collab 0 sim_world_jog [7, 0, 0] sim_block
      (by decide)).elim fun r hr =>
      ⟨r, hr.1, hr.2.1, (hr.2.2.2.2.1 (by decide)).1, (hr.2.2.2.2.1 (by decide)).2.1,
        hr.2.2.2.1 [9, 9, 9] (by decide) (by decide)⟩,
    (soft_limit_reject sim_cfg sim_ops sim_collab 0 sim_world_offset [7, 0, 0] sim_block
      (by decide)).elim fun r hr =>
      ⟨r, hr.1, hr.2.1, (hr.2.2.2.2.2 (by decide)).1, (hr.2.2.2.2.2 (by decide)).2.1,
        hr.2.2.2.1 [9, 9, 9] (by decide) (by decide)⟩⟩

/-- C8. Every returning call of `mc_line`, on whichever path it returns, leaves
the caller's block with the feed it had on entry; so in a run of `mc_line` calls
that share one block (the segments of an arc) every call hands back, and the
next call starts from, the original feed. A single call is the run of length one. -/
theorem mc_line_restores_feed (cfg : Config) (ops : FloatOps F) (c : Collab E F) (fuel : Nat)
    (targets : List (List F)) (w : World E F) (b : motion_data_t F)
    (rs : List (LineResult E F))
    (h : mc_line_shared cfg ops c fuel w b targets = some rs) :
    ∀ r ∈ rs, r.block.feed = b.feed := by
  induction targets generalizing w b rs with
  | nil =>
    intro r hr
    simp only [mc_line_shared, Option.some.injEq] at h
    subst h
    simp at hr
  | cons t ts ih =>
    intro r hr
    simp only [mc_line_shared] at h
    split at h
    · simp at h
    · rename_i r1 h1
      split at h
      · simp at h
      · rename_i rs1 hrs
        simp only [Option.some.injEq] at h
        subst h
        have hf := (mc_line_frame cfg ops c fuel w t b r1 h1).2.2.2.1
        rcases List.mem_cons.1 hr with rfl | hmem
        · exact hf
        · rw [← hf]
          exact ih r1.world r1.block rs1 hrs r hmem

/-- C8, on the simulated machine: two 1 mm moves sharing one block at 600 mm/min.
The planner received the feeds 120000 and 120000 steps/min (200 steps over
1 mm), the caller's block reads 600 after each call. -/
theorem mc_line_restores_feed_witness :
    ∃ rs, mc_line_shared sim_cfg sim_ops sim_collab 1 sim_world sim_block
        [[1, 0, 0], [1, 1, 0]] = some rs ∧
      rs.map (fun r => r.status) = [0, 0] ∧
      rs.map (fun r => (planner_adds r.world.trace).map (fun a => a.2.feed))
        = [[120000], [120000, 120000]] ∧
      ∀ r ∈ rs, r.block.feed = 600 :=
  ⟨(mc_line_shared sim_cfg sim_ops sim_collab 1 sim_world sim_block
      [[1, 0, 0], [1, 1, 0]]).getD [], by rfl, by decide, by decide,
    mc_line_restores_feed sim_cfg sim_ops sim_collab 1 [[1, 0, 0], [1, 1, 0]] sim_world
      sim_block _ (by rfl)⟩

/-- C2 (the code at the failing inputs). A block shared by two calls, as the
segments of an arc share theirs: a 2 mm move, then 1 mm back. The second real
block has steps [200, 0, 0], but total_steps is still 400 and full_steps has
grown to 600, so `steps[step_indexer]` is not `total_steps` either; and the
backlash block before it, with steps [8, 0, 0], has full_steps 608. With a
zeroed block on entry (second part) the backlash block of a reversal from
x = 1 mm still has full_steps 208 for steps [8, 0, 0]. -/
theorem reused_block_keeps_stale_totals :
    (mc_line_shared sim_cfg sim_ops sim_collab 1 sim_world sim_block
        [[2, 0, 0], [1, 0, 0]]).map
      (fun rs => rs.map (fun r => (planner_adds r.world.trace).map
        (fun a => (a.2.steps, a.2.total_steps, a.2.full_steps, a.2.step_indexer))))
      = some [[([400, 0, 0], 400, 400, 0)],
              [([400, 0, 0], 400, 400, 0), ([8, 0, 0], 8, 608, 0), ([200, 0, 0], 400, 600, 0)]] ∧
    (mc_line sim_cfg sim_ops sim_collab 1 sim_world_at_one [0, 0, 0] sim_block).map
      (fun r => (planner_adds r.world.trace).map
        (fun a => (a.2.steps, a.2.total_steps, a.2.full_steps, a.2.step_indexer)))
      = some [([8, 0, 0], 8, 208, 0), ([200, 0, 0], 200, 200, 0)] :=
  ⟨by rfl, by rfl⟩

/-- C3 refuted as stated. A move to the position the machine is already at is
handed to `planner_add_line` with total_steps 0 and motion_mode 0 (NOMOTION is
4); and a reversal of the second actuator, whose backlash is 0 steps, hands over
a backlash block with total_steps 0 and motion_mode 8, again without NOMOTION.
Entries are (steps, total_steps, full_steps, step_indexer, motion_mode). -/
theorem zero_step_blocks_without_nomotion :
    (mc_line sim_cfg sim_ops sim_collab 1 sim_world [0, 0, 0] sim_block).map
      (fun r => (planner_adds r.world.trace).map (fun a => block_summary a.2))
      = some [([0, 0, 0], 0, 0, 0, 0)] ∧
    (mc_line sim_cfg sim_ops sim_collab 1 sim_world_at_y_one [0, 0, 0] sim_block).map
      (fun r => (planner_adds r.world.trace).map (fun a => block_summary a.2))
      = some [([0, 0, 0], 0, 200, 1, 8), ([0, 200, 0], 200, 200, 1, 0)] ∧
    CHECKFLAG 0 sim_cfg.MOTIONCONTROL_MODE_NOMOTION = false ∧
    CHECKFLAG 8 sim_cfg.MOTIONCONTROL_MODE_NOMOTION = false :=
  ⟨by rfl, by rfl, by rfl, by rfl⟩

/-- The blocks handed to `planner_add_line` by a call of `mc_line` have the
NOMOTION flag exactly as the caller's block had it on entry
(BACKLASH_COMPENSATION and NOMOTION being different bits). -/
theorem mc_line_adds_keep_nomotion (cfg : Config) (ops : FloatOps F) (c : Collab E F)
    (fuel : Nat) (w : World E F) (target : List F) (b : motion_data_t F)
    (r : LineResult E F)
    (hbits : cfg.MOTIONCONTROL_MODE_BACKLASH_COMPENSATION &&& cfg.MOTIONCONTROL_MODE_NOMOTION = 0)
    (h : mc_line cfg ops c fuel w target b = some r) :
    ∃ news, planner_adds r.world.trace = planner_adds w.trace ++ news ∧
      ∀ a ∈ news, CHECKFLAG a.2.motion_mode cfg.MOTIONCONTROL_MODE_NOMOTION =
        CHECKFLAG b.motion_mode cfg.MOTIONCONTROL_MODE_NOMOTION := by
  rcases mc_line_paths cfg ops c fuel w target b r h with ⟨h1, -⟩ | ⟨-, -, w2, hw2, -, hg, hp⟩
  · exact ⟨[], by simpa using h1, by simp⟩
  · have hmm := (mc_line_motion_frame cfg ops c w2 (mc_line_transform cfg c w target)
      { b with dirbits := 0 }).2.1
    have hbl : ∀ inv, CHECKFLAG b.motion_mode cfg.MOTIONCONTROL_MODE_NOMOTION = false →
        CHECKFLAG (mc_line_backlash_block cfg ops w2.g_settings.backlash_steps inv
          (mc_line_motion cfg ops c w2 (mc_line_transform cfg c w target)
            { b with dirbits := 0 }).block).motion_mode cfg.MOTIONCONTROL_MODE_NOMOTION
          = false := by
      intro inv hb
      rw [(mc_line_backlash_block_spec cfg ops _ inv _).1, hmm]
      simp only [CHECKFLAG, SETFLAG, bne_eq_false_iff_eq] at hb ⊢
      exact setflag_and_disjoint _ _ _ hb hbits
    rcases mc_line_plan_adds cfg ops c fuel _ _ _ _ _ hp with
      ⟨-, -, -, -, ha⟩ | ⟨hm, -, -, -, -, ha⟩ | ⟨hm, -, -, -, -, -, ha⟩ | ⟨hm, -, -, -, -, ha⟩
    · refine ⟨_, by rw [ha, hw2], ?_⟩
      intro a hmem
      simp only [List.mem_singleton] at hmem
      subst hmem
      rfl
    · refine ⟨_, by rw [ha, hw2], ?_⟩
      intro a hmem
      simp only [List.mem_singleton] at hmem
      subst hmem
      have hm1 : CHECKFLAG b.motion_mode cfg.MOTIONCONTROL_MODE_NOMOTION = false := hm
      rw [hm1]
      exact hbl _ hm1
    · refine ⟨_, by rw [ha, hw2], ?_⟩
      intro a hmem
      have hm1 : CHECKFLAG b.motion_mode cfg.MOTIONCONTROL_MODE_NOMOTION = false := hm
      simp only [List.mem_cons, List.mem_singleton, List.not_mem_nil, or_false] at hmem
      rcases hmem with rfl | rfl
      · rw [hm1]
        exact hbl _ hm1
      · simp only [hmm]
    · refine ⟨_, by rw [ha, hw2], ?_⟩
      intro a hmem
      simp only [List.mem_singleton] at hmem
      subst hmem
      simp only [hmm]

/-- C3 as amended. `mc_line` neither sets nor clears NOMOTION: every block it
hands to `planner_add_line` (backlash block or real block), whatever its
total_steps, has the NOMOTION flag exactly as the caller's block had it on
entry, BACKLASH_COMPENSATION and NOMOTION being different bits. Hence a block
handed over with total_steps = 0 has NOMOTION set if and only if the caller's
block had it set. -/
theorem planned_blocks_keep_nomotion (cfg : Config) (ops : FloatOps F) (c : Collab E F)
    (fuel : Nat) (w : World E F) (target : List F) (b : motion_data_t F)
    (r : LineResult E F)
    (hbits : cfg.MOTIONCONTROL_MODE_BACKLASH_COMPENSATION &&& cfg.MOTIONCONTROL_MODE_NOMOTION = 0)
    (h : mc_line cfg ops c fuel w target b = some r) :
    ∃ news, planner_adds r.world.trace = planner_adds w.trace ++ news ∧
      ∀ a ∈ news,
        CHECKFLAG a.2.motion_mode cfg.MOTIONCONTROL_MODE_NOMOTION =
          CHECKFLAG b.motion_mode cfg.MOTIONCONTROL_MODE_NOMOTION ∧
        (a.2.total_steps = 0 →
          (CHECKFLAG a.2.motion_mode cfg.MOTIONCONTROL_MODE_NOMOTION = true ↔
            CHECKFLAG b.motion_mode cfg.MOTIONCONTROL_MODE_NOMOTION = true)) := by
  obtain ⟨news, h1, h2⟩ := mc_line_adds_keep_nomotion cfg ops c fuel w target b r hbits h
  exact ⟨news, h1, fun a ha => ⟨h2 a ha, fun _ => by rw [h2 a ha]⟩⟩

/-- C3 as amended, on the simulated machine: the zero-length move of a zeroed
block without NOMOTION reaches the planner with total_steps 0 and without
NOMOTION. -/
theorem planned_blocks_keep_nomotion_witness :
    (mc_line sim_cfg sim_ops sim_collab 1 sim_world [0, 0, 0] sim_block).map
      (fun r => (planner_adds r.world.trace).map (fun a => a.2.total_steps)) = some [0] ∧
    ∃ news, planner_adds ((mc_line sim_cfg sim_ops sim_collab 1 sim_world [0, 0, 0]
        sim_block).get (by decide)).world.trace = planner_adds sim_world.trace ++ news ∧
      ∀ a ∈ news,
        CHECKFLAG a.2.motion_mode sim_cfg.MOTIONCONTROL_MODE_NOMOTION =
          CHECKFLAG sim_block.motion_mode sim_cfg.MOTIONCONTROL_MODE_NOMOTION ∧
        (a.2.total_steps = 0 →
          (CHECKFLAG a.2.motion_mode sim_cfg.MOTIONCONTROL_MODE_NOMOTION = true ↔
            CHECKFLAG sim_block.motion_mode sim_cfg.MOTIONCONTROL_MODE_NOMOTION = true)) :=
  ⟨by rfl,
   planned_blocks_keep_nomotion sim_cfg sim_ops sim_collab 1 sim_world [0, 0, 0] sim_block _
    (by decide) (Option.some_get _).symm⟩

/-- C7. With backlash compensation compiled in, take a call of `mc_line` that
reaches the step computation (soft limits pass, check mode off, no NOMOTION)
and returns STATUS_OK. If the direction bits it computed differ from
`mc_last_dirbits`, it made exactly two `planner_add_line` calls: first a block
with BACKLASH_COMPENSATION set whose `steps[i]` is `backlash_steps[i]` for the
actuators whose direction bit changed and 0 for the others, then the real
block. If they are equal, it made exactly one call, with the real block, whose
motion mode is the caller's. Afterwards `mc_last_dirbits` holds the direction
bits of this call. -/
theorem backlash_block_on_reversal (cfg : Config) (ops : FloatOps F) (c : Collab E F)
    (fuel : Nat) (w : World E F) (target : List F) (b : motion_data_t F)
    (r : LineResult E F)
    (hen : cfg.ENABLE_BACKLASH_COMPENSATION = true)
    (hflag : cfg.MOTIONCONTROL_MODE_BACKLASH_COMPENSATION ≠ 0 ∧
      cfg.MOTIONCONTROL_MODE_BACKLASH_COMPENSATION < 256)
    (hcf : cfg.STATUS_CRITICAL_FAIL ≠ STATUS_OK)
    (hl : w.mc_last_dirbits < 256)
    (hpass : c.io_check_boundaries w.env (mc_line_transform cfg c w target) = true)
    (hcm : w.mc_checkmode = false)
    (hmo : CHECKFLAG b.motion_mode cfg.MOTIONCONTROL_MODE_NOMOTION = false)
    (h : mc_line cfg ops c fuel w target b = some r)
    (hok : r.status = STATUS_OK) :
    (r.block.dirbits ≠ w.mc_last_dirbits →
      ∃ bl p real, planner_adds r.world.trace = planner_adds w.trace ++
          [(none, bl), (some p, real)] ∧
        CHECKFLAG bl.motion_mode cfg.MOTIONCONTROL_MODE_BACKLASH_COMPENSATION = true ∧
        bl.steps.length = cfg.STEPPER_COUNT ∧
        (∀ i, i < cfg.STEPPER_COUNT → bl.steps.getD i 0 =
          if w.mc_last_dirbits.testBit i ≠ r.block.dirbits.testBit i
          then w.g_settings.backlash_steps.getD i 0 else 0) ∧
        real.dirbits = r.block.dirbits ∧ real.steps = r.block.steps ∧
        real.motion_mode = b.motion_mode) ∧
    (r.block.dirbits = w.mc_last_dirbits →
      ∃ p real, planner_adds r.world.trace = planner_adds w.trace ++ [(some p, real)] ∧
        real.dirbits = r.block.dirbits ∧ real.steps = r.block.steps ∧
        real.motion_mode = b.motion_mode) ∧
    r.world.mc_last_dirbits = r.block.dirbits := by
  rcases mc_line_paths cfg ops c fuel w target b r h with
    ⟨-, h1 | h1 | h1⟩ | ⟨-, -, w2, hw2, hd2, hg2, hp⟩
  · rw [hpass] at h1
    exact absurd h1 (by simp)
  · rw [hcm] at h1
    exact absurd h1 (by simp)
  · exact absurd (h1.symm.trans hok) hcf
  · have hmm := (mc_line_motion_frame cfg ops c w2 (mc_line_transform cfg c w target)
      { b with dirbits := 0 }).2.1
    have hdl : (mc_line_motion cfg ops c w2 (mc_line_transform cfg c w target)
        { b with dirbits := 0 }).block.dirbits < 256 := by
      unfold mc_line_motion
      exact mc_line_steps_dirbits_lt _ _ _ (by split <;> simp)
    have hx := xor_mod_ne_zero w.mc_last_dirbits _ hl hdl
    rcases mc_line_plan_adds cfg ops c fuel _ _ _ _ _ hp with
      ⟨hm, -⟩ | ⟨-, -, -, hs, -⟩ | ⟨-, -, hinv, -, hb, hld, ha⟩ | ⟨-, hinv, -, hb, hld, ha⟩
    · have hm1 : CHECKFLAG b.motion_mode cfg.MOTIONCONTROL_MODE_NOMOTION = true := hm
      rw [hmo] at hm1
      exact absurd hm1 (by simp)
    · exact absurd (hs.symm.trans hok) hcf
    · rw [hd2] at hinv
      rw [hd2, hg2] at ha
      have hrd : r.block.dirbits = (mc_line_motion cfg ops c w2
          (mc_line_transform cfg c w target) { b with dirbits := 0 }).block.dirbits := by
        rw [hb]
      have hrs : r.block.steps = (mc_line_motion cfg ops c w2
          (mc_line_transform cfg c w target) { b with dirbits := 0 }).block.steps := by
        rw [hb]
      refine ⟨fun _ => ⟨_, _, _, by rw [ha, hw2], ?_, ?_, ?_, ?_, ?_, ?_⟩, fun heq => ?_, ?_⟩
      · rw [(mc_line_backlash_block_spec cfg ops _ _ _).1, hmm]
        simp only [CHECKFLAG, SETFLAG, bne_iff_ne]
        exact setflag_has_flag _ _ hflag.1 hflag.2
      · exact (mc_line_backlash_block_spec cfg ops _ _ _).2.2.1
      · intro i hi
        rw [(mc_line_backlash_block_spec cfg ops _ _ _).2.2.2 i hi, hrd,
          show (256 : Nat) = 2 ^ 8 from rfl, Nat.testBit_mod_two_pow, Nat.testBit_xor]
        by_cases hi8 : i < 8
        · cases w.mc_last_dirbits.testBit i <;>
            cases (mc_line_motion cfg ops c w2 (mc_line_transform cfg c w target)
              { b with dirbits := 0 }).block.dirbits.testBit i <;> simp [hi8]
        · have h8 : (2 : Nat) ^ 8 ≤ 2 ^ i := Nat.pow_le_pow_right (by norm_num) (not_lt.1 hi8)
          have t1 := Nat.testBit_lt_two_pow (lt_of_lt_of_le hl h8)
          have t2 := Nat.testBit_lt_two_pow (lt_of_lt_of_le hdl h8)
          simp [hi8, t1, t2]
      · rw [hrd]
      · rw [hrs]
      · exact hmm
      · rw [hrd] at heq
        exact absurd heq (hx.1 hinv)
      · rw [hld, hrd]
    · rw [hd2] at hinv hld
      have hrd : r.block.dirbits = (mc_line_motion cfg ops c w2
          (mc_line_transform cfg c w target) { b with dirbits := 0 }).block.dirbits := by
        rw [hb]
      have hrs : r.block.steps = (mc_line_motion cfg ops c w2
          (mc_line_transform cfg c w target) { b with dirbits := 0 }).block.steps := by
        rw [hb]
      have hsame : (mc_line_motion cfg ops c w2 (mc_line_transform cfg c w target)
          { b with dirbits := 0 }).block.dirbits = w.mc_last_dirbits := by
        rcases hinv with hdis | hz
        · rw [hen] at hdis
          exact absurd hdis (by simp)
        · by_contra hne
          exact (hx.2 hne) hz
      refine ⟨fun hne => ?_, fun _ => ⟨_, _, by rw [ha, hw2], ?_, ?_, ?_⟩, ?_⟩
      · rw [hrd] at hne
        exact absurd hsame hne
      · rw [hrd]
      · rw [hrs]
      · exact hmm
      · rw [hld, hrd, hsame]

/-- C7, on the simulated machine (backlash of 8 steps on the first actuator):
from x = 1 mm back to x = 0 the direction bits go from 0 to 1; the planner gets
the backlash block with steps [8, 0, 0], then the real block with steps
[200, 0, 0] and direction bits 1. -/
theorem backlash_block_on_reversal_witness :
    (∃ bl p real, planner_adds ((mc_line sim_cfg sim_ops sim_collab 1 sim_world_at_one
          [0, 0, 0] sim_block).get (by decide)).world.trace
          = planner_adds sim_world_at_one.trace ++ [(none, bl), (some p, real)] ∧
        CHECKFLAG bl.motion_mode sim_cfg.MOTIONCONTROL_MODE_BACKLASH_COMPENSATION = true ∧
        bl.steps.length = sim_cfg.STEPPER_COUNT ∧
        (∀ i, i < sim_cfg.STEPPER_COUNT → bl.steps.getD i 0 =
          if sim_world_at_one.mc_last_dirbits.testBit i ≠
            ((mc_line sim_cfg sim_ops sim_collab 1 sim_world_at_one
              [0, 0, 0] sim_block).get (by decide)).block.dirbits.testBit i
          then sim_world_at_one.g_settings.backlash_steps.getD i 0 else 0) ∧
        real.dirbits = ((mc_line sim_cfg sim_ops sim_collab 1 sim_world_at_one
              [0, 0, 0] sim_block).get (by decide)).block.dirbits ∧
        real.steps = ((mc_line sim_cfg sim_ops sim_collab 1 sim_world_at_one
              [0, 0, 0] sim_block).get (by decide)).block.steps ∧
        real.motion_mode = sim_block.motion_mode) ∧
    ((mc_line sim_cfg sim_ops sim_collab 1 sim_world_at_one [0, 0, 0] sim_block).get
      (by decide)).block.dirbits = 1 ∧
    ((mc_line sim_cfg sim_ops sim_collab 1 sim_world_at_one [0, 0, 0] sim_block).get
      (by decide)).block.steps = [200, 0, 0] :=
  ⟨(backlash_block_on_reversal sim_cfg sim_ops sim_collab 1 sim_world_at_one [0, 0, 0]
      sim_block _ (by decide) (by decide) (by decide) (by decide) (by decide) (by decide)
      (by decide) (Option.some_get _).symm (by rfl)).1 (by decide),
    by rfl, by rfl⟩

/-! ## `mc_arc` -/

/-- Lines 114-211 of `mc_line` call no `mc_line` and end in one `return`. -/
theorem mc_line_plan_calls (cfg : Config) (ops : FloatOps F) (c : Collab E F) (fuel : Nat)
    (feed : F) (w : World E F) (target : List F) (b : motion_data_t F) (r : LineResult E F)
    (h : mc_line_plan cfg ops c fuel feed w target b = some r) :
    line_calls r.world.trace = line_calls w.trace ∧
    line_returns r.world.trace = line_returns w.trace ++ [r.status] := by
  unfold mc_line_plan at h
  have hm := mc_line_motion_frame cfg ops c w target b
  obtain ⟨-, -, -, -, -, -, -, hmt⟩ := hm
  split at h
  · simp only [] at h
    split at h
    · simp at h
    · rename_i w2 hb
      have hf := mc_line_backlash_frame cfg ops c fuel _ _ _ _ hb
      simp only [mc_line_ret, Option.some.injEq] at h
      subst h
      simp [World.log, line_calls_append, line_returns_append, line_calls, line_returns, hf,
        hmt]
    · rename_i w2 hb
      have hf := mc_line_backlash_frame cfg ops c fuel _ _ _ _ hb
      simp only [mc_line_finish, mc_line_ret, Option.some.injEq] at h
      subst h
      simp [World.log, call_planner_add_line, line_calls_append, line_returns_append,
        line_calls, line_returns, hf, hmt]
  · simp only [mc_line_finish, mc_line_ret, Option.some.injEq] at h
    subst h
    simp [World.log, call_planner_add_line, line_calls_append, line_returns_append,
      line_calls, line_returns]

/-- A returning call of `mc_line` leaves exactly one call event, with the target
as passed in, and one return event, with the status, in the trace. -/
theorem mc_line_calls (cfg : Config) (ops : FloatOps F) (c : Collab E F) (fuel : Nat)
    (w : World E F) (target : List F) (b : motion_data_t F) (r : LineResult E F)
    (h : mc_line cfg ops c fuel w target b = some r) :
    line_calls r.world.trace = line_calls w.trace ++ [target] ∧
    line_returns r.world.trace = line_returns w.trace ++ [r.status] := by
  unfold mc_line at h
  simp only [] at h
  split at h
  · split at h
    · simp only [mc_line_ret, Option.some.injEq] at h
      subst h
      simp [World.log, line_calls_append, line_returns_append, line_calls, line_returns]
    · simp only [mc_line_ret, Option.some.injEq] at h
      subst h
      simp [World.log, line_calls_append, line_returns_append, line_calls, line_returns]
  · split at h
    · simp only [mc_line_ret, Option.some.injEq] at h
      subst h
      simp [World.log, line_calls_append, line_returns_append, line_calls, line_returns]
    · split at h
      · simp at h
      · rename_i w2 hw
        have h2 := wait_planner_space_trace c fuel _ _ _ hw
        simp only [mc_line_ret, Option.some.injEq] at h
        subst h
        simp [World.log, line_calls_append, line_returns_append, line_calls, line_returns]
          at h2 ⊢
        simp [h2]
      · rename_i w2 hw
        have h2 := wait_planner_space_trace c fuel _ _ _ hw
        have h3 := mc_line_plan_calls cfg ops c fuel _ _ _ _ _ h
        simp [World.log, line_calls_append, line_returns_append, line_calls, line_returns]
          at h2
        simp [h3, h2]

/-- One turn of the segment loop is one call of `mc_line`: one call event, one
return event with the status the turn reports. -/
theorem mc_arc_segment_calls (cfg : Config) (ops : FloatOps F) (c : Collab E F) (fuel : Nat)
    (k : ArcConsts F) (i : Nat) (s s1 : ArcState E F) (error : Nat)
    (h : mc_arc_segment cfg ops c fuel k i s = some (error, s1)) :
    (∃ pos, line_calls s1.world.trace = line_calls s.world.trace ++ [pos]) ∧
    line_returns s1.world.trace = line_returns s.world.trace ++ [error] := by
  unfold mc_arc_segment at h
  simp only [] at h
  split at h
  · simp at h
  · rename_i r hr
    simp only [Option.some.injEq, Prod.mk.injEq] at h
    obtain ⟨rfl, rfl⟩ := h
    have hc := mc_line_calls cfg ops c fuel _ _ _ _ hr
    exact ⟨⟨_, hc.1⟩, hc.2⟩

/-- The segment loop: `n` turns make `n` calls of `mc_line` that all return
STATUS_OK, unless a turn `j < n` returns another status, which ends the loop
there. -/
theorem mc_arc_segments_calls (cfg : Config) (ops : FloatOps F) (c : Collab E F) (fuel : Nat)
    (k : ArcConsts F) (n i : Nat) (s s1 : ArcState E F) (error : Nat)
    (h : mc_arc_segments cfg ops c fuel k n i s = some (error, s1)) :
    ∃ calls rets, line_calls s1.world.trace = line_calls s.world.trace ++ calls ∧
      line_returns s1.world.trace = line_returns s.world.trace ++ rets ∧
      calls.length = rets.length ∧
      ((error = STATUS_OK ∧ rets = List.replicate n STATUS_OK) ∨
       (error ≠ STATUS_OK ∧ ∃ j, j < n ∧ rets = List.replicate j STATUS_OK ++ [error])) := by
  induction n generalizing i s with
  | zero =>
    simp only [mc_arc_segments, Option.some.injEq, Prod.mk.injEq] at h
    obtain ⟨rfl, rfl⟩ := h
    exact ⟨[], [], by simp, by simp, rfl, Or.inl ⟨rfl, rfl⟩⟩
  | succ n ih =>
    simp only [mc_arc_segments] at h
    split at h
    · simp at h
    · rename_i e1 s2 hseg
      obtain ⟨⟨pos, hc⟩, hr⟩ := mc_arc_segment_calls cfg ops c fuel k i s s2 e1 hseg
      split at h
      · rename_i hne
        simp only [Option.some.injEq, Prod.mk.injEq] at h
        obtain ⟨rfl, rfl⟩ := h
        exact ⟨[pos], [e1], hc, hr, rfl, Or.inr ⟨hne, 0, Nat.succ_pos n, by simp⟩⟩
      · rename_i he
        have he0 : e1 = STATUS_OK := by
          simpa [STATUS_OK] using he
        subst he0
        obtain ⟨calls, rets, h1, h2, h3, h4⟩ := ih (i + 1) s2 h
        refine ⟨pos :: calls, STATUS_OK :: rets, ?_, ?_, by simp [h3], ?_⟩
        · rw [h1, hc]
          simp
        · rw [h2, hr]
          simp
        · rcases h4 with ⟨h5, h6⟩ | ⟨h5, j, hj, h6⟩
          · exact Or.inl ⟨h5, by rw [h6, List.replicate_succ]⟩
          · exact Or.inr ⟨h5, j + 1, Nat.succ_lt_succ hj, by
              rw [h6, List.replicate_succ]
              simp⟩

/-- The two ways out of `mc_arc`, read off the trace. Either one of the first
`segment_count - 1` calls of `mc_line` returned a status other than STATUS_OK,
which `mc_arc` returns at once; or they all returned STATUS_OK and the last call
was made on the caller's target, which is now in `mc_last_target`. -/
theorem mc_arc_calls (cfg : Config) (ops : FloatOps F) (c : Collab E F) (fuel : Nat)
    (w : World E F) (target : List F) (center_offset_a center_offset_b radius : F)
    (axis_0 axis_1 : Nat) (isclockwise : Bool) (b : motion_data_t F) (r : LineResult E F)
    (h : mc_arc cfg ops c fuel w target center_offset_a center_offset_b radius axis_0 axis_1
      isclockwise b = some r) :
    ∃ calls rets, line_calls r.world.trace = line_calls w.trace ++ calls ∧
      line_returns r.world.trace = line_returns w.trace ++ rets ∧
      calls.length = rets.length ∧
      ((r.status ≠ STATUS_OK ∧ ∃ j, j < mc_arc_segment_count ops w.g_settings.arc_tolerance
            radius (mc_arc_angle cfg ops w target center_offset_a center_offset_b axis_0 axis_1
              isclockwise) - 1 ∧
          rets = List.replicate j STATUS_OK ++ [r.status]) ∨
       (rets = List.replicate (mc_arc_segment_count ops w.g_settings.arc_tolerance
            radius (mc_arc_angle cfg ops w target center_offset_a center_offset_b axis_0 axis_1
              isclockwise) - 1) STATUS_OK ++ [r.status] ∧
          (∃ calls0, calls = calls0 ++ [target]) ∧
          ∃ old, r.world.mc_last_target = memcpy cfg.AXIS_COUNT old target)) := by
  unfold mc_arc at h
  simp only [] at h
  split at h
  · simp at h
  · rename_i error s1 hseg
    obtain ⟨calls, rets, h1, h2, h3, h4⟩ := mc_arc_segments_calls cfg ops c fuel _ _ _ _ _ _ hseg
    simp only [] at h1 h2
    split at h
    · rename_i hne
      simp only [Option.some.injEq] at h
      subst h
      rcases h4 with ⟨h5, -⟩ | ⟨h5, j, hj, h6⟩
      · exact absurd h5 hne
      · exact ⟨calls, rets, h1, h2, h3, Or.inl ⟨h5, j, hj, h6⟩⟩
    · rename_i he
      have he0 : error = STATUS_OK := by
        simpa [STATUS_OK] using he
      have hc := mc_line_calls cfg ops c fuel _ _ _ _ h
      have hf := (mc_line_frame cfg ops c fuel _ _ _ _ h).1
      rcases h4 with ⟨-, h6⟩ | ⟨h5, -⟩
      · refine ⟨calls ++ [target], rets ++ [r.status], ?_, ?_, by simp [h3],
          Or.inr ⟨by rw [h6], ⟨calls, rfl⟩, ⟨_, hf⟩⟩⟩
        · rw [hc.1, h1, List.append_assoc]
        · rw [hc.2, h2, List.append_assoc]
      · exact absurd he0 h5

/-- C9. When every intermediate `mc_line` call of an `mc_arc` call (the first
`segment_count - 1` calls, made from the loop) returns STATUS_OK, the last
`mc_line` call is made on the caller's target itself, and whatever that call
returns, `mc_get_position` afterwards yields the target passed to `mc_arc`. -/
theorem mc_arc_ends_on_target (cfg : Config) (ops : FloatOps F) (c : Collab E F) (fuel : Nat)
    (w : World E F) (target : List F) (center_offset_a center_offset_b radius : F)
    (axis_0 axis_1 : Nat) (isclockwise : Bool) (b : motion_data_t F) (r : LineResult E F)
    (out : List F)
    (h : mc_arc cfg ops c fuel w target center_offset_a center_offset_b radius axis_0 axis_1
      isclockwise b = some r)
    (hinter : ((line_returns r.world.trace).drop (line_returns w.trace).length).take
        (mc_arc_segment_count ops w.g_settings.arc_tolerance radius
          (mc_arc_angle cfg ops w target center_offset_a center_offset_b axis_0 axis_1
            isclockwise) - 1)
      = List.replicate (mc_arc_segment_count ops w.g_settings.arc_tolerance radius
          (mc_arc_angle cfg ops w target center_offset_a center_offset_b axis_0 axis_1
            isclockwise) - 1) STATUS_OK)
    (hlen : target.length = cfg.AXIS_COUNT) (hout : out.length = cfg.AXIS_COUNT) :
    (∃ calls0, line_calls r.world.trace = line_calls w.trace ++ calls0 ++ [target]) ∧
    mc_get_position cfg r.world out = target := by
  obtain ⟨calls, rets, h1, h2, -, h4⟩ := mc_arc_calls cfg ops c fuel w target center_offset_a
    center_offset_b radius axis_0 axis_1 isclockwise b r h
  rw [h2, List.drop_left] at hinter
  rcases h4 with ⟨hne, j, hj, h6⟩ | ⟨-, ⟨calls0, hc0⟩, ⟨old, hm⟩⟩
  · exfalso
    rw [h6, List.take_of_length_le (by simp; omega)] at hinter
    have hmem : r.status ∈ List.replicate j STATUS_OK ++ [r.status] := by simp
    rw [hinter] at hmem
    exact hne (List.eq_of_mem_replicate hmem)
  · refine ⟨⟨calls0, by rw [h1, hc0, List.append_assoc]⟩, ?_⟩
    simp only [mc_get_position, hm]
    exact memcpy_take _ _ _ _ hlen hout

/-- C9, on the simulated machine with a 2 mm tool offset: an arc of two segments
from the origin to (3, 0, 0). The last `mc_line` call is on (3, 0, 0), which the
transform rewrote to (3, 0, 2) in the caller's array, and the position reads
(3, 0, 0). -/
theorem mc_arc_ends_on_target_witness :
    ((∃ calls0, line_calls ((mc_arc sim_cfg sim_ops sim_collab 1 sim_world_offset [3, 0, 0]
        1 0 1 0 1 true sim_block).get (by decide)).world.trace
        = line_calls sim_world_offset.trace ++ calls0 ++ [[3, 0, 0]]) ∧
      mc_get_position sim_cfg ((mc_arc sim_cfg sim_ops sim_collab 1 sim_world_offset [3, 0, 0]
        1 0 1 0 1 true sim_block).get (by decide)).world [9, 9, 9] = [3, 0, 0]) ∧
    ((mc_arc sim_cfg sim_ops sim_collab 1 sim_world_offset [3, 0, 0]
        1 0 1 0 1 true sim_block).get (by decide)).target = [3, 0, 2] ∧
    line_calls ((mc_arc sim_cfg sim_ops sim_collab 1 sim_world_offset [3, 0, 0]
        1 0 1 0 1 true sim_block).get (by decide)).world.trace = [[2, 2, 0], [3, 0, 0]] :=
  ⟨mc_arc_ends_on_target sim_cfg sim_ops sim_collab 1 sim_world_offset [3, 0, 0] 1 0 1 0 1 true
      sim_block _ [9, 9, 9] (Option.some_get _).symm (by rfl) (by decide) (by decide),
    by rfl, by rfl⟩

/-- The clamp of lines 638-641 keeps a frequency of `[1, F_STEP_MAX]` in that range. -/
theorem mcu_clamp_frequency_range (F_STEP_MIN F_STEP_MAX f : ℚ) (h1 : 1 ≤ f)
    (h2 : f ≤ F_STEP_MAX) :
    1 ≤ mcu_clamp_frequency F_STEP_MIN F_STEP_MAX f ∧
    mcu_clamp_frequency F_STEP_MIN F_STEP_MAX f ≤ F_STEP_MAX := by
  unfold mcu_clamp_frequency
  simp only []
  split_ifs with ha hb hb
  · exact ⟨le_trans h1 h2, le_refl _⟩
  · exact ⟨le_trans h1 (le_of_lt ha), not_lt.1 hb⟩
  · exact ⟨le_trans h1 h2, le_refl _⟩
  · exact ⟨h1, h2⟩

/-- The tiers of lines 643-670 for a frequency of `[1, F_CPU]`: the prescaler
code, the divided clock, and the quotient `clock / frequency` between 1 and 65307. -/
theorem mcu_prescaller_tiers (f : ℚ) (h1 : 1 ≤ f) (h2 : f ≤ F_CPU) :
    ((mcu_prescaller f = (9, F_CPU) ∧ 245 ≤ f) ∨
     (mcu_prescaller f = (10, F_CPU / 8) ∧ 31 ≤ f ∧ f < 245) ∨
     (mcu_prescaller f = (11, F_CPU / 64) ∧ 4 ≤ f ∧ f < 31) ∨
     (mcu_prescaller f = (12, F_CPU / 256) ∧ 1 ≤ f ∧ f < 4)) ∧
    1 ≤ (mcu_prescaller f).2 / f ∧ (mcu_prescaller f).2 / f < 65307 := by
  have hf : (0 : ℚ) < f := lt_of_lt_of_le one_pos h1
  unfold mcu_prescaller F_CPU at *
  simp only []
  split_ifs with ha hb hc
  · refine ⟨Or.inl ⟨rfl, ha⟩, ?_, ?_⟩
    · rw [le_div_iff₀ hf]; norm_num; linarith
    · rw [div_lt_iff₀ hf]; norm_num; linarith
  · refine ⟨Or.inr (Or.inl ⟨by norm_num, hb, not_le.1 ha⟩), ?_, ?_⟩
    · rw [le_div_iff₀ hf]; norm_num; linarith [not_le.1 ha]
    · rw [div_lt_iff₀ hf]; norm_num; linarith
  · refine ⟨Or.inr (Or.inr (Or.inl ⟨by norm_num, hc, not_le.1 hb⟩)), ?_, ?_⟩
    · rw [le_div_iff₀ hf]; norm_num; linarith [not_le.1 hb]
    · rw [div_lt_iff₀ hf]; norm_num; linarith
  · refine ⟨Or.inr (Or.inr (Or.inr ⟨by norm_num, h1, not_le.1 hc⟩)), ?_, ?_⟩
    · rw [le_div_iff₀ hf]; norm_num; linarith [not_le.1 hc]
    · rw [div_lt_iff₀ hf]; norm_num; linarith

/-- A rounding that is monotone and leaves the integers alone keeps a value
between the integers around it: the floor of the rounded value is the floor of
the exact value or one more. -/
theorem floor_of_rounded (fl : ℚ → ℚ) (hmono : ∀ x y : ℚ, x ≤ y → fl x ≤ fl y)
    (hint : ∀ n : ℤ, |n| ≤ 16777216 → fl (n : ℚ) = (n : ℚ)) (q : ℚ) (h0 : 0 ≤ q)
    (h1 : q < 65307) : ⌊q⌋ ≤ ⌊fl q⌋ ∧ ⌊fl q⌋ ≤ ⌊q⌋ + 1 := by
  have hfl0 : (0 : ℤ) ≤ ⌊q⌋ := Int.floor_nonneg.2 h0
  have hfl1 : ⌊q⌋ < (65307 : ℤ) := Int.floor_lt.2 (by exact_mod_cast h1)
  have ha : fl ((⌊q⌋ : ℤ) : ℚ) = ((⌊q⌋ : ℤ) : ℚ) := hint _ (by rw [abs_le]; omega)
  have hb : fl (((⌊q⌋ + 1 : ℤ)) : ℚ) = ((⌊q⌋ + 1 : ℤ) : ℚ) := hint _ (by rw [abs_le]; omega)
  constructor
  · apply Int.le_floor.2
    rw [← ha]
    exact hmono _ _ (Int.floor_le q)
  · have hq : q ≤ ((⌊q⌋ + 1 : ℤ) : ℚ) := by
      push_cast
      exact le_of_lt (Int.lt_floor_add_one q)
    have h2 := hmono _ _ hq
    rw [hb] at h2
    have h3 : ((⌊fl q⌋ : ℤ) : ℚ) ≤ ((⌊q⌋ + 1 : ℤ) : ℚ) := le_trans (Int.floor_le _) h2
    exact_mod_cast h3

/-- Rounding to a multiple of `2 ^ -8` is monotone. -/
theorem round_q8_mono (x y : ℚ) (h : x ≤ y) : round_q8 x ≤ round_q8 y := by
  unfold round_q8
  apply div_le_div_of_nonneg_right _ (by norm_num)
  have : ⌊x * 256 + 1 / 2⌋ ≤ ⌊y * 256 + 1 / 2⌋ := Int.floor_mono (by linarith)
  exact_mod_cast this

/-- Rounding to a multiple of `2 ^ -8` leaves the integers alone. -/
theorem round_q8_int (n : ℤ) : round_q8 (n : ℚ) = (n : ℚ) := by
  unfold round_q8
  have h : ⌊(n : ℚ) * 256 + 1 / 2⌋ = n * 256 := by
    rw [Int.floor_eq_iff]
    constructor
    · push_cast; linarith
    · push_cast; linarith
  rw [h]
  push_cast
  field_simp

/-- C14. For every rounding `fl` of the float operations that is monotone and
exact on the integers up to `2 ^ 24`, and every requested frequency `f` with
`1 <= f <= F_STEP_MAX <= F_CPU` (16 MHz), with `fc` the frequency after the
clamp to `[F_STEP_MIN, F_STEP_MAX]`: `fc` is still in `[1, F_STEP_MAX]`; the
prescaler code is 9, 10, 11 or 12 (below 16, so it fits 4 bits) with divided
clock F_CPU, F_CPU/8, F_CPU/64, F_CPU/256 for `fc >= 245, >= 31, >= 4, >= 1`;
`floor(clock / fc) - 1` lies in `0..65535`; the value the code computes, the
floor of the rounded quotient minus 1, is `floor(clock / fc) - 1` or one more,
lies in `0..65535` too, and is the value stored in `*ticks`, untruncated. A
frequency below F_STEP_MIN or above F_STEP_MAX gives what the bound it is
clamped to gives. -/
theorem mcu_freq_to_clocks_fits (fl : ℚ → ℚ) (F_STEP_MIN F_STEP_MAX f : ℚ)
    (hmono : ∀ x y : ℚ, x ≤ y → fl x ≤ fl y)
    (hint : ∀ n : ℤ, |n| ≤ 16777216 → fl (n : ℚ) = (n : ℚ))
    (h1 : 1 ≤ f) (h2 : f ≤ F_STEP_MAX) (h3 : F_STEP_MAX ≤ F_CPU) :
    (1 ≤ mcu_clamp_frequency F_STEP_MIN F_STEP_MAX f ∧
      mcu_clamp_frequency F_STEP_MIN F_STEP_MAX f ≤ F_STEP_MAX) ∧
    ((mcu_prescaller (mcu_clamp_frequency F_STEP_MIN F_STEP_MAX f) = (9, F_CPU) ∧
        245 ≤ mcu_clamp_frequency F_STEP_MIN F_STEP_MAX f) ∨
     (mcu_prescaller (mcu_clamp_frequency F_STEP_MIN F_STEP_MAX f) = (10, F_CPU / 8) ∧
        31 ≤ mcu_clamp_frequency F_STEP_MIN F_STEP_MAX f ∧
        mcu_clamp_frequency F_STEP_MIN F_STEP_MAX f < 245) ∨
     (mcu_prescaller (mcu_clamp_frequency F_STEP_MIN F_STEP_MAX f) = (11, F_CPU / 64) ∧
        4 ≤ mcu_clamp_frequency F_STEP_MIN F_STEP_MAX f ∧
        mcu_clamp_frequency F_STEP_MIN F_STEP_MAX f < 31) ∨
     (mcu_prescaller (mcu_clamp_frequency F_STEP_MIN F_STEP_MAX f) = (12, F_CPU / 256) ∧
        1 ≤ mcu_clamp_frequency F_STEP_MIN F_STEP_MAX f ∧
        mcu_clamp_frequency F_STEP_MIN F_STEP_MAX f < 4)) ∧
    (mcu_freq_to_clocks fl F_STEP_MIN F_STEP_MAX f).2 =
      (mcu_prescaller (mcu_clamp_frequency F_STEP_MIN F_STEP_MAX f)).1 ∧
    (mcu_freq_to_clocks fl F_STEP_MIN F_STEP_MAX f).2 < 16 ∧
    0 ≤ ⌊(mcu_prescaller (mcu_clamp_frequency F_STEP_MIN F_STEP_MAX f)).2 /
          mcu_clamp_frequency F_STEP_MIN F_STEP_MAX f⌋ - 1 ∧
    ⌊(mcu_prescaller (mcu_clamp_frequency F_STEP_MIN F_STEP_MAX f)).2 /
          mcu_clamp_frequency F_STEP_MIN F_STEP_MAX f⌋ - 1 ≤ 65535 ∧
    ⌊(mcu_prescaller (mcu_clamp_frequency F_STEP_MIN F_STEP_MAX f)).2 /
          mcu_clamp_frequency F_STEP_MIN F_STEP_MAX f⌋ - 1 ≤
      ⌊fl ((mcu_prescaller (mcu_clamp_frequency F_STEP_MIN F_STEP_MAX f)).2 /
          mcu_clamp_frequency F_STEP_MIN F_STEP_MAX f)⌋ - 1 ∧
    ⌊fl ((mcu_prescaller (mcu_clamp_frequency F_STEP_MIN F_STEP_MAX f)).2 /
          mcu_clamp_frequency F_STEP_MIN F_STEP_MAX f)⌋ - 1 ≤
      ⌊(mcu_prescaller (mcu_clamp_frequency F_STEP_MIN F_STEP_MAX f)).2 /
          mcu_clamp_frequency F_STEP_MIN F_STEP_MAX f⌋ ∧
    0 ≤ ⌊fl ((mcu_prescaller (mcu_clamp_frequency F_STEP_MIN F_STEP_MAX f)).2 /
          mcu_clamp_frequency F_STEP_MIN F_STEP_MAX f)⌋ - 1 ∧
    ⌊fl ((mcu_prescaller (mcu_clamp_frequency F_STEP_MIN F_STEP_MAX f)).2 /
          mcu_clamp_frequency F_STEP_MIN F_STEP_MAX f)⌋ - 1 ≤ 65535 ∧
    ((mcu_freq_to_clocks fl F_STEP_MIN F_STEP_MAX f).1 : ℤ) =
      ⌊fl ((mcu_prescaller (mcu_clamp_frequency F_STEP_MIN F_STEP_MAX f)).2 /
          mcu_clamp_frequency F_STEP_MIN F_STEP_MAX f)⌋ - 1 ∧
    (∀ g : ℚ, F_STEP_MIN ≤ F_STEP_MAX → g < F_STEP_MIN →
      mcu_freq_to_clocks fl F_STEP_MIN F_STEP_MAX g =
        mcu_freq_to_clocks fl F_STEP_MIN F_STEP_MAX F_STEP_MIN) ∧
    (∀ g : ℚ, F_STEP_MIN ≤ F_STEP_MAX → F_STEP_MAX < g →
      mcu_freq_to_clocks fl F_STEP_MIN F_STEP_MAX g =
        mcu_freq_to_clocks fl F_STEP_MIN F_STEP_MAX F_STEP_MAX) := by
  obtain ⟨hc1, hc2⟩ := mcu_clamp_frequency_range F_STEP_MIN F_STEP_MAX f h1 h2
  obtain ⟨ht, hq1, hq2⟩ := mcu_prescaller_tiers _ hc1 (le_trans hc2 h3)
  have hfl1 : (1 : ℤ) ≤ ⌊(mcu_prescaller (mcu_clamp_frequency F_STEP_MIN F_STEP_MAX f)).2 /
          mcu_clamp_frequency F_STEP_MIN F_STEP_MAX f⌋ := Int.le_floor.2 (by exact_mod_cast hq1)
  have hfl2 : ⌊(mcu_prescaller (mcu_clamp_frequency F_STEP_MIN F_STEP_MAX f)).2 /
          mcu_clamp_frequency F_STEP_MIN F_STEP_MAX f⌋ < (65307 : ℤ) :=
    Int.floor_lt.2 (by exact_mod_cast hq2)
  obtain ⟨hr1, hr2⟩ := floor_of_rounded fl hmono hint _ (le_trans zero_le_one hq1) hq2
  have hp : (mcu_prescaller (mcu_clamp_frequency F_STEP_MIN F_STEP_MAX f)).1 < 16 := by
    rcases ht with ⟨h, -⟩ | ⟨h, -⟩ | ⟨h, -⟩ | ⟨h, -⟩ <;> rw [h] <;> norm_num
  refine ⟨⟨hc1, hc2⟩, ht, rfl, hp, by omega, by omega, by omega, by omega, by omega, by omega,
    ?_, ?_, ?_⟩
  · show ((⌊fl ((⌊fl _⌋ : ℚ) - 1)⌋ % 65536).toNat : ℤ) = _
    have hsub : fl ((⌊fl ((mcu_prescaller (mcu_clamp_frequency F_STEP_MIN F_STEP_MAX f)).2 /
          mcu_clamp_frequency F_STEP_MIN F_STEP_MAX f)⌋ : ℚ) - 1) =
        ((⌊fl ((mcu_prescaller (mcu_clamp_frequency F_STEP_MIN F_STEP_MAX f)).2 /
          mcu_clamp_frequency F_STEP_MIN F_STEP_MAX f)⌋ - 1 : ℤ) : ℚ) := by
      have := hint (⌊fl ((mcu_prescaller (mcu_clamp_frequency F_STEP_MIN F_STEP_MAX f)).2 /
          mcu_clamp_frequency F_STEP_MIN F_STEP_MAX f)⌋ - 1) (by rw [abs_le]; omega)
      rw [← this]
      push_cast
      rfl
    rw [hsub, Int.floor_intCast, Int.toNat_of_nonneg (Int.emod_nonneg _ (by norm_num))]
    exact Int.emod_eq_of_lt (by omega) (by omega)
  · intro g hmm hg
    unfold mcu_freq_to_clocks mcu_clamp_frequency
    simp [hg, not_lt.2 hmm]
  · intro g hmm hg
    have hg' : ¬ g < F_STEP_MIN := not_lt.2 (le_trans hmm (le_of_lt hg))
    unfold mcu_freq_to_clocks mcu_clamp_frequency
    simp [hg, hg', not_lt.2 hmm]

/-- C14, with `F_STEP_MIN` = 4 Hz and `F_STEP_MAX` = 30 kHz and the rounding of
single precision between 32768 and 65536, at the float 245.00421142578125
(`245 + 69 / 16384`): prescaler code 9; the exact quotient is 65304.99989..., so
`floor(clock / f) - 1 = 65303`; the rounded quotient is 65305.0 and 65304 ticks
are stored. At 1 kHz: prescaler code 9 and 15999 ticks. -/
theorem mcu_freq_to_clocks_fits_witness :
    mcu_freq_to_clocks round_q8 4 30000 (245 + 69 / 16384) = (65304, 9) ∧
    ⌊(mcu_prescaller (mcu_clamp_frequency 4 30000 (245 + 69 / 16384))).2 /
          mcu_clamp_frequency 4 30000 (245 + 69 / 16384)⌋ - 1 = 65303 ∧
    mcu_freq_to_clocks round_q8 4 30000 1000 = (15999, 9) ∧
    (mcu_freq_to_clocks round_q8 4 30000 (245 + 69 / 16384)).2 < 16 ∧
    ((mcu_freq_to_clocks round_q8 4 30000 (245 + 69 / 16384)).1 : ℤ) =
      ⌊round_q8 ((mcu_prescaller (mcu_clamp_frequency 4 30000 (245 + 69 / 16384))).2 /
          mcu_clamp_frequency 4 30000 (245 + 69 / 16384))⌋ - 1 :=
  have h := mcu_freq_to_clocks_fits round_q8 4 30000 (245 + 69 / 16384) round_q8_mono
    (fun n _ => round_q8_int n) (by norm_num) (by norm_num) (by unfold F_CPU; norm_num)
  ⟨by decide!, by decide!, by decide!, h.2.2.2.1, h.2.2.2.2.2.2.2.2.2.2.1⟩

/-! ## `mcu_eeprom_putc` -/

/-- The test `diff_mask & value` of line 772 finds a bit that is 0 in the old
byte and 1 in the new one. -/
theorem eeprom_needs_erase_iff (o v : Nat) (hv : v < 256) :
    ((o ^^^ v) % 256) &&& v ≠ 0 ↔ ∃ i, o.testBit i = false ∧ v.testBit i = true := by
  constructor
  · intro h
    obtain ⟨i, hi⟩ := Nat.ne_zero_implies_bit_true h
    rw [show (256 : Nat) = 2 ^ 8 from rfl, Nat.testBit_and, Nat.testBit_mod_two_pow,
      Nat.testBit_xor] at hi
    refine ⟨i, ?_, ?_⟩
    · cases ho : o.testBit i <;> cases hvi : v.testBit i <;> simp_all
    · cases hvi : v.testBit i <;> simp_all
  · rintro ⟨i, ho, hvi⟩ h0
    have hi : i < 8 := by
      by_contra hge
      have hlt : v < 2 ^ i :=
        lt_of_lt_of_le hv (Nat.pow_le_pow_right (by norm_num) (not_lt.1 hge) : 2 ^ 8 ≤ 2 ^ i)
      have hf := Nat.testBit_lt_two_pow hlt
      simp [hf] at hvi
    have ht : (((o ^^^ v) % 256) &&& v).testBit i = true := by
      rw [show (256 : Nat) = 2 ^ 8 from rfl, Nat.testBit_and, Nat.testBit_mod_two_pow,
        Nat.testBit_xor, ho, hvi]
      simp [hi]
    rw [h0, Nat.zero_testBit] at ht
    exact Bool.false_ne_true ht

/-- When no bit has to go from 0 to 1, ANDing the new byte into the cell yields
the new byte. -/
theorem eeprom_write_only_yields (o v : Nat)
    (h : ¬ ∃ i, o.testBit i = false ∧ v.testBit i = true) : o &&& v = v := by
  apply Nat.eq_of_testBit_eq
  intro i
  rw [Nat.testBit_and]
  cases ho : o.testBit i <;> cases hvi : v.testBit i <;> simp
  exact h ⟨i, ho, hvi⟩

/-- C19. For every old byte `o` and new byte `v`, the operation `mcu_eeprom_putc`
starts leaves the cell equal to `v` under the cell model (erase gives 0xFF,
write-only gives cell AND data, erase and write gives the data): erase and
write when some bit must go from 0 to 1 and `v` is not 0xFF, erase only when
some bit must go from 0 to 1 and `v` is 0xFF, write only when bits only go from
1 to 0, and no operation is started if and only if `o = v`. -/
theorem mcu_eeprom_putc_programs_value (o v address : Nat) (ho : o < 256) (hv : v < 256) :
    eeprom_cell_after (eeprom_started (mcu_eeprom_putc o address v).EECR) o
      (mcu_eeprom_putc o address v).EEDR = v ∧
    ((∃ i, o.testBit i = false ∧ v.testBit i = true) → v ≠ 0xff →
      eeprom_started (mcu_eeprom_putc o address v).EECR = some EepromOp.erase_write) ∧
    ((∃ i, o.testBit i = false ∧ v.testBit i = true) → v = 0xff →
      eeprom_started (mcu_eeprom_putc o address v).EECR = some EepromOp.erase_only) ∧
    ((¬ ∃ i, o.testBit i = false ∧ v.testBit i = true) → o ≠ v →
      eeprom_started (mcu_eeprom_putc o address v).EECR = some EepromOp.write_only) ∧
    (eeprom_started (mcu_eeprom_putc o address v).EECR = none ↔ o = v) := by
  have hmod : o % 256 = o := Nat.mod_eq_of_lt ho
  have hne := eeprom_needs_erase_iff o v hv
  have hdiff := xor_mod_ne_zero o v ho hv
  have hew : eeprom_started ((1 <<< EEMPE) ||| (0 <<< EEPM1) ||| (0 <<< EEPM0) ||| (1 <<< EEPE))
      = some EepromOp.erase_write := by decide
  have heo : eeprom_started ((1 <<< EEMPE) ||| (1 <<< EEPM0) ||| (1 <<< EEPE))
      = some EepromOp.erase_only := by decide
  have hwo : eeprom_started ((1 <<< EEMPE) ||| (1 <<< EEPM1) ||| (1 <<< EEPE))
      = some EepromOp.write_only := by decide
  have hrd : eeprom_started (1 <<< EERE) = none := by decide
  unfold mcu_eeprom_putc
  simp only [hmod]
  by_cases hE : ((o ^^^ v) % 256) &&& v ≠ 0
  · have hex := hne.1 hE
    have hov : o ≠ v := by
      rintro rfl
      obtain ⟨i, h1, h2⟩ := hex
      rw [h1] at h2
      exact Bool.false_ne_true h2
    rw [if_pos hE]
    by_cases hff : v ≠ 0xff
    · rw [if_pos hff]
      simp only [hew, eeprom_cell_after]
      exact ⟨trivial, fun _ _ => trivial, fun _ h => absurd h hff, fun h => absurd hex h,
        by simp [hov]⟩
    · rw [if_neg hff]
      have hv255 : v = 0xff := not_not.1 hff
      simp only [heo, eeprom_cell_after]
      exact ⟨hv255.symm, fun _ h => absurd hv255 h, fun _ _ => trivial, fun h => absurd hex h,
        by simp [hov]⟩
  · rw [if_neg hE]
    have hnex : ¬ ∃ i, o.testBit i = false ∧ v.testBit i = true := fun h => hE (hne.2 h)
    by_cases hD : (o ^^^ v) % 256 ≠ 0
    · rw [if_pos hD]
      have hov : o ≠ v := fun h => (hdiff.1 hD) h.symm
      simp only [hwo, eeprom_cell_after]
      exact ⟨eeprom_write_only_yields o v hnex, fun h => absurd h hnex, fun h => absurd h hnex,
        fun _ _ => trivial, by simp [hov]⟩
    · rw [if_neg hD]
      have hov : o = v := by
        by_contra hne2
        exact hD (hdiff.2 (fun h => hne2 h.symm))
      simp only [hrd, eeprom_cell_after]
      exact ⟨hov, fun h => absurd h hnex, fun h => absurd h hnex, fun _ h => absurd hov h,
        by simp [hov]⟩

/-- C19, on the four cases: 0x0F over 0xF0 (erase and write), 0xFF over 0x0F
(erase only), 0x05 over 0x0F (write only), 0x5A over 0x5A (nothing). -/
theorem mcu_eeprom_putc_programs_value_witness :
    (eeprom_started (mcu_eeprom_putc 0xf0 7 0x0f).EECR = some EepromOp.erase_write ∧
      eeprom_started (mcu_eeprom_putc 0x0f 7 0xff).EECR = some EepromOp.erase_only ∧
      eeprom_started (mcu_eeprom_putc 0x0f 7 0x05).EECR = some EepromOp.write_only ∧
      eeprom_started (mcu_eeprom_putc 0x5a 7 0x5a).EECR = none) ∧
    eeprom_cell_after (eeprom_started (mcu_eeprom_putc 0x0f 7 0x05).EECR) 0x0f
      (mcu_eeprom_putc 0x0f 7 0x05).EEDR = 0x05 :=
  ⟨by decide,
    (mcu_eeprom_putc_programs_value 0x0f 0x05 7 (by decide) (by decide)).1⟩

/-! ## The pin-change handlers -/

theorem limits_calls_append (a b : List IsrCall) :
    limits_calls (a ++ b) = limits_calls a ++ limits_calls b := by
  induction a with
  | nil => rfl
  | cons c cs ih => cases c <;> simp [limits_calls, ih]

theorem controls_calls_append (a b : List IsrCall) :
    controls_calls (a ++ b) = controls_calls a ++ controls_calls b := by
  induction a with
  | nil => rfl
  | cons c cs ih => cases c <;> simp [controls_calls, ih]

/-- What is reported next differs from what is recorded, and any two
consecutive reports differ. -/
theorem reported_changes_chain (recorded : Nat) (readings : List Nat) :
    List.Chain (fun a b => a ≠ b) recorded (reported_changes recorded readings) := by
  induction readings generalizing recorded with
  | nil => exact List.Chain.nil
  | cons x xs ih =>
    simp only [reported_changes]
    split
    · rename_i hne
      exact List.Chain.cons (fun h => hne h.symm) (ih x)
    · rename_i heq
      have hx : x = recorded := not_not.1 heq
      rw [hx]
      exact ih recorded

/-- One handler run, seen from the limits side. -/
theorem pcint_isr_limits (pc : PcintConfig) (st : PcintState) (irq : PinChange) :
    (irq.vect = pc.LIMITS_ISR_ID →
      limits_calls (pcint_isr pc st irq).calls = limits_calls st.calls ++
        reported_changes st.prev_limits [mcu_get_limits pc irq.LIMITS_INREG] ∧
      (pcint_isr pc st irq).prev_limits = mcu_get_limits pc irq.LIMITS_INREG) ∧
    (irq.vect ≠ pc.LIMITS_ISR_ID →
      limits_calls (pcint_isr pc st irq).calls = limits_calls st.calls ∧
      (pcint_isr pc st irq).prev_limits = st.prev_limits) := by
  unfold pcint_isr
  simp only [reported_changes]
  constructor
  · intro hv
    by_cases hl : st.prev_limits ≠ mcu_get_limits pc irq.LIMITS_INREG
    · have hl2 : mcu_get_limits pc irq.LIMITS_INREG ≠ st.prev_limits := fun h => hl h.symm
      simp only [hv, hl, hl2, if_true, ne_eq, not_false_eq_true]
      split_ifs <;> simp_all [limits_calls_append, limits_calls]
    · have hl1 : st.prev_limits = mcu_get_limits pc irq.LIMITS_INREG := not_not.1 hl
      simp only [hv, hl, if_true, if_false, ← hl1, ne_eq, not_true_eq_false]
      split_ifs <;> simp_all [limits_calls_append, limits_calls]
  · intro hv
    simp only [hv, if_false]
    split_ifs <;> simp_all [limits_calls_append, limits_calls]

/-- One handler run, seen from the controls side. -/
theorem pcint_isr_controls (pc : PcintConfig) (st : PcintState) (irq : PinChange) :
    (irq.vect = pc.CONTROLS_ISR_ID →
      controls_calls (pcint_isr pc st irq).calls = controls_calls st.calls ++
        reported_changes st.prev_controls [mcu_get_controls pc irq.CONTROLS_INREG] ∧
      (pcint_isr pc st irq).prev_controls = mcu_get_controls pc irq.CONTROLS_INREG) ∧
    (irq.vect ≠ pc.CONTROLS_ISR_ID →
      controls_calls (pcint_isr pc st irq).calls = controls_calls st.calls ∧
      (pcint_isr pc st irq).prev_controls = st.prev_controls) := by
  unfold pcint_isr
  simp only [reported_changes]
  constructor
  · intro hv
    by_cases hl : st.prev_controls ≠ mcu_get_controls pc irq.CONTROLS_INREG
    · have hl2 : mcu_get_controls pc irq.CONTROLS_INREG ≠ st.prev_controls :=
        fun h => hl h.symm
      simp only [hv, if_true]
      split_ifs <;> simp_all [controls_calls_append, controls_calls]
    · have hl1 : st.prev_controls = mcu_get_controls pc irq.CONTROLS_INREG := not_not.1 hl
      simp only [hv, if_true]
      split_ifs <;> simp_all [controls_calls_append, controls_calls]
  · intro hv
    simp only [hv, if_false]
    split_ifs <;> simp_all [controls_calls_append, controls_calls]

theorem reported_changes_cons (recorded x : Nat) (xs : List Nat) :
    reported_changes recorded (x :: xs) =
      reported_changes recorded [x] ++ reported_changes x xs := by
  simp only [reported_changes]
  split <;> simp

/-- A sequence of handler runs, seen from the limits side. -/
theorem pcint_run_limits (pc : PcintConfig) (st : PcintState) (irqs : List PinChange) :
    limits_calls (pcint_run pc st irqs).calls = limits_calls st.calls ++
      reported_changes st.prev_limits
        ((irqs.filter (fun q => decide (q.vect = pc.LIMITS_ISR_ID))).map
          (fun q => mcu_get_limits pc q.LIMITS_INREG)) := by
  induction irqs generalizing st with
  | nil => simp [pcint_run, reported_changes]
  | cons q rest ih =>
    simp only [pcint_run]
    rw [ih]
    by_cases hv : q.vect = pc.LIMITS_ISR_ID
    · obtain ⟨h1, h2⟩ := (pcint_isr_limits pc st q).1 hv
      rw [h1, h2, List.filter_cons_of_pos (by simpa using hv), List.map_cons,
        List.append_assoc]
      congr 1
      exact (reported_changes_cons _ _ _).symm
    · obtain ⟨h1, h2⟩ := (pcint_isr_limits pc st q).2 hv
      rw [h1, h2, List.filter_cons_of_neg (by simpa using hv)]

/-- A sequence of handler runs, seen from the controls side. -/
theorem pcint_run_controls (pc : PcintConfig) (st : PcintState) (irqs : List PinChange) :
    controls_calls (pcint_run pc st irqs).calls = controls_calls st.calls ++
      reported_changes st.prev_controls
        ((irqs.filter (fun q => decide (q.vect = pc.CONTROLS_ISR_ID))).map
          (fun q => mcu_get_controls pc q.CONTROLS_INREG)) := by
  induction irqs generalizing st with
  | nil => simp [pcint_run, reported_changes]
  | cons q rest ih =>
    simp only [pcint_run]
    rw [ih]
    by_cases hv : q.vect = pc.CONTROLS_ISR_ID
    · obtain ⟨h1, h2⟩ := (pcint_isr_controls pc st q).1 hv
      rw [h1, h2, List.filter_cons_of_pos (by simpa using hv), List.map_cons,
        List.append_assoc]
      congr 1
      exact (reported_changes_cons _ _ _).symm
    · obtain ⟨h1, h2⟩ := (pcint_isr_controls pc st q).2 hv
      rw [h1, h2, List.filter_cons_of_neg (by simpa using hv)]

/-- Handlers that are not preempted. For every sequence of pin-change
interrupts, each handler running to its end before the next starts: the masks
passed to `tc_limits_isr` are exactly the masked readings, taken at the
interrupts of the limits vector, that differ from the reading recorded before
(0 at reset), the reading taken is recorded afterwards, and no two consecutive
`tc_limits_isr` calls carry the same mask; a handler run whose reading equals
the recorded one makes no `tc_limits_isr` call. The same holds for
`tc_controls_isr` and the controls vector. -/
theorem pcint_run_reports_changes (pc : PcintConfig) (irqs : List PinChange) :
    (limits_calls (pcint_run pc pcint_reset irqs).calls =
        reported_changes 0
          ((irqs.filter (fun q => decide (q.vect = pc.LIMITS_ISR_ID))).map
            (fun q => mcu_get_limits pc q.LIMITS_INREG)) ∧
      List.Chain' (fun a b => a ≠ b) (limits_calls (pcint_run pc pcint_reset irqs).calls) ∧
      ∀ (st : PcintState) (q : PinChange), q.vect = pc.LIMITS_ISR_ID →
        (pcint_isr pc st q).prev_limits = mcu_get_limits pc q.LIMITS_INREG ∧
        (mcu_get_limits pc q.LIMITS_INREG = st.prev_limits →
          limits_calls (pcint_isr pc st q).calls = limits_calls st.calls) ∧
        (mcu_get_limits pc q.LIMITS_INREG ≠ st.prev_limits →
          limits_calls (pcint_isr pc st q).calls =
            limits_calls st.calls ++ [mcu_get_limits pc q.LIMITS_INREG])) ∧
    (controls_calls (pcint_run pc pcint_reset irqs).calls =
        reported_changes 0
          ((irqs.filter (fun q => decide (q.vect = pc.CONTROLS_ISR_ID))).map
            (fun q => mcu_get_controls pc q.CONTROLS_INREG)) ∧
      List.Chain' (fun a b => a ≠ b) (controls_calls (pcint_run pc pcint_reset irqs).calls) ∧
      ∀ (st : PcintState) (q : PinChange), q.vect = pc.CONTROLS_ISR_ID →
        (pcint_isr pc st q).prev_controls = mcu_get_controls pc q.CONTROLS_INREG ∧
        (mcu_get_controls pc q.CONTROLS_INREG = st.prev_controls →
          controls_calls (pcint_isr pc st q).calls = controls_calls st.calls) ∧
        (mcu_get_controls pc q.CONTROLS_INREG ≠ st.prev_controls →
          controls_calls (pcint_isr pc st q).calls =
            controls_calls st.calls ++ [mcu_get_controls pc q.CONTROLS_INREG])) := by
  have hl : limits_calls (pcint_run pc pcint_reset irqs).calls =
      reported_changes 0
        ((irqs.filter (fun q => decide (q.vect = pc.LIMITS_ISR_ID))).map
          (fun q => mcu_get_limits pc q.LIMITS_INREG)) := by
    rw [pcint_run_limits]
    rfl
  have hc : controls_calls (pcint_run pc pcint_reset irqs).calls =
      reported_changes 0
        ((irqs.filter (fun q => decide (q.vect = pc.CONTROLS_ISR_ID))).map
          (fun q => mcu_get_controls pc q.CONTROLS_INREG)) := by
    rw [pcint_run_controls]
    rfl
  refine ⟨⟨hl, ?_, ?_⟩, ⟨hc, ?_, ?_⟩⟩
  · rw [hl]
    exact (show List.Chain' (fun a b => a ≠ b) (0 :: reported_changes 0 _) from
      reported_changes_chain 0 _).tail
  · intro st q hv
    obtain ⟨h1, h2⟩ := (pcint_isr_limits pc st q).1 hv
    refine ⟨h2, fun he => ?_, fun hne => ?_⟩
    · rw [h1]
      simp [reported_changes, he]
    · rw [h1]
      simp [reported_changes, hne]
  · rw [hc]
    exact (show List.Chain' (fun a b => a ≠ b) (0 :: reported_changes 0 _) from
      reported_changes_chain 0 _).tail
  · intro st q hv
    obtain ⟨h1, h2⟩ := (pcint_isr_controls pc st q).1 hv
    refine ⟨h2, fun he => ?_, fun hne => ?_⟩
    · rw [h1]
      simp [reported_changes, he]
    · rw [h1]
      simp [reported_changes, hne]

/-- The statements of a handler, one by one. -/
theorem isr_step_points (pc : PcintConfig) (l c : Nat) (st : PcintState) (v lim con : Nat)
    (rest : List IsrFrame) :
    isr_step pc ⟨l, c, st, ⟨v, IsrPoint.limits_read, lim, con⟩ :: rest⟩ =
      (if v = pc.LIMITS_ISR_ID then
        ⟨l, c, st, ⟨v, IsrPoint.limits_test, mcu_get_limits pc l, con⟩ :: rest⟩
       else ⟨l, c, st, ⟨v, IsrPoint.controls_read, lim, con⟩ :: rest⟩) ∧
    isr_step pc ⟨l, c, st, ⟨v, IsrPoint.limits_test, lim, con⟩ :: rest⟩ =
      (if st.prev_limits ≠ lim then ⟨l, c, st, ⟨v, IsrPoint.limits_call, lim, con⟩ :: rest⟩
       else ⟨l, c, st, ⟨v, IsrPoint.controls_read, lim, con⟩ :: rest⟩) ∧
    isr_step pc ⟨l, c, st, ⟨v, IsrPoint.limits_call, lim, con⟩ :: rest⟩ =
      ⟨l, c, { st with calls := st.calls ++ [IsrCall.tc_limits_isr lim] },
        ⟨v, IsrPoint.limits_store, lim, con⟩ :: rest⟩ ∧
    isr_step pc ⟨l, c, st, ⟨v, IsrPoint.limits_store, lim, con⟩ :: rest⟩ =
      ⟨l, c, { st with prev_limits := lim }, ⟨v, IsrPoint.controls_read, lim, con⟩ :: rest⟩ ∧
    isr_step pc ⟨l, c, st, ⟨v, IsrPoint.controls_read, lim, con⟩ :: rest⟩ =
      (if v = pc.CONTROLS_ISR_ID then
        ⟨l, c, st, ⟨v, IsrPoint.controls_test, lim, mcu_get_controls pc c⟩ :: rest⟩
       else ⟨l, c, st, rest⟩) ∧
    isr_step pc ⟨l, c, st, ⟨v, IsrPoint.controls_test, lim, con⟩ :: rest⟩ =
      (if st.prev_controls ≠ con then ⟨l, c, st, ⟨v, IsrPoint.controls_call, lim, con⟩ :: rest⟩
       else ⟨l, c, st, rest⟩) ∧
    isr_step pc ⟨l, c, st, ⟨v, IsrPoint.controls_call, lim, con⟩ :: rest⟩ =
      ⟨l, c, { st with calls := st.calls ++ [IsrCall.tc_controls_isr con] },
        ⟨v, IsrPoint.controls_store, lim, con⟩ :: rest⟩ ∧
    isr_step pc ⟨l, c, st, ⟨v, IsrPoint.controls_store, lim, con⟩ :: rest⟩ =
      ⟨l, c, { st with prev_controls := con }, rest⟩ ∧
    isr_step pc ⟨l, c, st, []⟩ = ⟨l, c, st, []⟩ :=
  ⟨rfl, rfl, rfl, rfl, rfl, rfl, rfl, rfl, rfl⟩

/-- The controls half of a handler, run without preemption from the point
before `controls = mcu_get_controls()`, in at most four statements. -/
theorem isr_run_controls_half (pc : PcintConfig) (l c : Nat) (st : PcintState) (v lim con : Nat) :
    isr_step pc (isr_step pc (isr_step pc (isr_step pc
        ⟨l, c, st, [⟨v, IsrPoint.controls_read, lim, con⟩]⟩))) =
      ⟨l, c,
        (if v = pc.CONTROLS_ISR_ID then
          if st.prev_controls ≠ mcu_get_controls pc c then
            { st with calls := st.calls ++ [IsrCall.tc_controls_isr (mcu_get_controls pc c)],
                      prev_controls := mcu_get_controls pc c }
          else st
         else st), []⟩ := by
  obtain ⟨h1, h2, h3, h4, h5, h6, h7, h8, h9⟩ := isr_step_points pc l c st v lim con []
  rw [h5]
  by_cases hv : v = pc.CONTROLS_ISR_ID
  · rw [if_pos hv, if_pos hv, (isr_step_points pc l c st v lim (mcu_get_controls pc c) []).2.2.2.2.2.1]
    by_cases hp : st.prev_controls ≠ mcu_get_controls pc c
    · rw [if_pos hp, if_pos hp,
        (isr_step_points pc l c st v lim (mcu_get_controls pc c) []).2.2.2.2.2.2.1,
        (isr_step_points pc l c _ v lim (mcu_get_controls pc c) []).2.2.2.2.2.2.2.1]
    · rw [if_neg hp, if_neg hp, h9, h9]
  · rw [if_neg hv, if_neg hv, h9, h9, h9]

/-- A handler that is entered with no handler in flight and executes its eight
statements without being preempted does what `pcint_isr` says, and has returned. -/
theorem isr_run_handler (pc : PcintConfig) (m : IsrMachine) (irq : PinChange)
    (rest : List IsrAction) (hm : m.stack = []) :
    isr_run pc m (IsrAction.pin_change irq :: (List.replicate 8 IsrAction.step ++ rest)) =
      isr_run pc { LIMITS_INREG := irq.LIMITS_INREG, CONTROLS_INREG := irq.CONTROLS_INREG,
                   statics := pcint_isr pc m.statics irq, stack := [] } rest := by
  obtain ⟨l, c, st, stack⟩ := m
  simp only at hm
  subst hm
  have h8 : List.replicate 8 IsrAction.step =
      [IsrAction.step, IsrAction.step, IsrAction.step, IsrAction.step, IsrAction.step,
       IsrAction.step, IsrAction.step, IsrAction.step] := rfl
  rw [h8]
  simp only [List.cons_append, List.nil_append, isr_run, isr_act]
  congr 1
  have he : ∀ (l c : Nat) (st : PcintState), isr_step pc ⟨l, c, st, []⟩ = ⟨l, c, st, []⟩ :=
    fun _ _ _ => rfl
  rw [(isr_step_points pc irq.LIMITS_INREG irq.CONTROLS_INREG st irq.vect 0 0 []).1]
  by_cases h1 : irq.vect = pc.LIMITS_ISR_ID
  · rw [if_pos h1,
      (isr_step_points pc irq.LIMITS_INREG irq.CONTROLS_INREG st irq.vect
        (mcu_get_limits pc irq.LIMITS_INREG) 0 []).2.1]
    by_cases hp : st.prev_limits ≠ mcu_get_limits pc irq.LIMITS_INREG
    · rw [if_pos hp,
        (isr_step_points pc irq.LIMITS_INREG irq.CONTROLS_INREG st irq.vect
          (mcu_get_limits pc irq.LIMITS_INREG) 0 []).2.2.1,
        (isr_step_points pc irq.LIMITS_INREG irq.CONTROLS_INREG _ irq.vect
          (mcu_get_limits pc irq.LIMITS_INREG) 0 []).2.2.2.1,
        isr_run_controls_half]
      unfold pcint_isr
      simp only [if_pos h1, if_pos hp]
    · rw [if_neg hp, isr_run_controls_half, he, he]
      unfold pcint_isr
      simp only [if_pos h1, if_neg hp]
  · rw [if_neg h1, isr_run_controls_half, he, he, he]
    unfold pcint_isr
    simp only [if_neg h1]

/-- A schedule without preemption, started with no handler in flight, leaves
the statics as `pcint_run` says, and no handler in flight. -/
theorem isr_run_unpreempted (pc : PcintConfig) (m : IsrMachine) (irqs : List PinChange)
    (hm : m.stack = []) :
    (isr_run pc m (unpreempted irqs)).statics = pcint_run pc m.statics irqs ∧
    (isr_run pc m (unpreempted irqs)).stack = [] := by
  induction irqs generalizing m with
  | nil => exact ⟨rfl, hm⟩
  | cons q qs ih =>
    simp only [unpreempted, pcint_run]
    rw [isr_run_handler pc m q _ hm]
    exact ih _ rfl

/-- The machine on a schedule without preemption, from reset: the masks passed
to `tc_limits_isr` are the readings `LIMITS_INREG & LIMITS_MASK` taken at the
interrupts of the limits vector that differ from the one recorded before, no
two consecutive ones are equal, and likewise for `tc_controls_isr` with
`CONTROLS_INREG & CONTROLS_MASK`. -/
theorem unpreempted_handlers_report_changes (pc : PcintConfig) (irqs : List PinChange) :
    limits_calls (isr_run pc isr_reset (unpreempted irqs)).statics.calls =
      reported_changes 0
        ((irqs.filter (fun q => decide (q.vect = pc.LIMITS_ISR_ID))).map
          (fun q => (q.LIMITS_INREG &&& pc.LIMITS_MASK) % 256)) ∧
    List.Chain' (fun a b => a ≠ b)
      (limits_calls (isr_run pc isr_reset (unpreempted irqs)).statics.calls) ∧
    controls_calls (isr_run pc isr_reset (unpreempted irqs)).statics.calls =
      reported_changes 0
        ((irqs.filter (fun q => decide (q.vect = pc.CONTROLS_ISR_ID))).map
          (fun q => (q.CONTROLS_INREG &&& pc.CONTROLS_MASK) % 256)) ∧
    List.Chain' (fun a b => a ≠ b)
      (controls_calls (isr_run pc isr_reset (unpreempted irqs)).statics.calls) := by
  have hs : (isr_run pc isr_reset (unpreempted irqs)).statics = pcint_run pc pcint_reset irqs :=
    (isr_run_unpreempted pc isr_reset irqs rfl).1
  obtain ⟨⟨h1, h2, -⟩, ⟨h3, h4, -⟩⟩ := pcint_run_reports_changes pc irqs
  rw [hs]
  exact ⟨h1, h2, h3, h4⟩

/-- C17, on a schedule with a preempted handler (limits on vector 0, mask
0b00111; controls on vector 1, mask 0b01111). The first limit switch closes and
the handler calls `tc_limits_isr(1)`; before it stores `prev_limits` an
unrelated pin of the port changes, the handler is entered again, still finds
`prev_limits` = 0 against a masked reading of 1, and calls `tc_limits_isr(1)` a
second time: two consecutive calls with the same mask, the second for an
interrupt at which the limits had not changed. The same two pin changes without
preemption give one call. Likewise `tc_controls_isr(2)` is called twice. -/
theorem preempted_handler_reports_twice :
    (isr_run sim_pcint isr_reset preempted_limits).statics.calls =
      [IsrCall.tc_limits_isr 1, IsrCall.tc_limits_isr 1] ∧
    (isr_run sim_pcint isr_reset preempted_limits).stack = [] ∧
    (isr_run sim_pcint isr_reset
      (unpreempted [{ vect := 0, LIMITS_INREG := 1, CONTROLS_INREG := 0 },
                    { vect := 0, LIMITS_INREG := 9, CONTROLS_INREG := 0 }])).statics.calls =
      [IsrCall.tc_limits_isr 1] ∧
    (isr_run sim_pcint isr_reset preempted_controls).statics.calls =
      [IsrCall.tc_controls_isr 2, IsrCall.tc_controls_isr 2] ∧
    (isr_run sim_pcint isr_reset preempted_controls).stack = [] ∧
    (isr_run sim_pcint isr_reset
      (unpreempted [{ vect := 1, LIMITS_INREG := 0, CONTROLS_INREG := 18 },
                    { vect := 1, LIMITS_INREG := 0, CONTROLS_INREG := 50 }])).statics.calls =
      [IsrCall.tc_controls_isr 2] :=
  ⟨by rfl, by rfl, by rfl, by rfl, by rfl, by rfl⟩

/-! ## The step loop of `mc_line` against its signed reading -/

theorem to_int32_of_le (u : Nat) (h : u ≤ INT32_MAX) : to_int32 u = (u : Int) := by
  unfold INT32_MAX at h
  unfold to_int32 INT32_MAX
  have hm : u % 2 ^ 32 = u := Nat.mod_eq_of_lt (by omega)
  rw [hm, if_neg (by omega)]

theorem to_int32_of_gt (u : Nat) (h : INT32_MAX < u) (h32 : u < 2 ^ 32) :
    to_int32 u = (u : Int) - 2 ^ 32 := by
  unfold INT32_MAX at h
  unfold to_int32 INT32_MAX
  have hm : u % 2 ^ 32 = u := Nat.mod_eq_of_lt h32
  rw [hm, if_pos (by omega)]

/-- The unsigned test and negation of lines 146-152 compute the sign and the
absolute value of the signed delta. -/
theorem step_delta_spec (p q : Nat) :
    (INT32_MAX < (q % 2 ^ 32 + 2 ^ 32 - p % 2 ^ 32) % 2 ^ 32 ↔ step_delta p q < 0) ∧
    (INT32_MAX < (q % 2 ^ 32 + 2 ^ 32 - p % 2 ^ 32) % 2 ^ 32 →
      (step_delta p q).natAbs =
        (2 ^ 32 - (q % 2 ^ 32 + 2 ^ 32 - p % 2 ^ 32) % 2 ^ 32) % 2 ^ 32) ∧
    (¬ INT32_MAX < (q % 2 ^ 32 + 2 ^ 32 - p % 2 ^ 32) % 2 ^ 32 →
      (step_delta p q).natAbs = (q % 2 ^ 32 + 2 ^ 32 - p % 2 ^ 32) % 2 ^ 32) := by
  unfold step_delta
  generalize hu : (q % 2 ^ 32 + 2 ^ 32 - p % 2 ^ 32) % 2 ^ 32 = u
  have h32 : u < 2 ^ 32 := by
    rw [← hu]
    exact Nat.mod_lt _ (by norm_num)
  by_cases hgt : INT32_MAX < u
  · rw [to_int32_of_gt u hgt h32]
    unfold INT32_MAX at hgt
    refine ⟨⟨fun _ => by omega, fun _ => hgt⟩, fun _ => ?_, fun h => absurd hgt h⟩
    rw [Nat.mod_eq_of_lt (by omega)]
    omega
  · rw [to_int32_of_le u (not_lt.1 hgt)]
    refine ⟨⟨fun h => absurd h hgt, fun h => by omega⟩, fun h => absurd h hgt, fun _ => ?_⟩
    omega

/-- One turn of the source loop is one turn of the signed loop. -/
theorem mc_line_step_eq_signed (q : List Nat) (i : Nat) (b : motion_data_t F) :
    mc_line_step q i b = mc_line_step_signed q i b := by
  obtain ⟨h1, h2, h3⟩ := step_delta_spec (b.steps.getD i 0) (q.getD i 0)
  unfold mc_line_step mc_line_step_signed
  simp only []
  by_cases hgt : INT32_MAX < (q.getD i 0 % 2 ^ 32 + 2 ^ 32 - b.steps.getD i 0 % 2 ^ 32) % 2 ^ 32
  · have hneg := h1.1 hgt
    rw [if_pos hgt, if_pos hneg, h2 hgt]
    simp only [List.set_set]
  · have hneg : ¬ step_delta (b.steps.getD i 0) (q.getD i 0) < 0 := fun h => hgt (h1.2 h)
    rw [if_neg hgt, if_neg hneg, h3 hgt]

/-- The source loop is the signed loop. -/
theorem mc_line_steps_eq_signed (q : List Nat) (n : Nat) (b : motion_data_t F) :
    mc_line_steps q n b = mc_line_steps_signed q n b := by
  induction n generalizing b with
  | zero => rfl
  | succ n ih =>
    simp only [mc_line_steps, mc_line_steps_signed]
    rw [mc_line_step_eq_signed, ih]

theorem mc_line_step_signed_fields (q : List Nat) (i : Nat) (b : motion_data_t F) :
    (mc_line_step_signed q i b).steps =
      b.steps.set i (step_delta (b.steps.getD i 0) (q.getD i 0)).natAbs ∧
    (mc_line_step_signed q i b).dirbits =
      (if step_delta (b.steps.getD i 0) (q.getD i 0) < 0 then (b.dirbits ||| (1 <<< i)) % 256
       else b.dirbits) := by
  unfold mc_line_step_signed
  simp only []
  split_ifs <;> exact ⟨rfl, rfl⟩

/-- Bit `j` of an 8 bit mask after `mask |= (1 << n)`. -/
theorem testBit_or_shiftLeft_mod (x n j : Nat) (hx : x < 256) :
    ((x ||| (1 <<< n)) % 256).testBit j =
      (x.testBit j || (decide (j < 8) && decide (n = j))) := by
  rw [show (256 : Nat) = 2 ^ 8 from rfl, Nat.testBit_mod_two_pow, Nat.testBit_or,
    Nat.one_shiftLeft, Nat.testBit_two_pow]
  by_cases hj : j < 8
  · simp [hj]
  · have h8 : (2 : Nat) ^ 8 ≤ 2 ^ j := Nat.pow_le_pow_right (by norm_num) (not_lt.1 hj)
    have hf := Nat.testBit_lt_two_pow (lt_of_lt_of_le hx h8)
    simp [hj, hf]

/-- The signed loop, actuator by actuator: the step count is the absolute value
of the signed delta, and the direction bit is raised exactly for a negative
delta (within the 8 bits of `dirbits`). -/
theorem mc_line_steps_signed_spec (q : List Nat) (n : Nat) (b : motion_data_t F)
    (hb : b.dirbits < 256) :
    (mc_line_steps_signed q n b).dirbits < 256 ∧
    (∀ j, j < b.steps.length → (mc_line_steps_signed q n b).steps.getD j 0 =
      if j < n then (step_delta (b.steps.getD j 0) (q.getD j 0)).natAbs
      else b.steps.getD j 0) ∧
    (∀ j, (mc_line_steps_signed q n b).dirbits.testBit j =
      (b.dirbits.testBit j || (decide (j < n) && (decide (j < 8) &&
        decide (step_delta (b.steps.getD j 0) (q.getD j 0) < 0))))) := by
  induction n generalizing b with
  | zero => simp [mc_line_steps_signed, hb]
  | succ n ih =>
    simp only [mc_line_steps_signed]
    obtain ⟨hs, hd⟩ := mc_line_step_signed_fields q n b
    have hb1 : (mc_line_step_signed q n b).dirbits < 256 := by
      rw [hd]
      split
      · exact Nat.mod_lt _ (by norm_num)
      · exact hb
    obtain ⟨h1, h2, h3⟩ := ih (mc_line_step_signed q n b) hb1
    have hget : ∀ j, j ≠ n → (mc_line_step_signed q n b).steps.getD j 0 = b.steps.getD j 0 := by
      intro j hj
      rw [hs]
      simp only [List.getD_eq_getElem?_getD, List.getElem?_set]
      simp [Ne.symm hj]
    refine ⟨h1, fun j hj => ?_, fun j => ?_⟩
    · have hj1 : j < (mc_line_step_signed q n b).steps.length := by
        rw [hs, List.length_set]
        exact hj
      rw [h2 j hj1]
      by_cases hjn : j < n
      · have hne : j ≠ n := by omega
        rw [if_pos hjn, if_pos (Nat.lt_succ_of_lt hjn), hget j hne]
      · rw [if_neg hjn]
        by_cases hje : j = n
        · subst hje
          rw [if_pos (Nat.lt_succ_self _), hs, getD_set_nat _ _ _ _ hj, if_pos rfl]
        · have hnlt : ¬ j < n + 1 := by omega
          rw [if_neg hnlt, hget j hje]
    · rw [h3 j]
      by_cases hjn : j < n
      · have hne : j ≠ n := by omega
        have hne2 : n ≠ j := fun h => hne h.symm
        rw [hget j hne, hd]
        split
        · rw [testBit_or_shiftLeft_mod _ _ _ hb]
          simp [hjn, Nat.lt_succ_of_lt hjn, hne2]
        · simp [hjn, Nat.lt_succ_of_lt hjn]
      · by_cases hje : j = n
        · subst hje
          rw [hd]
          split
          · rename_i hneg
            rw [testBit_or_shiftLeft_mod _ _ _ hb, decide_eq_true hneg]
            simp
          · rename_i hneg
            rw [decide_eq_false hneg]
            simp
        · have hnlt : ¬ j < n + 1 := by omega
          have hne2 : n ≠ j := fun h => hje h.symm
          rw [hd]
          split
          · rw [testBit_or_shiftLeft_mod _ _ _ hb]
            simp [hjn, hnlt, hne2]
          · simp [hjn, hnlt]

/-- Lines 116-160 end in the step loop, run over the planner's step position. -/
theorem mc_line_motion_block_eq (cfg : Config) (ops : FloatOps F) (c : Collab E F)
    (w : World E F) (target : List F) (b : motion_data_t F) :
    ∃ b0 : motion_data_t F, b0.dirbits = b.dirbits ∧
      b0.steps = memcpy cfg.STEPPER_COUNT b.steps (c.planner_get_position w.env) ∧
      (mc_line_motion cfg ops c w target b).block =
        mc_line_steps (c.kinematics_apply_inverse w.env target) cfg.STEPPER_COUNT b0 := by
  unfold mc_line_motion
  simp only []
  split
  · exact ⟨_, by rfl, by rfl, rfl⟩
  · exact ⟨_, by rfl, by rfl, rfl⟩

/-- C15. In `mc_line`, with `p` the planner's step position and `q` the new step
position of actuator `i`, and `d` the difference `q - p` modulo 2^32 read as a
signed 32 bit integer: the block gets `steps[i] = |d|`, and bit `i` of `dirbits`
(reset to 0 on entry) is set if and only if `d < 0`; bits beyond the actuators
stay 0. The loop of the source (unsigned compare with INT32_MAX, unsigned
negation) is, on every input, the loop written with a signed difference, a sign
test and an absolute value. -/
theorem mc_line_steps_signed_delta (cfg : Config) (ops : FloatOps F) (c : Collab E F)
    (w : World E F) (target : List F) (b : motion_data_t F)
    (hn : cfg.STEPPER_COUNT ≤ 8)
    (hp : (c.planner_get_position w.env).length = cfg.STEPPER_COUNT)
    (hb : b.dirbits = 0) :
    (∀ i, i < cfg.STEPPER_COUNT →
      (mc_line_motion cfg ops c w target b).block.steps.getD i 0 =
        (step_delta ((c.planner_get_position w.env).getD i 0)
          ((c.kinematics_apply_inverse w.env target).getD i 0)).natAbs ∧
      ((mc_line_motion cfg ops c w target b).block.dirbits.testBit i = true ↔
        step_delta ((c.planner_get_position w.env).getD i 0)
          ((c.kinematics_apply_inverse w.env target).getD i 0) < 0)) ∧
    (∀ i, cfg.STEPPER_COUNT ≤ i →
      (mc_line_motion cfg ops c w target b).block.dirbits.testBit i = false) ∧
    (∀ (q : List Nat) (n : Nat) (b1 : motion_data_t F),
      mc_line_steps q n b1 = mc_line_steps_signed q n b1) := by
  obtain ⟨b0, hd0, hs0, hblock⟩ := mc_line_motion_block_eq cfg ops c w target b
  rw [hblock, mc_line_steps_eq_signed]
  have hb0 : b0.dirbits < 256 := by
    rw [hd0, hb]
    norm_num
  obtain ⟨-, h2, h3⟩ := mc_line_steps_signed_spec (c.kinematics_apply_inverse w.env target)
    cfg.STEPPER_COUNT b0 hb0
  have hlen : b0.steps.length = cfg.STEPPER_COUNT + (b.steps.length - cfg.STEPPER_COUNT) := by
    rw [hs0]
    simp [memcpy, hp]
  have hget : ∀ i, i < cfg.STEPPER_COUNT →
      b0.steps.getD i 0 = (c.planner_get_position w.env).getD i 0 := by
    intro i hi
    rw [hs0]
    simp only [memcpy, List.getD_eq_getElem?_getD]
    rw [List.take_of_length_le (le_of_eq hp), List.getElem?_append_left (by omega)]
  refine ⟨fun i hi => ⟨?_, ?_⟩, fun i hi => ?_, fun q n b1 => mc_line_steps_eq_signed q n b1⟩
  · rw [h2 i (by omega), if_pos hi, hget i hi]
  · rw [h3 i, hd0, hb, hget i hi]
    have hi8 : i < 8 := lt_of_lt_of_le hi hn
    simp [hi, hi8]
  · rw [h3 i, hd0, hb]
    have hni : ¬ i < cfg.STEPPER_COUNT := not_lt.2 hi
    simp [hni]

/-- C15, on the simulated machine: from step position (200, 0, 0) to (0, 0, 0)
the first actuator has delta -200: 200 steps and direction bit 0 set. -/
theorem mc_line_steps_signed_delta_witness :
    (∀ i, i < sim_cfg.STEPPER_COUNT →
      (mc_line_motion sim_cfg sim_ops sim_collab sim_world_at_one [0, 0, 0]
          sim_block).block.steps.getD i 0 =
        (step_delta ((sim_collab.planner_get_position sim_world_at_one.env).getD i 0)
          ((sim_collab.kinematics_apply_inverse sim_world_at_one.env [0, 0, 0]).getD i 0)).natAbs ∧
      ((mc_line_motion sim_cfg sim_ops sim_collab sim_world_at_one [0, 0, 0]
          sim_block).block.dirbits.testBit i = true ↔
        step_delta ((sim_collab.planner_get_position sim_world_at_one.env).getD i 0)
          ((sim_collab.kinematics_apply_inverse sim_world_at_one.env [0, 0, 0]).getD i 0) < 0)) ∧
    step_delta 200 0 = -200 ∧
    (mc_line_motion sim_cfg sim_ops sim_collab sim_world_at_one [0, 0, 0]
        sim_block).block.steps = [200, 0, 0] ∧
    (mc_line_motion sim_cfg sim_ops sim_collab sim_world_at_one [0, 0, 0]
        sim_block).block.dirbits = 1 :=
  ⟨(mc_line_steps_signed_delta sim_cfg sim_ops sim_collab sim_world_at_one [0, 0, 0] sim_block
      (by decide) (by decide) (by decide)).1,
    by decide, by decide, by decide⟩

/-! ## Guarded insertions -/

theorem guard_scan_append (a : Bool) (xs ys : List (Event F)) :
    guard_scan a (xs ++ ys) = (guard_scan a xs).bind (fun a1 => guard_scan a1 ys) := by
  induction xs generalizing a with
  | nil => simp [guard_scan]
  | cons x xs ih =>
    simp only [List.cons_append, guard_scan]
    cases guard_step a x with
    | none => simp
    | some a1 => simpa using ih a1

/-- The wait emits only room checks and turns of the event pump; when it ends
with room the last event is a check that answered false. -/
theorem wait_planner_space_guard (c : Collab E F) (fuel : Nat) (w w1 : World E F) (ok : Bool)
    (h : wait_planner_space c fuel w = some (ok, w1)) :
    ∃ evs, w1.trace = w.trace ++ evs ∧ ∀ a, guard_scan a evs = some ok := by
  induction fuel generalizing w with
  | zero => simp [wait_planner_space] at h
  | succ n ih =>
    simp only [wait_planner_space] at h
    split at h
    · rename_i hfull
      split at h
      · obtain ⟨evs, he, hs⟩ := ih _ h
        refine ⟨[Event.planner_buffer_is_full true, Event.cnc_doevents true] ++ evs, ?_, ?_⟩
        · rw [he]
          rename_i hr
          simp only [World.log] at hr
          simp [World.log, hfull, hr]
        · intro a
          simp [guard_scan, guard_step, hs]
      · simp at h
        obtain ⟨rfl, rfl⟩ := h
        rename_i hr
        refine ⟨[Event.planner_buffer_is_full true, Event.cnc_doevents false], ?_, ?_⟩
        · simp only [World.log] at hr
          simp [World.log, hfull]
          simpa using hr
        · intro a
          simp [guard_scan, guard_step]
    · rename_i hfull
      simp at h
      obtain ⟨rfl, rfl⟩ := h
      refine ⟨[Event.planner_buffer_is_full false], ?_, ?_⟩
      · simp [World.log]
        simpa using hfull
      · intro a
        simp [guard_scan, guard_step]

/-- When the wait ends with room, the planner is not full in the state it leaves. -/
theorem wait_planner_space_room (c : Collab E F) (fuel : Nat) (w w1 : World E F)
    (h : wait_planner_space c fuel w = some (true, w1)) :
    c.planner_buffer_is_full w1.env = false := by
  induction fuel generalizing w with
  | zero => simp [wait_planner_space] at h
  | succ n ih =>
    simp only [wait_planner_space] at h
    split at h
    · split at h
      · exact ih _ h
      · simp at h
    · rename_i hfull
      simp at h
      subst h
      simpa [World.log] using hfull

/-- The wait never raises the flag of the monitored planner. -/
theorem wait_planner_space_flag (c : Collab E F) (fuel : Nat) (w w1 : World (E × Bool) F)
    (ok : Bool) (h : wait_planner_space (monitored c) fuel w = some (ok, w1)) :
    w1.env.2 = w.env.2 := by
  induction fuel generalizing w with
  | zero => simp [wait_planner_space] at h
  | succ n ih =>
    simp only [wait_planner_space] at h
    split at h
    · split at h
      · have := ih _ h
        simpa [World.log, monitored] using this
      · simp at h
        obtain ⟨-, rfl⟩ := h
        simp [World.log, monitored]
    · simp at h
      obtain ⟨-, rfl⟩ := h
      simp [World.log]

/-- The backlash stage, entered with room: either it emits nothing, or the
insertion of the backlash block followed by a wait. -/
theorem mc_line_backlash_guard (cfg : Config) (ops : FloatOps F) (c : Collab E F) (fuel : Nat)
    (w w1 : World E F) (b : motion_data_t F) (ok : Bool)
    (h : mc_line_backlash cfg ops c fuel w b = some (ok, w1)) :
    ∃ evs, w1.trace = w.trace ++ evs ∧ guard_scan true evs = some ok := by
  unfold mc_line_backlash at h
  simp only [] at h
  split at h
  · split at h
    · split at h
      · simp at h
      · rename_i w2 hw
        simp at h
        obtain ⟨rfl, rfl⟩ := h
        obtain ⟨evs, he, hs⟩ := wait_planner_space_guard c fuel _ _ _ hw
        refine ⟨Event.planner_add_line none ?blk :: evs, ?h1, ?h2⟩
        case h1 =>
          simp only [he, call_planner_add_line, List.append_assoc]
          exact rfl
        case h2 => simp [guard_scan, guard_step, hs]
      · rename_i w2 hw
        simp at h
        obtain ⟨rfl, rfl⟩ := h
        obtain ⟨evs, he, hs⟩ := wait_planner_space_guard c fuel _ _ _ hw
        refine ⟨Event.planner_add_line none ?blk :: evs, ?h1, ?h2⟩
        case h1 =>
          simp only [he, call_planner_add_line, List.append_assoc]
          exact rfl
        case h2 => simp [guard_scan, guard_step, hs]
    · simp at h
      obtain ⟨rfl, rfl⟩ := h
      exact ⟨[], by simp, rfl⟩
  · simp at h
    obtain ⟨rfl, rfl⟩ := h
    exact ⟨[], by simp, rfl⟩

/-- Lines 114-211 of `mc_line`, entered with room: every insertion is guarded. -/
theorem mc_line_plan_guard (cfg : Config) (ops : FloatOps F) (c : Collab E F) (fuel : Nat)
    (feed : F) (w : World E F) (target : List F) (b : motion_data_t F) (r : LineResult E F)
    (h : mc_line_plan cfg ops c fuel feed w target b = some r) :
    ∃ evs, r.world.trace = w.trace ++ evs ∧ (guard_scan true evs).isSome = true := by
  unfold mc_line_plan at h
  split at h
  · have hm := (mc_line_motion_frame cfg ops c w target b).2.2.2.2.2.2.2
    simp only [] at h
    split at h
    · simp at h
    · rename_i w2 hb
      obtain ⟨evs, he, hs⟩ := mc_line_backlash_guard cfg ops c fuel _ _ _ _ hb
      simp only [mc_line_ret, Option.some.injEq] at h
      subst h
      refine ⟨evs ++ [Event.mc_line_return cfg.STATUS_CRITICAL_FAIL], ?_, ?_⟩
      · simp [World.log, he, hm]
      · simp [guard_scan_append, hs, guard_scan, guard_step]
    · rename_i w2 hb
      obtain ⟨evs, he, hs⟩ := mc_line_backlash_guard cfg ops c fuel _ _ _ _ hb
      simp only [mc_line_finish, mc_line_ret, Option.some.injEq] at h
      subst h
      refine ⟨evs ++ [Event.planner_add_line ?st ?blk, Event.mc_line_return STATUS_OK], ?h1, ?h2⟩
      case h1 =>
        simp only [World.log, call_planner_add_line, he, hm, List.append_assoc]
        exact rfl
      case h2 => simp [guard_scan_append, hs, guard_scan, guard_step]
  · simp only [mc_line_finish, mc_line_ret, Option.some.injEq] at h
    subst h
    refine ⟨[Event.planner_add_line ?st2 ?blk2, Event.mc_line_return STATUS_OK], ?h3, ?h4⟩
    case h3 =>
      simp only [World.log, call_planner_add_line, List.append_assoc]
      exact rfl
    case h4 => simp [guard_scan, guard_step]

/-- The trace reading for `mc_line`: the events of one call pass the scan. -/
theorem mc_line_guard (cfg : Config) (ops : FloatOps F) (c : Collab E F) (fuel : Nat)
    (w : World E F) (target : List F) (b : motion_data_t F) (r : LineResult E F)
    (h : mc_line cfg ops c fuel w target b = some r) :
    ∃ evs, r.world.trace = w.trace ++ evs ∧ adds_guarded evs = true := by
  unfold mc_line at h
  simp only [] at h
  split at h
  · split at h
    · simp only [mc_line_ret, Option.some.injEq] at h
      subst h
      exact ⟨[Event.mc_line_call target b, Event.mc_line_return cfg.STATUS_TRAVEL_EXCEEDED],
        by simp [World.log], by simp [adds_guarded, guard_scan, guard_step]⟩
    · simp only [mc_line_ret, Option.some.injEq] at h
      subst h
      exact ⟨[Event.mc_line_call target b, Event.cnc_alarm cfg.EXEC_ALARM_SOFT_LIMIT,
        Event.mc_line_return STATUS_OK],
        by simp [World.log], by simp [adds_guarded, guard_scan, guard_step]⟩
  · split at h
    · simp only [mc_line_ret, Option.some.injEq] at h
      subst h
      exact ⟨[Event.mc_line_call target b, Event.mc_line_return STATUS_OK],
        by simp [World.log], by simp [adds_guarded, guard_scan, guard_step]⟩
    · split at h
      · simp at h
      · rename_i w2 hw
        obtain ⟨evs, he, hs⟩ := wait_planner_space_guard c fuel _ _ _ hw
        simp only [mc_line_ret, Option.some.injEq] at h
        subst h
        refine ⟨Event.mc_line_call target b :: evs ++
          [Event.mc_line_return cfg.STATUS_CRITICAL_FAIL], ?_, ?_⟩
        · simp [World.log, he]
        · simp [adds_guarded, guard_scan, guard_step, guard_scan_append, hs]
      · rename_i w2 hw
        obtain ⟨evs, he, hs⟩ := wait_planner_space_guard c fuel _ _ _ hw
        obtain ⟨evs2, he2, hs2⟩ := mc_line_plan_guard cfg ops c fuel _ _ _ _ _ h
        refine ⟨Event.mc_line_call target b :: evs ++ evs2, ?_, ?_⟩
        · simp [he2, he, World.log]
        · simpa [adds_guarded, guard_scan, guard_step, guard_scan_append, hs] using hs2

/-- The trace reading for `mc_dwell`. -/
theorem mc_dwell_guard (cfg : Config) (c : Collab E F) (fuel : Nat) (w : World E F)
    (b : motion_data_t F) (r : Nat × World E F × motion_data_t F)
    (h : mc_dwell cfg c fuel w b = some r) :
    ∃ evs, r.2.1.trace = w.trace ++ evs ∧ adds_guarded evs = true := by
  unfold mc_dwell at h
  split at h
  · simp at h
    subst h
    exact ⟨[], by simp, rfl⟩
  · split at h
    · simp at h
    · rename_i w2 hw
      obtain ⟨evs, he, hs⟩ := wait_planner_space_guard c fuel _ _ _ hw
      simp at h
      subst h
      exact ⟨evs, he, by simp [adds_guarded, hs]⟩
    · rename_i w2 hw
      obtain ⟨evs, he, hs⟩ := wait_planner_space_guard c fuel _ _ _ hw
      simp only [Option.some.injEq] at h
      subst h
      refine ⟨evs ++ [Event.planner_add_line none ?blk], ?h1, ?h2⟩
      case h1 =>
        simp only [call_planner_add_line, he, List.append_assoc]
        exact rfl
      case h2 => simp [adds_guarded, guard_scan_append, hs, guard_scan, guard_step]

/-- The trace reading for `mc_update_tools`. -/
theorem mc_update_tools_guard (cfg : Config) (c : Collab E F) (fuel : Nat) (w : World E F)
    (b : motion_data_t F) (r : Nat × World E F × motion_data_t F)
    (h : mc_update_tools cfg c fuel w b = some r) :
    ∃ evs, r.2.1.trace = w.trace ++ evs ∧ adds_guarded evs = true := by
  unfold mc_update_tools at h
  split at h
  · simp at h
    subst h
    exact ⟨[], by simp, rfl⟩
  · split at h
    · simp at h
    · rename_i w2 hw
      obtain ⟨evs, he, hs⟩ := wait_planner_space_guard c fuel _ _ _ hw
      simp at h
      subst h
      exact ⟨evs, he, by simp [adds_guarded, hs]⟩
    · rename_i w2 hw
      obtain ⟨evs, he, hs⟩ := wait_planner_space_guard c fuel _ _ _ hw
      simp only [Option.some.injEq] at h
      subst h
      refine ⟨evs ++ [Event.planner_add_line none ?blk], ?h1, ?h2⟩
      case h1 =>
        simp only [call_planner_add_line, he, List.append_assoc]
        exact rfl
      case h2 => simp [adds_guarded, guard_scan_append, hs, guard_scan, guard_step]

/-- The backlash stage over the monitored planner, entered with room and the
flag down: the flag stays down, and on success there is room again. -/
theorem mc_line_backlash_flag (cfg : Config) (ops : FloatOps F) (c : Collab E F) (fuel : Nat)
    (w w1 : World (E × Bool) F) (b : motion_data_t F) (ok : Bool)
    (h : mc_line_backlash cfg ops (monitored c) fuel w b = some (ok, w1))
    (hflag : w.env.2 = false) (hroom : c.planner_buffer_is_full w.env.1 = false) :
    w1.env.2 = false ∧ (ok = true → c.planner_buffer_is_full w1.env.1 = false) := by
  unfold mc_line_backlash at h
  simp only [] at h
  split at h
  · split at h
    · split at h
      · simp at h
      · rename_i w2 hw
        simp at h
        obtain ⟨rfl, rfl⟩ := h
        have hf := wait_planner_space_flag c fuel _ _ _ hw
        simp only [call_planner_add_line, monitored, hflag, hroom, Bool.or_false] at hf
        exact ⟨hf, by simp⟩
      · rename_i w2 hw
        simp at h
        obtain ⟨rfl, rfl⟩ := h
        have hf := wait_planner_space_flag c fuel _ _ _ hw
        simp only [call_planner_add_line, monitored, hflag, hroom, Bool.or_false] at hf
        have hr := wait_planner_space_room (monitored c) fuel _ _ hw
        exact ⟨hf, fun _ => hr⟩
    · simp at h
      obtain ⟨rfl, rfl⟩ := h
      exact ⟨hflag, fun _ => hroom⟩
  · simp at h
    obtain ⟨rfl, rfl⟩ := h
    exact ⟨hflag, fun _ => hroom⟩

/-- Lines 114-211 of `mc_line` over the monitored planner, entered with room
and the flag down: the flag stays down. -/
theorem mc_line_plan_flag (cfg : Config) (ops : FloatOps F) (c : Collab E F) (fuel : Nat)
    (feed : F) (w : World (E × Bool) F) (target : List F) (b : motion_data_t F)
    (r : LineResult (E × Bool) F)
    (h : mc_line_plan cfg ops (monitored c) fuel feed w target b = some r)
    (hflag : w.env.2 = false) (hroom : c.planner_buffer_is_full w.env.1 = false) :
    r.world.env.2 = false := by
  unfold mc_line_plan at h
  split at h
  · have hm := (mc_line_motion_frame cfg ops (monitored c) w target b).2.2.2.2.2.2.1
    simp only [] at h
    split at h
    · simp at h
    · rename_i w2 hb
      have hf := mc_line_backlash_flag cfg ops c fuel _ _ _ _ hb (by rw [hm]; exact hflag)
        (by rw [hm]; exact hroom)
      simp only [mc_line_ret, Option.some.injEq] at h
      subst h
      simpa [World.log] using hf.1
    · rename_i w2 hb
      have hf := mc_line_backlash_flag cfg ops c fuel _ _ _ _ hb (by rw [hm]; exact hflag)
        (by rw [hm]; exact hroom)
      simp only [mc_line_finish, mc_line_ret, Option.some.injEq] at h
      subst h
      simp [World.log, call_planner_add_line, monitored, hf.1, hf.2 rfl]
  · simp only [mc_line_finish, mc_line_ret, Option.some.injEq] at h
    subst h
    simp [World.log, call_planner_add_line, monitored, hflag, hroom]

/-- The function `mc_line` over the monitored planner never raises the flag. -/
theorem mc_line_flag (cfg : Config) (ops : FloatOps F) (c : Collab E F) (fuel : Nat)
    (w : World (E × Bool) F) (target : List F) (b : motion_data_t F)
    (r : LineResult (E × Bool) F)
    (h : mc_line cfg ops (monitored c) fuel w target b = some r) (hflag : w.env.2 = false) :
    r.world.env.2 = false := by
  unfold mc_line at h
  simp only [] at h
  split at h
  · split at h
    · simp only [mc_line_ret, Option.some.injEq] at h
      subst h
      simpa [World.log] using hflag
    · simp only [mc_line_ret, Option.some.injEq] at h
      subst h
      simpa [World.log, monitored] using hflag
  · split at h
    · simp only [mc_line_ret, Option.some.injEq] at h
      subst h
      simpa [World.log] using hflag
    · split at h
      · simp at h
      · rename_i w2 hw
        have hf := wait_planner_space_flag c fuel _ _ _ hw
        simp only [mc_line_ret, Option.some.injEq] at h
        subst h
        simpa [World.log, hflag] using hf
      · rename_i w2 hw
        have hf := wait_planner_space_flag c fuel _ _ _ hw
        have hr := wait_planner_space_room (monitored c) fuel _ _ hw
        exact mc_line_plan_flag cfg ops c fuel _ _ _ _ _ h
          (by simpa [World.log, hflag] using hf) hr

/-- The function `mc_dwell` over the monitored planner never raises the flag. -/
theorem mc_dwell_flag (cfg : Config) (c : Collab E F) (fuel : Nat) (w : World (E × Bool) F)
    (b : motion_data_t F) (r : Nat × World (E × Bool) F × motion_data_t F)
    (h : mc_dwell cfg (monitored c) fuel w b = some r) (hflag : w.env.2 = false) :
    r.2.1.env.2 = false := by
  unfold mc_dwell at h
  split at h
  · simp at h
    subst h
    exact hflag
  · split at h
    · simp at h
    · rename_i w2 hw
      have hf := wait_planner_space_flag c fuel _ _ _ hw
      simp at h
      subst h
      simpa [hflag] using hf
    · rename_i w2 hw
      have hf := wait_planner_space_flag c fuel _ _ _ hw
      have hr := wait_planner_space_room (monitored c) fuel _ _ hw
      simp only [Option.some.injEq] at h
      subst h
      have hr1 : c.planner_buffer_is_full w2.env.1 = false := hr
      simp [call_planner_add_line, monitored, hf, hflag, hr1]

/-- The function `mc_update_tools` over the monitored planner never raises the flag. -/
theorem mc_update_tools_flag (cfg : Config) (c : Collab E F) (fuel : Nat)
    (w : World (E × Bool) F) (b : motion_data_t F)
    (r : Nat × World (E × Bool) F × motion_data_t F)
    (h : mc_update_tools cfg (monitored c) fuel w b = some r) (hflag : w.env.2 = false) :
    r.2.1.env.2 = false := by
  unfold mc_update_tools at h
  split at h
  · simp at h
    subst h
    exact hflag
  · split at h
    · simp at h
    · rename_i w2 hw
      have hf := wait_planner_space_flag c fuel _ _ _ hw
      simp at h
      subst h
      simpa [hflag] using hf
    · rename_i w2 hw
      have hf := wait_planner_space_flag c fuel _ _ _ hw
      have hr := wait_planner_space_room (monitored c) fuel _ _ hw
      simp only [Option.some.injEq] at h
      subst h
      have hr1 : c.planner_buffer_is_full w2.env.1 = false := hr
      simp [call_planner_add_line, monitored, hf, hflag, hr1]

/-- C18: in `mc_line` (backlash block and real block), `mc_dwell` and
`mc_update_tools`, for every collaborator behaviour and every returning call:
the events of the call pass the scan, that is, each `planner_add_line` comes
after a `planner_buffer_is_full` that answered false with no other insertion
(and no turn of the event pump) in between; and a planner that records whether
it was ever handed a block while full ends the call with the record clear. -/
theorem insertions_follow_room_check (cfg : Config) (ops : FloatOps F) (c : Collab E F)
    (fuel : Nat) (w : World E F) :
    (∀ target b r, mc_line cfg ops c fuel w target b = some r →
      ∃ evs, r.world.trace = w.trace ++ evs ∧ adds_guarded evs = true) ∧
    (∀ b r, mc_dwell cfg c fuel w b = some r →
      ∃ evs, r.2.1.trace = w.trace ++ evs ∧ adds_guarded evs = true) ∧
    (∀ b r, mc_update_tools cfg c fuel w b = some r →
      ∃ evs, r.2.1.trace = w.trace ++ evs ∧ adds_guarded evs = true) ∧
    (∀ target b r, mc_line cfg ops (monitored c) fuel w.watch target b = some r →
      r.world.env.2 = false) ∧
    (∀ b r, mc_dwell cfg (monitored c) fuel w.watch b = some r → r.2.1.env.2 = false) ∧
    (∀ b r, mc_update_tools cfg (monitored c) fuel w.watch b = some r →
      r.2.1.env.2 = false) :=
  ⟨fun target b r h => mc_line_guard cfg ops c fuel w target b r h,
   fun b r h => mc_dwell_guard cfg c fuel w b r h,
   fun b r h => mc_update_tools_guard cfg c fuel w b r h,
   fun target b r h => mc_line_flag cfg ops c fuel w.watch target b r h rfl,
   fun b r h => mc_dwell_flag cfg c fuel w.watch b r h rfl,
   fun b r h => mc_update_tools_flag cfg c fuel w.watch b r h rfl⟩

/-- C18, on the simulated machine: the move from x = 1 mm back to x = 0 hands the
planner two blocks (backlash, then real), the planner holding four; its events
pass the scan and the monitored planner keeps its record clear. -/
theorem insertions_follow_room_check_witness :
    (∃ evs, ((mc_line sim_cfg sim_ops sim_collab 1 sim_world_at_one [0, 0, 0]
        sim_block).get (by decide)).world.trace = sim_world_at_one.trace ++ evs ∧
      adds_guarded evs = true) ∧
    (planner_adds ((mc_line sim_cfg sim_ops sim_collab 1 sim_world_at_one [0, 0, 0]
        sim_block).get (by decide)).world.trace).length = 2 ∧
    ((mc_line sim_cfg sim_ops (monitored sim_collab) 1 sim_world_at_one.watch [0, 0, 0]
        sim_block).get (by decide)).world.env.2 = false :=
  ⟨(insertions_follow_room_check sim_cfg sim_ops sim_collab 1 sim_world_at_one).1
      [0, 0, 0] sim_block _ (Option.some_get _).symm,
   by decide,
   (insertions_follow_room_check sim_cfg sim_ops sim_collab 1 sim_world_at_one).2.2.2.1
      [0, 0, 0] sim_block _ (Option.some_get _).symm⟩

/-! ## The axes outside the arc plane -/

/-- C16, on the machine over rational arithmetic with a kinematic transform that
adds a tool length offset of 2 mm to z, in place: the arc from the origin to
(10, 0, 6) about (5, 0) in the XY plane, clockwise, radius 5, arc_tolerance 0.5
is cut in `floor(7.853... / 2.179...) = 3` segments, so z should be handed to
`mc_line` as 2, 4 and 6. The first intermediate point has z = 2; `mc_line`
rewrites the array of `mc_arc` to z = 4, and the second intermediate point is
handed over with z = 4 + 2 = 6 instead of 4. With the transform of `rat_collab`
(the identity) the points are 2, 4, 6. The caller's target array itself comes
back as (10, 0, 8). -/
theorem arc_linear_axis_drifts_under_transform :
    rat_world_coarse.mc_last_target = [0, 0, 0] ∧
    mc_arc_segment_count rat_ops rat_world_coarse.g_settings.arc_tolerance 5
      (mc_arc_angle sim_cfg rat_ops rat_world_coarse [10, 0, 6] 5 0 0 1 true) = 3 ∧
    (mc_arc sim_cfg rat_ops rat_collab_tool 1 rat_world_coarse [10, 0, 6] 5 0 5 0 1 true
      rat_block).map (fun r => (r.status, (line_calls r.world.trace).map (fun p => p.getD 2 0)))
      = some (STATUS_OK, [2, 6, 6]) ∧
    (mc_arc sim_cfg rat_ops rat_collab_tool 1 rat_world_coarse [10, 0, 6] 5 0 5 0 1 true
      rat_block).map (fun r => r.target) = some [10, 0, 8] ∧
    (mc_arc sim_cfg rat_ops rat_collab.toCollab 1 rat_world_coarse [10, 0, 6] 5 0 5 0 1 true
      rat_block).map (fun r => (r.status, (line_calls r.world.trace).map (fun p => p.getD 2 0)))
      = some (STATUS_OK, [2, 4, 6]) :=
  ⟨by rfl, by decide!, by decide!, by decide!, by decide!⟩

/-! ## `mc_home_axis` -/

/-- Inverting the same bits of an 8 bit mask twice gives the mask back. -/
theorem xor_twice_mod (m a : Nat) (hm : m < 256) : ((m ^^^ a) % 256 ^^^ a) % 256 = m := by
  apply Nat.eq_of_testBit_eq
  intro i
  have h256 : (256 : Nat) = 2 ^ 8 := by norm_num
  rw [h256, Nat.testBit_mod_two_pow, Nat.testBit_xor, Nat.testBit_mod_two_pow, Nat.testBit_xor]
  by_cases hi : i < 8
  · simp [hi]
  · have : m.testBit i = false := by
      apply Nat.testBit_lt_two_pow
      calc m < 2 ^ 8 := by rw [← h256]; exact hm
        _ ≤ 2 ^ i := Nat.pow_le_pow_right (by norm_num) (by omega)
    simp [hi, this]

/-- The waits of `mc_home_axis` leave the settings alone. -/
theorem home_wait_settings (hc : HomingConfig F) (c : HomingCollab E F) (fuel : Nat)
    (w w1 : World E F) (ok : Bool) (h : home_wait hc c fuel w = some (ok, w1)) :
    w1.g_settings = w.g_settings := by
  induction fuel generalizing w with
  | zero => simp [home_wait] at h
  | succ n ih =>
    simp only [home_wait] at h
    split at h
    · simp at h
      obtain ⟨-, rfl⟩ := h
      rfl
    · split at h
      · have := ih _ h
        simpa using this
      · simp at h
        obtain ⟨-, rfl⟩ := h
        rfl

/-- A homing move (unlock, `mc_line`, flag, wait) leaves the settings alone. -/
theorem home_move_settings (hc : HomingConfig F) (ops : FloatOps F) (c : HomingCollab E F)
    (fuel : Nat) (w w1 : World E F) (target t1 : List F) (b b1 : motion_data_t F) (ok : Bool)
    (h : home_move hc ops c fuel w target b = some (ok, w1, t1, b1)) :
    w1.g_settings = w.g_settings := by
  unfold home_move at h
  simp only [] at h
  split at h
  · simp at h
  · rename_i r hl
    have hf := (mc_line_frame _ _ _ _ _ _ _ _ hl).2.2.1
    split at h
    · simp at h
    · rename_i ok2 w2 hw
      have hs := home_wait_settings hc c fuel _ _ _ hw
      simp only [Option.some.injEq, Prod.mk.injEq] at h
      obtain ⟨-, rfl, -, -⟩ := h
      rw [hs]
      exact hf

/-- Where `mc_home_axis` leaves `g_settings`: the return of line 472 leaves the
invert mask XOR-ed with the limit mask; every other return leaves the settings
as they were on entry (for an invert mask of 8 bits). -/
theorem mc_home_axis_settings (hc : HomingConfig F) (ops : FloatOps F) (c : HomingCollab E F)
    (fuel : Nat) (w : World E F) (axis axis_limit : Nat) (r : HomeResult E F)
    (h : mc_home_axis hc ops c fuel w axis axis_limit = some r)
    (hm : w.g_settings.limits_invert_mask < 256) :
    (r.exit_line = 472 → r.world.g_settings.limits_invert_mask =
      (w.g_settings.limits_invert_mask ^^^ home_axis_limit hc axis axis_limit) % 256) ∧
    (r.exit_line ≠ 472 → r.world.g_settings = w.g_settings) := by
  unfold mc_home_axis at h
  simp only [] at h
  split at h
  · simp only [Option.some.injEq] at h
    subst h
    exact ⟨fun h => by simp at h, fun _ => rfl⟩
  · split at h
    · simp at h
    · rename_i w1 t1 b1 hfs
      have hs1 := home_move_settings hc ops c fuel _ _ _ _ _ _ _ hfs
      simp only [Option.some.injEq] at h
      subst h
      exact ⟨fun h => by simp at h, fun _ => by rw [hs1]; rfl⟩
    · rename_i w1 t1 b1 hfs
      have hs1 : w1.g_settings = w.g_settings := by
        have := home_move_settings hc ops c fuel _ _ _ _ _ _ _ hfs
        rw [this]
        rfl
      unfold home_second_pass at h
      simp only [] at h
      split at h
      · simp only [Option.some.injEq] at h
        subst h
        exact ⟨fun h => by simp at h, fun _ => hs1⟩
      · split at h
        · simp only [Option.some.injEq] at h
          subst h
          exact ⟨fun h => by simp at h, fun _ => hs1⟩
        · split at h
          · simp at h
          · rename_i w2 t2 b2 hsb
            have hs2 := home_move_settings hc ops c fuel _ _ _ _ _ _ _ hsb
            simp only [Option.some.injEq] at h
            subst h
            refine ⟨fun _ => ?_, fun h => by simp at h⟩
            simp only [hs2]
            simp only [home_flush_fast, hs1]
          · rename_i w2 t2 b2 hsb
            have hs2 := home_move_settings hc ops c fuel _ _ _ _ _ _ _ hsb
            simp only [Option.some.injEq] at h
            subst h
            have hg : (home_flush_slow c w2 (home_axis_limit hc axis axis_limit)).g_settings
                = w.g_settings := by
              simp only [home_flush_slow, hs2]
              simp only [home_flush_fast, hs1]
              rw [xor_twice_mod _ _ hm]
            unfold home_finish
            simp only []
            split
            · exact ⟨fun h => by simp at h, fun _ => hg⟩
            · split
              · exact ⟨fun h => by simp at h, fun _ => hg⟩
              · exact ⟨fun h => by simp at h, fun _ => hg⟩

/-- C12, on the homing machine (X switch, `axis_limit` = 1, invert mask 0 on
entry). When the event pump answers `false` during the wait of the slow
back-off, `mc_home_axis` returns STATUS_CRITICAL_FAIL from line 472 and
`g_settings.limits_invert_mask` is left at 1: the XOR of line 462 is not undone,
the one of line 477 is never reached. The same call with a pump that keeps
answering `true` returns STATUS_OK from line 496 with the mask back at 0; a
pump that answers `false` during the first wait returns from line 422, mask 0. -/
theorem critical_fail_leaves_limit_mask_inverted :
    (rat_world [true, false]).g_settings.limits_invert_mask = 0 ∧
    (mc_home_axis rat_hc rat_ops rat_collab 2 (rat_world [true, false]) 0 1).map home_summary
      = some (rat_hc.STATUS_CRITICAL_FAIL, 472, 1, [[-300, 0, 0], [-295, 0, 0]]) ∧
    (mc_home_axis rat_hc rat_ops rat_collab 2 (rat_world []) 0 1).map home_summary
      = some (STATUS_OK, 496, 0, [[-300, 0, 0], [-295, 0, 0]]) ∧
    (mc_home_axis rat_hc rat_ops rat_collab 2 (rat_world [false]) 0 1).map home_summary
      = some (rat_hc.STATUS_CRITICAL_FAIL, 422, 0, [[-300, 0, 0]]) :=
  ⟨by rfl, by decide!, by decide!, by decide!⟩

/-- C13. A call of `mc_home_axis` that returns STATUS_OK went through every
stage: after `cnc_unlock` the exec state had neither HOLD nor ALARM and no limit
of LIMITS_MASK was active; the fast seek ended its wait without bailing out,
and then (read after the flush of lines 427-429) EXEC_ABORT was clear and a
requested limit read active; the slow back-off ended its wait without bailing
out, and then (read after lines 477-482) EXEC_ABORT was clear and no requested
limit read active. Moreover, once the fast seek has ended its wait: EXEC_ABORT
set gives EXEC_ALARM_HOMING_FAIL_RESET; EXEC_ABORT clear and no requested limit
active gives EXEC_ALARM_HOMING_FAIL_APPROACH; and once the slow back-off has
ended its wait, EXEC_ABORT set gives EXEC_ALARM_HOMING_FAIL_RESET. The failure
codes and STATUS_CRITICAL_FAIL are taken to differ from STATUS_OK. -/
theorem mc_home_axis_ok_only_if (hc : HomingConfig F) (ops : FloatOps F) (c : HomingCollab E F)
    (fuel : Nat) (w : World E F) (axis axis_limit : Nat) (r : HomeResult E F)
    (h : mc_home_axis hc ops c fuel w axis axis_limit = some r)
    (hla : hc.EXEC_ALARM_HOMING_FAIL_LIMIT_ACTIVE ≠ STATUS_OK)
    (hrs : hc.EXEC_ALARM_HOMING_FAIL_RESET ≠ STATUS_OK)
    (hap : hc.EXEC_ALARM_HOMING_FAIL_APPROACH ≠ STATUS_OK)
    (hcf : hc.STATUS_CRITICAL_FAIL ≠ STATUS_OK) :
    (r.status = STATUS_OK →
      ∃ w1 t1 b1 w2 t2 b2,
        c.cnc_get_exec_state (home_entry c w).env (hc.EXEC_HOLD ||| hc.EXEC_ALARM) = 0 ∧
        CHECKFLAG (c.io_get_limits (home_entry c w).env (home_entry c w).g_settings)
          hc.LIMITS_MASK = false ∧
        home_fast_seek hc ops c fuel (home_entry c w) axis (home_axis_limit hc axis axis_limit)
          = some (true, w1, t1, b1) ∧
        c.cnc_get_exec_state (home_flush_fast c w1).env hc.EXEC_ABORT = 0 ∧
        CHECKFLAG (c.io_get_limits (home_flush_fast c w1).env (home_flush_fast c w1).g_settings)
          (home_axis_limit hc axis axis_limit) = true ∧
        home_slow_backoff hc ops c fuel (home_flush_fast c w1) axis
          (home_axis_limit hc axis axis_limit) t1 b1 = some (true, w2, t2, b2) ∧
        c.cnc_get_exec_state (home_flush_slow c w2 (home_axis_limit hc axis axis_limit)).env
          hc.EXEC_ABORT = 0 ∧
        CHECKFLAG
          (c.io_get_limits (home_flush_slow c w2 (home_axis_limit hc axis axis_limit)).env
            (home_flush_slow c w2 (home_axis_limit hc axis axis_limit)).g_settings)
          (home_axis_limit hc axis axis_limit) = false) ∧
    (∀ w1 t1 b1, home_refused hc c (home_entry c w) = false →
      home_fast_seek hc ops c fuel (home_entry c w) axis (home_axis_limit hc axis axis_limit)
        = some (true, w1, t1, b1) →
      (c.cnc_get_exec_state (home_flush_fast c w1).env hc.EXEC_ABORT ≠ 0 →
        r.status = hc.EXEC_ALARM_HOMING_FAIL_RESET) ∧
      (c.cnc_get_exec_state (home_flush_fast c w1).env hc.EXEC_ABORT = 0 →
        CHECKFLAG (c.io_get_limits (home_flush_fast c w1).env (home_flush_fast c w1).g_settings)
          (home_axis_limit hc axis axis_limit) = false →
        r.status = hc.EXEC_ALARM_HOMING_FAIL_APPROACH) ∧
      (∀ w2 t2 b2, c.cnc_get_exec_state (home_flush_fast c w1).env hc.EXEC_ABORT = 0 →
        CHECKFLAG (c.io_get_limits (home_flush_fast c w1).env (home_flush_fast c w1).g_settings)
          (home_axis_limit hc axis axis_limit) = true →
        home_slow_backoff hc ops c fuel (home_flush_fast c w1) axis
          (home_axis_limit hc axis axis_limit) t1 b1 = some (true, w2, t2, b2) →
        c.cnc_get_exec_state (home_flush_slow c w2 (home_axis_limit hc axis axis_limit)).env
          hc.EXEC_ABORT ≠ 0 →
        r.status = hc.EXEC_ALARM_HOMING_FAIL_RESET)) := by
  unfold mc_home_axis at h
  simp only [] at h
  refine ⟨fun hok => ?_, fun w1 t1 b1 hnr hfs => ?_⟩
  · split at h
    · simp only [Option.some.injEq] at h
      subst h
      exact absurd hok hla
    · rename_i href
      have href1 : home_refused hc c (home_entry c w) = false := by simpa using href
      unfold home_refused at href1
      simp only [Bool.or_eq_false_iff, bne_eq_false_iff_eq] at href1
      split at h
      · simp at h
      · simp only [Option.some.injEq] at h
        subst h
        exact absurd hok hcf
      · rename_i w1 t1 b1 hfs
        unfold home_second_pass at h
        simp only [] at h
        split at h
        · simp only [Option.some.injEq] at h
          subst h
          exact absurd hok hrs
        · rename_i hab
          split at h
          · simp only [Option.some.injEq] at h
            subst h
            exact absurd hok hap
          · rename_i hlim
            split at h
            · simp at h
            · simp only [Option.some.injEq] at h
              subst h
              exact absurd hok hcf
            · rename_i w2 t2 b2 hsb
              simp only [Option.some.injEq] at h
              subst h
              unfold home_finish at hok
              simp only [] at hok
              split at hok
              · exact absurd hok hrs
              · rename_i hab2
                split at hok
                · exact absurd hok hap
                · rename_i hlim2
                  exact ⟨w1, t1, b1, w2, t2, b2, href1.1, href1.2, hfs, by simpa using hab,
                    by simpa using hlim, hsb, by simpa using hab2, by simpa using hlim2⟩
  · rw [if_neg (by simp [hnr]), hfs] at h
    simp only [] at h
    unfold home_second_pass at h
    simp only [] at h
    refine ⟨fun hab => ?_, fun hab hlim => ?_, fun w2 t2 b2 hab hlim hsb hab2 => ?_⟩
    · rw [if_pos hab] at h
      simp only [Option.some.injEq] at h
      subst h
      rfl
    · rw [if_neg (by simp [hab]), if_pos (by simp [hlim])] at h
      simp only [Option.some.injEq] at h
      subst h
      rfl
    · rw [if_neg (by simp [hab]), if_neg (by simp [hlim]), hsb] at h
      simp only [Option.some.injEq] at h
      subst h
      unfold home_finish
      simp only []
      rw [if_pos hab2]

/-- C13, on the homing machine with a pump that keeps answering `true`: the
call returns STATUS_OK, the failure codes 7, 6, 9 and 255 differ from it, and
the stages are as the theorem says (switch open at the origin, closed after the
seek to -300 mm, open again after the back-off to -295 mm). -/
theorem mc_home_axis_ok_only_if_witness :
    ((mc_home_axis rat_hc rat_ops rat_collab 2 (rat_world []) 0 1).get (by decide!)).status
      = STATUS_OK ∧
    ∃ w1 t1 b1 w2 t2 b2,
      rat_collab.cnc_get_exec_state (home_entry rat_collab (rat_world [])).env
        (rat_hc.EXEC_HOLD ||| rat_hc.EXEC_ALARM) = 0 ∧
      CHECKFLAG (rat_collab.io_get_limits (home_entry rat_collab (rat_world [])).env
        (home_entry rat_collab (rat_world [])).g_settings) rat_hc.LIMITS_MASK = false ∧
      home_fast_seek rat_hc rat_ops rat_collab 2 (home_entry rat_collab (rat_world [])) 0
        (home_axis_limit rat_hc 0 1) = some (true, w1, t1, b1) ∧
      rat_collab.cnc_get_exec_state (home_flush_fast rat_collab w1).env rat_hc.EXEC_ABORT = 0 ∧
      CHECKFLAG (rat_collab.io_get_limits (home_flush_fast rat_collab w1).env
        (home_flush_fast rat_collab w1).g_settings) (home_axis_limit rat_hc 0 1) = true ∧
      home_slow_backoff rat_hc rat_ops rat_collab 2 (home_flush_fast rat_collab w1) 0
        (home_axis_limit rat_hc 0 1) t1 b1 = some (true, w2, t2, b2) ∧
      rat_collab.cnc_get_exec_state
        (home_flush_slow rat_collab w2 (home_axis_limit rat_hc 0 1)).env rat_hc.EXEC_ABORT = 0 ∧
      CHECKFLAG
        (rat_collab.io_get_limits (home_flush_slow rat_collab w2 (home_axis_limit rat_hc 0 1)).env
          (home_flush_slow rat_collab w2 (home_axis_limit rat_hc 0 1)).g_settings)
        (home_axis_limit rat_hc 0 1) = false :=
  ⟨by decide!,
   (mc_home_axis_ok_only_if rat_hc rat_ops rat_collab 2 (rat_world []) 0 1
      ((mc_home_axis rat_hc rat_ops rat_collab 2 (rat_world []) 0 1).get (by decide!))
      (Option.some_get _).symm (by decide) (by decide) (by decide) (by decide)).1 (by decide!)⟩

/-! ## The half circle of radius 5 -/

/-- The swept angle of the arc from the origin to (10, 0, 0) about (5, 0),
clockwise, in rational arithmetic: `atan2(0, -25) - 2 pi = -pi`. -/
theorem half_circle_angle (cfg : Config) (w : World E ℚ) (haxes : cfg.AXIS_COUNT = 3)
    (hpos : w.mc_last_target = [0, 0, 0]) :
    mc_arc_angle cfg rat_ops w [10, 0, 0] 5 0 0 1 true = -rat_pi := by
  simp only [mc_arc_angle, mc_get_position, memcpy, haxes, hpos]
  decide!

/-- The segment count of the half circle of radius 5 at a tolerance of 0.002:
`floor(|5 * (-pi) / 2| / sqrt(0.002 * (10 - 0.002))) = floor(7.853... / 0.141407) = 55`. -/
theorem half_circle_segment_count : mc_arc_segment_count rat_ops (2 / 1000) 5 (-rat_pi) = 55 := by
  decide!

/-- C11, as stated: on the machine over rational arithmetic, the arc from
(0,0,0) to (10,0,0) with centre offsets (5,0) in the XY plane, clockwise, radius
5, arc_tolerance 0.002 has a swept angle of `-pi`, a segment count of 55, and
makes 55 calls of `mc_line`, all returning STATUS_OK: fewer than 111. The
quotient is `(pi * 5 / 2) / sqrt(0.002 * (10 - 0.002))`, with the halving of
line 253. -/
theorem half_circle_makes_fewer_than_111_calls :
    rat_world_arc.mc_last_target = [0, 0, 0] ∧
    rat_world_arc.g_settings.arc_tolerance = 2 / 1000 ∧
    mc_arc_angle sim_cfg rat_ops rat_world_arc [10, 0, 0] 5 0 0 1 true = -rat_pi ∧
    mc_arc_segment_count rat_ops rat_world_arc.g_settings.arc_tolerance 5
      (mc_arc_angle sim_cfg rat_ops rat_world_arc [10, 0, 0] 5 0 0 1 true) = 55 ∧
    (mc_arc sim_cfg rat_ops rat_collab.toCollab 1 rat_world_arc [10, 0, 0] 5 0 5 0 1 true
      rat_block).map (fun r => (r.status, (line_calls r.world.trace).length,
        (line_returns r.world.trace).all (fun st => st == STATUS_OK)))
      = some (STATUS_OK, 55, true) ∧
    ¬ (111 ≤ 55) :=
  ⟨by rfl, by rfl, by decide!, by decide!, by decide!, by decide⟩

/-- C11, amended: for every machine over rational arithmetic with three axes,
standing at the origin with arc_tolerance 0.002, the arc to (10,0,0) with centre
offsets (5,0) in the XY plane, clockwise, radius 5 has segment count
`floor((pi * 5 / 2) / sqrt(0.002 * (10 - 0.002))) = 55`, and a call of `mc_arc`
whose `mc_line` calls all return STATUS_OK makes exactly 55 of them. -/
theorem half_circle_makes_55_calls (cfg : Config) (c : Collab E ℚ) (fuel : Nat)
    (w : World E ℚ) (b : motion_data_t ℚ) (r : LineResult E ℚ)
    (haxes : cfg.AXIS_COUNT = 3) (hpos : w.mc_last_target = [0, 0, 0])
    (htol : w.g_settings.arc_tolerance = 2 / 1000)
    (h : mc_arc cfg rat_ops c fuel w [10, 0, 0] 5 0 5 0 1 true b = some r)
    (hall : ∀ st ∈ (line_returns r.world.trace).drop (line_returns w.trace).length,
      st = STATUS_OK) :
    mc_arc_segment_count rat_ops w.g_settings.arc_tolerance 5
      (mc_arc_angle cfg rat_ops w [10, 0, 0] 5 0 0 1 true) = 55 ∧
    ((line_calls r.world.trace).drop (line_calls w.trace).length).length = 55 := by
  have hn : mc_arc_segment_count rat_ops w.g_settings.arc_tolerance 5
      (mc_arc_angle cfg rat_ops w [10, 0, 0] 5 0 0 1 true) = 55 := by
    rw [htol, half_circle_angle cfg w haxes hpos]
    exact half_circle_segment_count
  refine ⟨hn, ?_⟩
  obtain ⟨calls, rets, h1, h2, h3, h4⟩ := mc_arc_calls cfg rat_ops c fuel w [10, 0, 0] 5 0 5
    0 1 true b r h
  rw [h2, List.drop_left] at hall
  rw [h1, List.drop_left]
  rw [hn] at h4
  rcases h4 with ⟨hne, j, -, h6⟩ | ⟨h6, -, -⟩
  · exfalso
    exact hne (hall r.status (by rw [h6]; simp))
  · rw [h3, h6]
    simp

/-- C11, amended, on the machine over rational arithmetic with a planner of 128
blocks: the call returns, all its `mc_line` calls return STATUS_OK, and there
are 55 of them. -/
theorem half_circle_makes_55_calls_witness :
    mc_arc_segment_count rat_ops rat_world_arc.g_settings.arc_tolerance 5
      (mc_arc_angle sim_cfg rat_ops rat_world_arc [10, 0, 0] 5 0 0 1 true) = 55 ∧
    ((line_calls ((mc_arc sim_cfg rat_ops rat_collab.toCollab 1 rat_world_arc [10, 0, 0] 5 0 5
        0 1 true rat_block).get (by decide!)).world.trace).drop
        (line_calls rat_world_arc.trace).length).length = 55 :=
  half_circle_makes_55_calls sim_cfg rat_collab.toCollab 1 rat_world_arc rat_block
    ((mc_arc sim_cfg rat_ops rat_collab.toCollab 1 rat_world_arc [10, 0, 0] 5 0 5 0 1 true
      rat_block).get (by decide!))
    (by rfl) (by rfl) (by rfl) (Option.some_get _).symm (by decide!)

end Proofs
end uCNC
